import Mathlib

/-!
# Side-by-side (SBS) stereo detection: `leia_stub.cpp` / `leia_jni.cpp`

A shallow embedding of the native SBS classifier of moonlight-android and of
its switch for the 3D backend (`app/src/main/jni/leia_stub.cpp`; `leia_jni.cpp`
is the same code in a compact layout) together with theorems about them.

Conventions of the embedding.

* A C++ pointer to bytes (`const uint8_t*`) is a total map `Int → U8` from the
  offset relative to the pointer to the byte stored there.  Whether an offset
  lies inside the allocation is stated separately, as an inequality on the
  offset.
* A C++ `int` is an `Int`; every arithmetic result that is stored in an `int`
  goes through `wrapS32` (two's complement wrap-around).
* A C++ `float` is the rational number it denotes; every floating point
  operation rounds its exact result with `f32round` (IEEE-754 binary32,
  round to nearest, ties to even).
* A library handle or function pointer is a natural number, `0` being
  `nullptr`; the file-scope variables are passed explicitly as `LeiaGlobals`,
  and what `dlopen` and `dlsym` answer during a call is an argument of the
  call.
-/

namespace Leia

/-! ## Machine integers -/

/-- An unsigned 8-bit value (`uint8_t`). -/
abbrev U8 := Fin 256

/-- Two's complement reinterpretation of an integer as a signed 32-bit `int`. -/
def wrapS32 (n : Int) : Int :=
  let m := n % 4294967296
  if m < 2147483648 then m else m - 4294967296

/-- Two's complement reinterpretation of an integer as a signed 64-bit value. -/
def wrapS64 (n : Int) : Int :=
  let m := n % 18446744073709551616
  if m < 9223372036854775808 then m else m - 18446744073709551616

/-- Bitwise AND of two `int` values (`a & b`), computed on their 32-bit two's
complement bit patterns. -/
def andS32 (a b : Int) : Int :=
  wrapS32 ((((a % 4294967296).toNat &&& (b % 4294967296).toNat : Nat) : Int))

/-- The index values of `for (int i = a; i < b; i += step)`, in order. -/
def forRange (a b : Int) (step : Nat) : List Int :=
  (List.range (((b - a).toNat + (step - 1)) / step)).map
    (fun (k : Nat) => a + (k : Int) * (step : Int))

/-- Conversion of an integer to `uint8_t`: reduction modulo 256. -/
def toU8 (n : Int) : U8 := ⟨(n % 256).toNat, by omega⟩

/-! ## Single precision floating point

A finite `float` is modelled by the rational number it denotes.  The exponent
range is not bounded: the model coincides with binary32 as long as no result
overflows or falls below the smallest normal number, which is the case for every
value the program computes from dimensions below `2 ^ 31` and bytes.  Each
operation is rounded on its own (no fused multiply-add contraction). -/

/-- Rounding of a rational to the nearest integer, ties to the even integer. -/
def roundHalfEven (q : ℚ) : Int :=
  if q - ⌊q⌋ < 1 / 2 then ⌊q⌋
  else if 1 / 2 < q - ⌊q⌋ then ⌊q⌋ + 1
  else if ⌊q⌋ % 2 = 0 then ⌊q⌋ else ⌊q⌋ + 1

/-- The binary32 value nearest to the rational `q` (round to nearest, ties to
even, 24 significant bits): with `e = ⌊log₂ |q|⌋` the result is the multiple of
`2 ^ (e - 23)` nearest to `q`. -/
def f32round (q : ℚ) : ℚ :=
  if q = 0 then 0
  else (roundHalfEven (q / 2 ^ (Int.log 2 |q| - 23)) : ℚ) * 2 ^ (Int.log 2 |q| - 23)

/-- A `float` literal such as `0.299f`: the decimal value, rounded. -/
def f32lit (q : ℚ) : ℚ := f32round q

/-- Conversion of an integer value to `float`. -/
def f32ofInt (n : Int) : ℚ := f32round (n : ℚ)

/-- Addition of two `float` values. -/
def f32add (a b : ℚ) : ℚ := f32round (a + b)

/-- Subtraction of two `float` values. -/
def f32sub (a b : ℚ) : ℚ := f32round (a - b)

/-- Multiplication of two `float` values. -/
def f32mul (a b : ℚ) : ℚ := f32round (a * b)

/-- Division of two `float` values (for a non-zero divisor). -/
def f32div (a b : ℚ) : ℚ := f32round (a / b)

/-- Conversion `(int)f` of a `float` to an integer: truncation toward zero. -/
def f32toInt (q : ℚ) : Int := if 0 ≤ q then ⌊q⌋ else ⌈q⌉

/-! ## The NEON intrinsics used by `calculateSAD_NEON`

Vectors are lists of lanes, lane 0 first; a lane holds the unsigned value of
its bit pattern. -/

/-- The intrinsic `vld1q_u8(p + off)`: load 16 consecutive bytes. -/
def vld1q_u8 (p : Int → U8) (off : Int) : List Nat :=
  (List.range 16).map (fun (k : Nat) => (p (off + (k : Int))).val)

/-- The intrinsic `vabdq_u8`: lane-wise absolute difference of unsigned bytes. -/
def vabdq_u8 (a b : List Nat) : List Nat :=
  List.zipWith (fun x y => if y ≤ x then x - y else y - x) a b

/-- Sum of adjacent lane pairs, each sum reduced modulo `2 ^ w` (the width of
the widened result lane). -/
def pairwiseAddLong (w : Nat) : List Nat → List Nat
  | x :: y :: rest => ((x + y) % 2 ^ w) :: pairwiseAddLong w rest
  | _ => []

/-- The intrinsic `vpaddlq_u8`: 16 byte lanes to 8 halfword lanes. -/
def vpaddlq_u8 (v : List Nat) : List Nat := pairwiseAddLong 16 v

/-- The intrinsic `vpaddlq_u16`: 8 halfword lanes to 4 word lanes. -/
def vpaddlq_u16 (v : List Nat) : List Nat := pairwiseAddLong 32 v

/-- The intrinsic `vpaddlq_u32`: 4 word lanes to 2 doubleword lanes. -/
def vpaddlq_u32 (v : List Nat) : List Nat := pairwiseAddLong 64 v

/-- The intrinsic `vaddq_u16`: lane-wise addition modulo `2 ^ 16`. -/
def vaddq_u16 (a b : List Nat) : List Nat :=
  List.zipWith (fun x y => (x + y) % 2 ^ 16) a b

/-- The intrinsic `vreinterpretq_s64_u64`: the same bits read as signed lanes. -/
def vreinterpretq_s64_u64 (v : List Nat) : List Int :=
  v.map (fun x => wrapS64 (x : Int))

/-- The intrinsic `vgetq_lane_s64(v, lane)`. -/
def vgetq_lane_s64 (v : List Int) (lane : Nat) : Int := v.getD lane 0

/-! ## `calculateSAD_NEON`: the integer part -/

/-- The 64-bit doubleword vector `final_sum64` computed by one iteration of the
vector loop of `calculateSAD_NEON`, for the batch that starts at index `i`. -/
def batchFinalSum64 (left right : Int → U8) (i : Int) : List Nat :=
  let diff1 := vabdq_u8 (vld1q_u8 left i) (vld1q_u8 right i)
  let diff2 := vabdq_u8 (vld1q_u8 left (i + 16)) (vld1q_u8 right (i + 16))
  let diff3 := vabdq_u8 (vld1q_u8 left (i + 32)) (vld1q_u8 right (i + 32))
  let diff4 := vabdq_u8 (vld1q_u8 left (i + 48)) (vld1q_u8 right (i + 48))
  let sum1 := vpaddlq_u8 diff1
  let sum2 := vpaddlq_u8 diff2
  let sum3 := vpaddlq_u8 diff3
  let sum4 := vpaddlq_u8 diff4
  let total_sum := vaddq_u16 (vaddq_u16 sum1 sum2) (vaddq_u16 sum3 sum4)
  let final_sum := vpaddlq_u16 total_sum
  vpaddlq_u32 final_sum

/-- The value one iteration of the vector loop adds to `totalSAD`:
`vgetq_lane_s64(vreinterpretq_s64_u64(final_sum64), 0)`. -/
def batchSAD (left right : Int → U8) (i : Int) : Int :=
  vgetq_lane_s64 (vreinterpretq_s64_u64 (batchFinalSum64 left right i)) 0

/-- The term `abs(left[i] - right[i])` of the scalar loop (both bytes are
promoted to `int` before the subtraction). -/
def scalarAbsDiff (left right : Int → U8) (i : Int) : Int :=
  |((left i).val : Int) - ((right i).val : Int)|

/-- The local `totalPixels = width * height`. -/
def totalPixels (width height : Int) : Int := wrapS32 (width * height)

/-- The local `simdPixels = totalPixels & ~63`. -/
def simdPixels (width height : Int) : Int := andS32 (totalPixels width height) (~~~ (63 : Int))

/-- The vector loop `for (int i = 0; i < simdPixels; i += 64)`, started with
the accumulator `acc`; each `totalSAD += ...` adds in 64 bits and stores the
sum back into the `int`. -/
def vectorLoop (left right : Int → U8) (simd : Int) (acc : Int) : Int :=
  (forRange 0 simd 64).foldl (fun totalSAD i => wrapS32 (totalSAD + batchSAD left right i)) acc

/-- The scalar loop `for (int i = simdPixels; i < totalPixels; i++)`, started
with the accumulator `acc`. -/
def scalarLoop (left right : Int → U8) (simd total : Int) (acc : Int) : Int :=
  (forRange simd total 1).foldl
    (fun totalSAD i => wrapS32 (totalSAD + scalarAbsDiff left right i)) acc

/-- The value of the local `totalSAD` of `calculateSAD_NEON` when the function
reaches its `return`. -/
def totalSAD (left right : Int → U8) (width height : Int) : Int :=
  scalarLoop left right (simdPixels width height) (totalPixels width height)
    (vectorLoop left right (simdPixels width height) 0)

/-- The exact (unbounded) sum of everything the two loops of
`calculateSAD_NEON` add to `totalSAD`. -/
def accumulatedSAD (left right : Int → U8) (width height : Int) : Int :=
  ((forRange 0 (simdPixels width height) 64).map (fun i => batchSAD left right i)).sum +
    ((forRange (simdPixels width height) (totalPixels width height) 1).map
      (fun i => scalarAbsDiff left right i)).sum

/-- The sum of absolute differences over all cells `0 .. n-1`, cell by cell:
the quantity the specification calls `totalAbsDiff`. -/
def scalarSAD (left right : Int → U8) (n : Nat) : Int :=
  ((List.range n).map (fun (k : Nat) => scalarAbsDiff left right (k : Int))).sum

/-- The offsets, within a 64-cell batch, of the cells that reach lane 0 of
`final_sum64`. -/
def lane0Offsets : List Int :=
  [0, 1, 2, 3, 4, 5, 6, 7, 16, 17, 18, 19, 20, 21, 22, 23,
   32, 33, 34, 35, 36, 37, 38, 39, 48, 49, 50, 51, 52, 53, 54, 55]

/-- The absolute difference of the cells at index `i`, as a natural number. -/
def absDiffNat (left right : Int → U8) (i : Int) : Nat :=
  if (right i).val ≤ (left i).val then (left i).val - (right i).val
  else (right i).val - (left i).val

/-- A grid that is 255 in the upper eight cells of every group of 16 cells and
0 in the lower eight. -/
def upperHalves : Int → U8 := fun i => if 8 ≤ i % 16 then 255 else 0

/-! ## `calculateSAD_NEON`: the returned value -/

/-- The function `calculateSAD_NEON`: the value of
`(float)totalSAD / (255.0f * totalPixels)`.  For `totalPixels = 0` the C++
quotient is not a number; the model is meant for `totalPixels ≠ 0`. -/
def calculateSAD_NEON (left right : Int → U8) (width height : Int) : ℚ :=
  f32div (f32ofInt (totalSAD left right width height))
    (f32mul (f32lit 255) (f32ofInt (totalPixels width height)))

/-! ## `downsampleToGrayScale` -/

/-- The fields of the NDK structure `AndroidBitmapInfo` (`android/bitmap.h`):
`width`, `height` and `stride` are `uint32_t` values, `stride` being the number
of bytes per row. -/
structure AndroidBitmapInfo where
  /-- Width in pixels. -/
  width : Nat
  /-- Height in pixels. -/
  height : Nat
  /-- Bytes per row. -/
  stride : Nat

/-- The locals `scaleX` and `scaleY`: `(float)dim / target`.  The loops use
them only when both target sizes are positive. -/
def scale (dim : Nat) (target : Int) : ℚ :=
  f32div (f32ofInt (dim : Int)) (f32ofInt target)

/-- The locals `srcX = (int)(x * scaleX)` and `srcY = (int)(y * scaleY)`. -/
def srcCoord (dim : Nat) (target : Int) (x : Int) : Int :=
  f32toInt (f32mul (f32ofInt x) (scale dim target))

/-- The locals `leftOffset` and `rightOffset`: `(srcY * width + srcX) * 4`,
computed in `unsigned` arithmetic (`width` is a `uint32_t`) and stored in an
`int`. -/
def pixelOffset (width : Nat) (srcX srcY : Int) : Int :=
  wrapS32 ((srcY * (width : Int) + srcX) * 4)

/-- The `float` value of `0.299f * R + 0.587f * G + 0.114f * B` for bytes `R`,
`G`, `B` (each byte is promoted to `int` and converted to `float`). -/
def lumaFloat (r g b : U8) : ℚ :=
  f32add
    (f32add (f32mul (f32lit (299 / 1000)) (f32ofInt (r.val : Int)))
      (f32mul (f32lit (587 / 1000)) (f32ofInt (g.val : Int))))
    (f32mul (f32lit (114 / 1000)) (f32ofInt (b.val : Int)))

/-- The luminance `(uint8_t)(0.299f * R + 0.587f * G + 0.114f * B)`. -/
def luma (r g b : U8) : U8 := toU8 (f32toInt (lumaFloat r g b))

/-- The exact weighted sum `0.299 * R + 0.587 * G + 0.114 * B` of the
specification, without any rounding. -/
def exactLuma (r g b : U8) : ℚ :=
  299 / 1000 * (r.val : ℚ) + 587 / 1000 * (g.val : ℚ) + 114 / 1000 * (b.val : ℚ)

/-- The luminance of the pixel whose first byte is at `offset`: the bytes at
`offset`, `offset + 1` and `offset + 2` are read as R, G and B. -/
def lumaAt (pixels : Int → U8) (offset : Int) : U8 :=
  luma (pixels offset) (pixels (offset + 1)) (pixels (offset + 2))

/-- The value stored for target cell `(x, y)` into a gray buffer, for a bitmap
of the given `width` whose source coordinates are scaled from `scaleWidth` and
`scaleHeight` (the code takes both scales from `leftInfo`). -/
def cellValue (scaleWidth scaleHeight width : Nat) (pixels : Int → U8)
    (targetWidth targetHeight : Int) (x y : Int) : U8 :=
  lumaAt pixels
    (pixelOffset width (srcCoord scaleWidth targetWidth x) (srcCoord scaleHeight targetHeight y))

/-- The index `y * targetWidth + x` of target cell `(x, y)` in a gray buffer. -/
def cellIndex (targetWidth : Int) (x y : Int) : Int := wrapS32 (y * targetWidth + x)

/-- The body of the inner loop of `downsampleToGrayScale` for target cell
`(x, y)`: one store into `leftGray` and one into `rightGray`. -/
def downsampleCell (leftInfo rightInfo : AndroidBitmapInfo) (leftPixels rightPixels : Int → U8)
    (targetWidth targetHeight : Int) (gray : (Int → U8) × (Int → U8)) (y x : Int) :
    (Int → U8) × (Int → U8) :=
  (Function.update gray.1 (cellIndex targetWidth x y)
      (cellValue leftInfo.width leftInfo.height leftInfo.width leftPixels
        targetWidth targetHeight x y),
   Function.update gray.2 (cellIndex targetWidth x y)
      (cellValue leftInfo.width leftInfo.height rightInfo.width rightPixels
        targetWidth targetHeight x y))

/-- The function `downsampleToGrayScale`: the contents of the two gray buffers
after the call, given their contents `(leftGray, rightGray)` before it. -/
def downsampleToGrayScale (leftInfo rightInfo : AndroidBitmapInfo)
    (leftPixels rightPixels : Int → U8) (leftGray rightGray : Int → U8)
    (targetWidth targetHeight : Int) : (Int → U8) × (Int → U8) :=
  (forRange 0 targetHeight 1).foldl
    (fun gray y => (forRange 0 targetWidth 1).foldl
      (fun gray x => downsampleCell leftInfo rightInfo leftPixels rightPixels
        targetWidth targetHeight gray y x) gray)
    (leftGray, rightGray)

/-- The target cells `(y, x)` in the order the two nested loops of
`downsampleToGrayScale` visit them. -/
def targetCells (targetWidth targetHeight : Int) : List (Int × Int) :=
  (forRange 0 targetHeight 1).flatMap (fun y => (forRange 0 targetWidth 1).map (fun x => (y, x)))

/-! ## `Java_com_limelight_LeiaHelper_isSBS` -/

/-- What the NDK reports for one `jobject` bitmap: the result codes of
`AndroidBitmap_getInfo` and `AndroidBitmap_lockPixels` (0 is
`ANDROID_BITMAP_RESULT_SUCCESS`), the bitmap information and the locked pixel
bytes. -/
structure Bitmap where
  /-- Result code of `AndroidBitmap_getInfo`. -/
  infoResult : Int
  /-- The information filled in by `AndroidBitmap_getInfo`. -/
  info : AndroidBitmapInfo
  /-- Result code of `AndroidBitmap_lockPixels`. -/
  lockResult : Int
  /-- The pixel bytes, indexed from the locked address. -/
  pixels : Int → U8

/-- The local `correlation = 1.0f - sadValue` of `isSBS`, as a function of the
two gray buffers handed to `calculateSAD_NEON`. -/
def sbsCorrelation (leftGray rightGray : Int → U8) : ℚ :=
  f32sub (f32lit 1) (calculateSAD_NEON leftGray rightGray 64 64)

/-- The local `result = (correlation < 0.95f)` of `isSBS`, as a function of
the two gray buffers handed to `calculateSAD_NEON`. -/
def sbsResult (leftGray rightGray : Int → U8) : Bool :=
  decide (sbsCorrelation leftGray rightGray < f32lit (95 / 100))

/-- The two gray buffers of `isSBS` after the call of `downsampleToGrayScale`;
`heapLeft` and `heapRight` are the contents of the two fresh `new uint8_t[]`
arrays. -/
def sbsGrays (leftHalf rightHalf : Bitmap) (heapLeft heapRight : Int → U8) :
    (Int → U8) × (Int → U8) :=
  downsampleToGrayScale leftHalf.info rightHalf.info leftHalf.pixels rightHalf.pixels
    heapLeft heapRight 64 64

/-- How a call of `isSBS` ends: with one of its two logged failures (each
returns `JNI_FALSE` early) or with a classification. -/
inductive SbsOutcome where
  /-- The branch `LOGE("Failed to get bitmap info")`. -/
  | infoFailed : SbsOutcome
  /-- The branch `LOGE("Failed to lock bitmap pixels")`. -/
  | lockFailed : SbsOutcome
  /-- The call reached `return result`. -/
  | classified (result : Bool) : SbsOutcome
  deriving DecidableEq

/-- The control flow of `Java_com_limelight_LeiaHelper_isSBS`. -/
def isSBSOutcome (leftHalf rightHalf : Bitmap) (heapLeft heapRight : Int → U8) : SbsOutcome :=
  if leftHalf.infoResult ≠ 0 ∨ rightHalf.infoResult ≠ 0 then SbsOutcome.infoFailed
  else if leftHalf.lockResult ≠ 0 ∨ rightHalf.lockResult ≠ 0 then SbsOutcome.lockFailed
  else
    SbsOutcome.classified
      (sbsResult (sbsGrays leftHalf rightHalf heapLeft heapRight).1
        (sbsGrays leftHalf rightHalf heapLeft heapRight).2)

/-- The value returned by `Java_com_limelight_LeiaHelper_isSBS`. -/
def Java_com_limelight_LeiaHelper_isSBS (leftHalf rightHalf : Bitmap)
    (heapLeft heapRight : Int → U8) : Bool :=
  match isSBSOutcome leftHalf rightHalf heapLeft heapRight with
  | SbsOutcome.classified result => result
  | _ => false

/-- A bitmap of the given size (4 bytes per pixel, no row padding) in which
every pixel is `(v, v, v, 255)`; both NDK calls succeed. -/
def grayBitmap (width height : Nat) (v : U8) : Bitmap :=
  { infoResult := 0
    info := { width := width, height := height, stride := width * 4 }
    lockResult := 0
    pixels := fun i => if i % 4 = 3 then 255 else v }

/-- A 64x64 bitmap with 512 bytes per row: every pixel is `(v, v, v, 255)` and
the 256 padding bytes at the end of each row hold `pad`; both NDK calls
succeed. -/
def paddedBitmap (v pad : U8) : Bitmap :=
  { infoResult := 0
    info := { width := 64, height := 64, stride := 512 }
    lockResult := 0
    pixels := fun j => if j % 512 < 256 then (if j % 4 = 3 then 255 else v) else pad }

/-- The bytes of a 64x64 bitmap with 260 bytes per row: every pixel is white
`(255, 255, 255, 255)` and the 4 padding bytes at the end of each row are 0. -/
def paddedWhite : Int → U8 := fun j => if j % 260 < 256 then 255 else 0

/-- The two gray buffers `isSBS` computes for the white-against-black scenario
of the specification: a 128x128 bitmap of `(255, 255, 255, 255)` pixels and one
of `(0, 0, 0, 255)` pixels. -/
def whiteBlackGrays : (Int → U8) × (Int → U8) :=
  sbsGrays (grayBitmap 128 128 255) (grayBitmap 128 128 0) (fun _ => 0) (fun _ => 0)

/-! ## `calculateSAD_NEON`: the accumulator during the loops -/

/-- The value of `totalSAD` after the first `n` iterations of the vector loop
of `calculateSAD_NEON` (after the whole loop when `n` is at least the number
of its iterations). -/
def vectorRunningTotal (left right : Int → U8) (width height : Int) (n : Nat) : Int :=
  ((forRange 0 (simdPixels width height) 64).take n).foldl
    (fun totalSAD i => wrapS32 (totalSAD + batchSAD left right i)) 0

/-- The value of `totalSAD` after the vector loop and the first `m` iterations
of the scalar loop of `calculateSAD_NEON`. -/
def scalarRunningTotal (left right : Int → U8) (width height : Int) (m : Nat) : Int :=
  ((forRange (simdPixels width height) (totalPixels width height) 1).take m).foldl
    (fun totalSAD i => wrapS32 (totalSAD + scalarAbsDiff left right i))
    (vectorLoop left right (simdPixels width height) 0)

/-- The two loops of `calculateSAD_NEON` with an accumulator that is never
reduced modulo `2 ^ 32`. -/
def totalSADUnreduced (left right : Int → U8) (width height : Int) : Int :=
  (forRange (simdPixels width height) (totalPixels width height) 1).foldl
    (fun totalSAD i => totalSAD + scalarAbsDiff left right i)
    ((forRange 0 (simdPixels width height) 64).foldl
      (fun totalSAD i => totalSAD + batchSAD left right i) 0)


/-! ## The backend library: `loadLeiaLibrary` and `set3D` -/

/-- The file-scope variables of the translation unit.  A pointer is a natural
number and `0` is `nullptr`. -/
structure LeiaGlobals where
  leiaSet3DOn : Nat
  leiaSet3DOff : Nat
  leiaLibHandle : Nat
  current3DState : Bool
deriving DecidableEq

/-- The initial values: the three pointers are `nullptr` and `current3DState`
is `false`. -/
def initialGlobals : LeiaGlobals :=
  { leiaSet3DOn := 0, leiaSet3DOff := 0, leiaLibHandle := 0, current3DState := false }

/-- What the dynamic loader answers during one call: the result of
`dlopen("liblibleia.so", RTLD_LAZY)` and of the two `dlsym` calls (`0` is a
null result). -/
structure DlResults where
  dlopen : Nat
  dlsymOn : Nat
  dlsymOff : Nat
deriving DecidableEq

/-- The function `loadLeiaLibrary`: the returned `bool` and the globals it
leaves.  Logging and the `dlclose` call have no effect on the globals. -/
def loadLeiaLibrary (dl : DlResults) (g : LeiaGlobals) : Bool × LeiaGlobals :=
  if g.leiaLibHandle ≠ 0 then (true, g)
  else
    let g1 := { g with leiaLibHandle := dl.dlopen }
    if g1.leiaLibHandle = 0 then (false, g1)
    else
      let g2 := { g1 with leiaSet3DOn := dl.dlsymOn, leiaSet3DOff := dl.dlsymOff }
      if g2.leiaSet3DOn = 0 ∨ g2.leiaSet3DOff = 0 then
        (false, { g2 with leiaLibHandle := 0 })
      else (true, g2)

/-- A call through one of the two function pointers: the pointer that is
called and, for `leiaSet3DOn`, the argument. -/
inductive BackendCall
  | leiaSet3DOn (fn : Nat) (mode : Int)
  | leiaSet3DOff (fn : Nat)
deriving DecidableEq

/-- The pointer a backend call goes through. -/
def BackendCall.fn : BackendCall → Nat
  | BackendCall.leiaSet3DOn fn _ => fn
  | BackendCall.leiaSet3DOff fn => fn

/-- A `jboolean` is an unsigned 8-bit value; Java passes `JNI_TRUE = 1` for
`true` and `JNI_FALSE = 0` for `false`. -/
def jboolean (b : Bool) : U8 := if b then 1 else 0

/-- The value of a C++ `bool` after integral promotion. -/
def boolToInt (b : Bool) : Int := if b then 1 else 0

/-- The function `Java_com_limelight_LeiaHelper_set3D`: the globals it leaves
and the calls it makes through the backend function pointers, in order.  In
`current3DState != on` both operands are promoted to `int`. -/
def Java_com_limelight_LeiaHelper_set3D (dl : DlResults) (on_ : U8) (mode : Int)
    (g : LeiaGlobals) : LeiaGlobals × List BackendCall :=
  match loadLeiaLibrary dl g with
  | (false, g1) => (g1, [])
  | (true, g1) =>
    if on_.val ≠ 0 ∧ boolToInt g1.current3DState ≠ (on_.val : Int) then
      ({ g1 with current3DState := true }, [BackendCall.leiaSet3DOn g1.leiaSet3DOn mode])
    else if on_.val = 0 ∧ boolToInt g1.current3DState ≠ (on_.val : Int) then
      ({ g1 with current3DState := false }, [BackendCall.leiaSet3DOff g1.leiaSet3DOff])
    else (g1, [])

/-- One call of `set3D` as seen from outside: the loader's answers during the
call and the two arguments. -/
structure Set3DCall where
  dl : DlResults
  on_ : U8
  mode : Int

/-- The globals after a sequence of `set3D` calls from the initial values. -/
def globalsAfter (calls : List Set3DCall) : LeiaGlobals :=
  calls.foldl (fun g c => (Java_com_limelight_LeiaHelper_set3D c.dl c.on_ c.mode g).1)
    initialGlobals

/-! ## `calculateSAD_NEON`: the vectors inside one batch -/

/-- One of the locals `diff1` .. `diff4` of the vector loop:
`vabdq_u8(vld1q_u8(left + off), vld1q_u8(right + off))`. -/
def batchDiff (left right : Int → U8) (off : Int) : List Nat :=
  vabdq_u8 (vld1q_u8 left off) (vld1q_u8 right off)

/-- The local `total_sum` of the vector loop for the batch starting at `i`. -/
def batchTotalSum (left right : Int → U8) (i : Int) : List Nat :=
  vaddq_u16
    (vaddq_u16 (vpaddlq_u8 (batchDiff left right i)) (vpaddlq_u8 (batchDiff left right (i + 16))))
    (vaddq_u16 (vpaddlq_u8 (batchDiff left right (i + 32)))
      (vpaddlq_u8 (batchDiff left right (i + 48))))

/-- The local `final_sum = vpaddlq_u16(total_sum)` of the vector loop. -/
def batchFinalSum (left right : Int → U8) (i : Int) : List Nat :=
  vpaddlq_u16 (batchTotalSum left right i)

/-- The offsets `k` in `0..63` with `k mod 16 < 8`. -/
def lowerHalfOffsets : List Nat := (List.range 64).filter (fun k => k % 16 < 8)

/-- The offsets `k` in `0..63` with `k mod 16 ≥ 8`. -/
def upperHalfOffsets : List Nat := (List.range 64).filter (fun k => 8 ≤ k % 16)

/-! ## The indices the loops touch -/

/-- The indices of the 16 bytes `vld1q_u8(p + off)` loads. -/
def vld1qIndices (off : Int) : List Int := (List.range 16).map (fun (k : Nat) => off + (k : Int))

/-- The indices of each grid loaded by the iteration of the vector loop for
the batch starting at `i`: the four loads at `i`, `i + 16`, `i + 32` and
`i + 48`. -/
def batchIndices (i : Int) : List Int :=
  vld1qIndices i ++ vld1qIndices (i + 16) ++ vld1qIndices (i + 32) ++ vld1qIndices (i + 48)

/-- The indices loaded by the vector loop, in order. -/
def vectorLoopIndices (simd : Int) : List Int := (forRange 0 simd 64).flatMap batchIndices

/-- The indices read by the scalar loop, in order. -/
def scalarLoopIndices (simd total : Int) : List Int := forRange simd total 1

/-- The indices of a gray buffer that `downsampleToGrayScale` stores to, in
the order of the stores. -/
def writtenIndices (targetWidth targetHeight : Int) : List Int :=
  (targetCells targetWidth targetHeight).map (fun p => cellIndex targetWidth p.2 p.1)

/-! # Theorems

## Rounding to binary32 -/

theorem roundHalfEven_intCast (n : Int) : roundHalfEven (n : ℚ) = n := by
  simp [roundHalfEven]

theorem roundHalfEven_eq_of_abs_lt (q : ℚ) (m : Int) (h : |q - m| < 1 / 2) :
    roundHalfEven q = m := by
  rw [abs_lt] at h
  unfold roundHalfEven
  have hf : ((⌊q⌋ : Int) : ℚ) ≤ q := Int.floor_le q
  have hf2 : q < ⌊q⌋ + 1 := Int.lt_floor_add_one q
  by_cases h1 : q - ⌊q⌋ < 1 / 2
  · rw [if_pos h1]
    have : ((⌊q⌋ : Int) : ℚ) < m + 1 := by linarith
    have a1 : ⌊q⌋ < m + 1 := by exact_mod_cast this
    have : ((m : Int) : ℚ) < ⌊q⌋ + 1 := by linarith
    have a2 : m < ⌊q⌋ + 1 := by exact_mod_cast this
    omega
  · rw [if_neg h1]
    have h2 : 1 / 2 < q - ⌊q⌋ := by
      rcases lt_or_eq_of_le (not_lt.mp h1) with h3 | h3
      · exact h3
      · exfalso
        have : ((⌊q⌋ : Int) : ℚ) < m := by linarith
        have a1 : ⌊q⌋ < m := by exact_mod_cast this
        have : ((m : Int) : ℚ) < ⌊q⌋ + 1 := by linarith
        have a2 : m < ⌊q⌋ + 1 := by exact_mod_cast this
        omega
    rw [if_pos h2]
    have : ((⌊q⌋ : Int) : ℚ) < m := by linarith
    have a1 : ⌊q⌋ < m := by exact_mod_cast this
    have : ((m : Int) : ℚ) < ⌊q⌋ + 1 + 1 := by linarith
    have a2 : m < ⌊q⌋ + 1 + 1 := by exact_mod_cast this
    omega

theorem roundHalfEven_sub_le (q : ℚ) : |(roundHalfEven q : ℚ) - q| ≤ 1 / 2 := by
  have hf : ((⌊q⌋ : Int) : ℚ) ≤ q := Int.floor_le q
  have hf2 : q < ⌊q⌋ + 1 := Int.lt_floor_add_one q
  rw [abs_le]
  unfold roundHalfEven
  split_ifs with h1 h2 h3 <;> push_cast <;> constructor <;> linarith

theorem roundHalfEven_mono {a b : ℚ} (h : a ≤ b) : roundHalfEven a ≤ roundHalfEven b := by
  have ha : ((⌊a⌋ : Int) : ℚ) ≤ a := Int.floor_le a
  have ha2 : a < ⌊a⌋ + 1 := Int.lt_floor_add_one a
  have hb : ((⌊b⌋ : Int) : ℚ) ≤ b := Int.floor_le b
  have hb2 : b < ⌊b⌋ + 1 := Int.lt_floor_add_one b
  have hfl : ⌊a⌋ ≤ ⌊b⌋ := Int.floor_mono h
  rcases eq_or_lt_of_le hfl with he | hl
  · unfold roundHalfEven
    rw [← he] at hb hb2 ⊢
    split_ifs <;> first | omega | (exfalso; linarith)
  · have h1 : roundHalfEven a ≤ ⌊a⌋ + 1 := by
      unfold roundHalfEven
      split_ifs <;> omega
    have h2 : ⌊b⌋ ≤ roundHalfEven b := by
      unfold roundHalfEven
      split_ifs <;> omega
    omega

theorem log2_eq_of_bounds {r : ℚ} {e : Int} (h1 : (2 : ℚ) ^ e ≤ r) (h2 : r < (2 : ℚ) ^ (e + 1)) :
    Int.log 2 r = e := by
  have hr : 0 < r := lt_of_lt_of_le (by positivity) h1
  have a1 : e ≤ Int.log 2 r := by
    rw [← Int.zpow_le_iff_le_log (by norm_num) hr]
    simpa using h1
  have a2 : Int.log 2 r < e + 1 := by
    rw [← Int.lt_zpow_iff_log_lt (by norm_num) hr]
    simpa using h2
  omega

theorem zpow_log2_le {r : ℚ} (hr : 0 < r) : (2 : ℚ) ^ Int.log 2 r ≤ r := by
  simpa using Int.zpow_log_le_self (b := 2) (by norm_num) hr

theorem lt_zpow_log2_succ (r : ℚ) : r < (2 : ℚ) ^ (Int.log 2 r + 1) := by
  simpa using Int.lt_zpow_succ_log_self (b := 2) (by norm_num) r

theorem f32round_zero : f32round 0 = 0 := by simp [f32round]

theorem f32round_eq_of_near (q : ℚ) (e m : Int) (h1 : (2 : ℚ) ^ e ≤ |q|)
    (h2 : |q| < (2 : ℚ) ^ (e + 1)) (h3 : |q / 2 ^ (e - 23) - m| < 1 / 2) :
    f32round q = m * 2 ^ (e - 23) := by
  have hq : q ≠ 0 := by
    intro h0
    rw [h0, abs_zero] at h1
    exact absurd h1 (not_le.mpr (by positivity))
  unfold f32round
  rw [if_neg hq, log2_eq_of_bounds h1 h2, roundHalfEven_eq_of_abs_lt _ _ h3]

theorem f32round_exact (m k : Int) (hm : |m| < 2 ^ 24) :
    f32round ((m : ℚ) * 2 ^ k) = (m : ℚ) * 2 ^ k := by
  by_cases h0 : m = 0
  · simp [h0, f32round_zero]
  have hq : (m : ℚ) * 2 ^ k ≠ 0 := by
    have : (m : ℚ) ≠ 0 := by exact_mod_cast h0
    positivity
  have habs : |(m : ℚ) * 2 ^ k| = |(m : ℚ)| * 2 ^ k := by
    rw [abs_mul, abs_of_pos (by positivity : (0 : ℚ) < 2 ^ k)]
  have hpos : 0 < |(m : ℚ) * 2 ^ k| := abs_pos.mpr hq
  have hlow := zpow_log2_le hpos
  set e := Int.log 2 |(m : ℚ) * 2 ^ k| with he
  have hmq : |(m : ℚ)| < 2 ^ (24 : Int) := by
    have : ((|m| : Int) : ℚ) < ((2 ^ 24 : Int) : ℚ) := by exact_mod_cast hm
    rw [Int.cast_abs] at this
    have h24 : ((2 ^ 24 : Int) : ℚ) = 2 ^ (24 : Int) := by norm_num
    rwa [h24] at this
  have hlt : (2 : ℚ) ^ e < 2 ^ (24 + k) := by
    calc (2 : ℚ) ^ e ≤ |(m : ℚ)| * 2 ^ k := by rw [← habs]; exact hlow
      _ < 2 ^ (24 : Int) * 2 ^ k := by
          apply mul_lt_mul_of_pos_right hmq (by positivity)
      _ = 2 ^ (24 + k) := by rw [← zpow_add₀ (by norm_num)]
  have hek : e < 24 + k := by
    rwa [zpow_lt_zpow_iff_right₀ (by norm_num : (1 : ℚ) < 2)] at hlt
  obtain ⟨n, hn⟩ : ∃ n : ℕ, k - (e - 23) = (n : Int) := ⟨(k - (e - 23)).toNat, by omega⟩
  have hdiv : (m : ℚ) * 2 ^ k / 2 ^ (e - 23) = ((m * 2 ^ n : Int) : ℚ) := by
    rw [mul_div_assoc, ← zpow_sub₀ (by norm_num), hn]
    push_cast
    rw [zpow_natCast]
  unfold f32round
  rw [if_neg hq, ← he, hdiv, roundHalfEven_intCast]
  push_cast
  rw [mul_assoc, ← zpow_natCast, ← hn, ← zpow_add₀ (by norm_num)]
  congr 2
  omega

theorem f32round_intCast (n : Int) (h : |n| < 2 ^ 24) : f32round (n : ℚ) = n := by
  simpa using f32round_exact n 0 h

theorem f32round_of_pos {q : ℚ} (hq : 0 < q) :
    f32round q = (roundHalfEven (q / 2 ^ (Int.log 2 q - 23)) : ℚ) * 2 ^ (Int.log 2 q - 23) := by
  unfold f32round
  rw [if_neg (ne_of_gt hq), abs_of_pos hq]

theorem scaled_bounds {q : ℚ} (hq : 0 < q) :
    ((2 ^ 23 : Int) : ℚ) ≤ q / 2 ^ (Int.log 2 q - 23) ∧
      q / 2 ^ (Int.log 2 q - 23) < ((2 ^ 24 : Int) : ℚ) := by
  have hu : (0 : ℚ) < 2 ^ (Int.log 2 q - 23) := by positivity
  have h1 := zpow_log2_le hq
  have h2 := lt_zpow_log2_succ q
  have e1 : (2 : ℚ) ^ Int.log 2 q = 2 ^ (23 : Int) * 2 ^ (Int.log 2 q - 23) := by
    rw [← zpow_add₀ (by norm_num)]; congr 1; omega
  have e2 : (2 : ℚ) ^ (Int.log 2 q + 1) = 2 ^ (24 : Int) * 2 ^ (Int.log 2 q - 23) := by
    rw [← zpow_add₀ (by norm_num)]; congr 1; omega
  constructor
  · rw [le_div_iff₀ hu]
    calc ((2 ^ 23 : Int) : ℚ) * 2 ^ (Int.log 2 q - 23) = 2 ^ Int.log 2 q := by
          rw [e1]; norm_num
      _ ≤ q := h1
  · rw [div_lt_iff₀ hu]
    calc q < 2 ^ (Int.log 2 q + 1) := h2
      _ = ((2 ^ 24 : Int) : ℚ) * 2 ^ (Int.log 2 q - 23) := by rw [e2]; norm_num

theorem f32round_pos_bounds {q : ℚ} (hq : 0 < q) :
    (2 : ℚ) ^ Int.log 2 q ≤ f32round q ∧ f32round q ≤ 2 ^ (Int.log 2 q + 1) := by
  have hu : (0 : ℚ) < 2 ^ (Int.log 2 q - 23) := by positivity
  obtain ⟨b1, b2⟩ := scaled_bounds hq
  have r1 : (2 ^ 23 : Int) ≤ roundHalfEven (q / 2 ^ (Int.log 2 q - 23)) := by
    have := roundHalfEven_mono b1
    rwa [roundHalfEven_intCast] at this
  have r2 : roundHalfEven (q / 2 ^ (Int.log 2 q - 23)) ≤ (2 ^ 24 : Int) := by
    have := roundHalfEven_mono (le_of_lt b2)
    rwa [roundHalfEven_intCast] at this
  have r1q : ((2 ^ 23 : Int) : ℚ) ≤ (roundHalfEven (q / 2 ^ (Int.log 2 q - 23)) : ℚ) := by
    exact_mod_cast r1
  have r2q : (roundHalfEven (q / 2 ^ (Int.log 2 q - 23)) : ℚ) ≤ ((2 ^ 24 : Int) : ℚ) := by
    exact_mod_cast r2
  have e1 : (2 : ℚ) ^ Int.log 2 q = ((2 ^ 23 : Int) : ℚ) * 2 ^ (Int.log 2 q - 23) := by
    have : ((2 ^ 23 : Int) : ℚ) = 2 ^ (23 : Int) := by norm_num
    rw [this, ← zpow_add₀ (by norm_num)]; congr 1; omega
  have e2 : (2 : ℚ) ^ (Int.log 2 q + 1) = ((2 ^ 24 : Int) : ℚ) * 2 ^ (Int.log 2 q - 23) := by
    have : ((2 ^ 24 : Int) : ℚ) = 2 ^ (24 : Int) := by norm_num
    rw [this, ← zpow_add₀ (by norm_num)]; congr 1; omega
  rw [f32round_of_pos hq, e1, e2]
  exact ⟨mul_le_mul_of_nonneg_right r1q hu.le, mul_le_mul_of_nonneg_right r2q hu.le⟩

theorem f32round_nonneg {q : ℚ} (hq : 0 ≤ q) : 0 ≤ f32round q := by
  rcases eq_or_lt_of_le hq with h | h
  · rw [← h, f32round_zero]
  · exact le_trans (by positivity) (f32round_pos_bounds h).1

theorem f32round_pos {q : ℚ} (hq : 0 < q) : 0 < f32round q :=
  lt_of_lt_of_le (by positivity) (f32round_pos_bounds hq).1

theorem f32round_mono {a b : ℚ} (ha : 0 ≤ a) (hab : a ≤ b) : f32round a ≤ f32round b := by
  rcases eq_or_lt_of_le ha with h | h
  · rw [← h, f32round_zero]
    exact f32round_nonneg (le_trans ha hab)
  · have hb : 0 < b := lt_of_lt_of_le h hab
    have hlog : Int.log 2 a ≤ Int.log 2 b := Int.log_mono_right h hab
    rcases eq_or_lt_of_le hlog with he | hl
    · rw [f32round_of_pos h, f32round_of_pos hb, he]
      apply mul_le_mul_of_nonneg_right _ (by positivity)
      have : a / 2 ^ (Int.log 2 b - 23) ≤ b / 2 ^ (Int.log 2 b - 23) :=
        div_le_div_of_nonneg_right hab (by positivity)
      exact_mod_cast roundHalfEven_mono this
    · calc f32round a ≤ 2 ^ (Int.log 2 a + 1) := (f32round_pos_bounds h).2
        _ ≤ 2 ^ Int.log 2 b := by
            apply zpow_le_zpow_right₀ (by norm_num); omega
        _ ≤ f32round b := (f32round_pos_bounds hb).1

theorem f32round_abs_sub_le {q : ℚ} (hq : 0 < q) : |f32round q - q| ≤ q / 2 ^ 24 := by
  have hu : (0 : ℚ) < 2 ^ (Int.log 2 q - 23) := by positivity
  have h1 := zpow_log2_le hq
  have hr := roundHalfEven_sub_le (q / 2 ^ (Int.log 2 q - 23))
  have hq' : q = q / 2 ^ (Int.log 2 q - 23) * 2 ^ (Int.log 2 q - 23) := by
    field_simp
  have : f32round q - q =
      ((roundHalfEven (q / 2 ^ (Int.log 2 q - 23)) : ℚ) - q / 2 ^ (Int.log 2 q - 23)) *
        2 ^ (Int.log 2 q - 23) := by
    rw [f32round_of_pos hq, sub_mul, ← hq']
  rw [this, abs_mul, abs_of_pos hu]
  have e1 : (2 : ℚ) ^ Int.log 2 q = 2 ^ (23 : Int) * 2 ^ (Int.log 2 q - 23) := by
    rw [← zpow_add₀ (by norm_num)]; congr 1; omega
  calc |(roundHalfEven (q / 2 ^ (Int.log 2 q - 23)) : ℚ) - q / 2 ^ (Int.log 2 q - 23)| *
        2 ^ (Int.log 2 q - 23) ≤ 1 / 2 * 2 ^ (Int.log 2 q - 23) :=
        mul_le_mul_of_nonneg_right hr hu.le
    _ = 2 ^ Int.log 2 q / 2 ^ 24 := by rw [e1]; norm_num; ring
    _ ≤ q / 2 ^ 24 := div_le_div_of_nonneg_right h1 (by positivity)

/-! ## The vector batch of `calculateSAD_NEON` -/

theorem absDiffNat_le (left right : Int → U8) (i : Int) : absDiffNat left right i ≤ 255 := by
  have ha := (left i).isLt
  have hb := (right i).isLt
  unfold absDiffNat
  split_ifs <;> omega

theorem scalarAbsDiff_eq (left right : Int → U8) (i : Int) :
    scalarAbsDiff left right i = (absDiffNat left right i : Int) := by
  have ha := (left i).isLt
  have hb := (right i).isLt
  unfold scalarAbsDiff absDiffNat
  split_ifs with h
  · rw [abs_of_nonneg (by omega)]; omega
  · rw [abs_of_neg (by omega)]; omega

theorem vabdq_vld1q (left right : Int → U8) (i : Int) :
    vabdq_u8 (vld1q_u8 left i) (vld1q_u8 right i) =
      (List.range 16).map (fun (k : Nat) => absDiffNat left right (i + (k : Int))) := by
  simp [vabdq_u8, vld1q_u8, List.zipWith_map, absDiffNat]

theorem vpaddlq_u8_map (f : Nat → Nat) (hf : ∀ k, f k ≤ 255) :
    vpaddlq_u8 ((List.range 16).map f) =
      (List.range 8).map (fun j => f (2 * j) + f (2 * j + 1)) := by
  have e : ∀ a b : Nat, a ≤ 255 → b ≤ 255 → (a + b) % 2 ^ 16 = a + b := by
    intro a b ha hb; apply Nat.mod_eq_of_lt; norm_num; omega
  simp [vpaddlq_u8, pairwiseAddLong, List.range, List.range.loop, e, hf]
  have h0 := hf 0; have h1 := hf 1; have h2 := hf 2; have h3 := hf 3
  have h4 := hf 4; have h5 := hf 5; have h6 := hf 6; have h7 := hf 7
  have h8 := hf 8; have h9 := hf 9; have h10 := hf 10; have h11 := hf 11
  have h12 := hf 12; have h13 := hf 13; have h14 := hf 14; have h15 := hf 15
  omega

theorem vaddq_u16_map (f g : Nat → Nat) (n : Nat) (h : ∀ j, f j + g j < 65536) :
    vaddq_u16 ((List.range n).map f) ((List.range n).map g) =
      (List.range n).map (fun j => f j + g j) := by
  simp [vaddq_u16, List.zipWith_map]
  intro a _
  exact h a

theorem vpaddlq_u16_map (f : Nat → Nat) (hf : ∀ k, f k ≤ 2040) :
    vpaddlq_u16 ((List.range 8).map f) =
      (List.range 4).map (fun j => f (2 * j) + f (2 * j + 1)) := by
  have e : ∀ a b : Nat, a ≤ 2040 → b ≤ 2040 → (a + b) % 2 ^ 32 = a + b := by
    intro a b ha hb; apply Nat.mod_eq_of_lt; norm_num; omega
  simp [vpaddlq_u16, pairwiseAddLong, List.range, List.range.loop, e, hf]
  have h0 := hf 0; have h1 := hf 1; have h2 := hf 2; have h3 := hf 3
  have h4 := hf 4; have h5 := hf 5; have h6 := hf 6; have h7 := hf 7
  omega

theorem vpaddlq_u32_map (f : Nat → Nat) (hf : ∀ k, f k ≤ 4080) :
    vpaddlq_u32 ((List.range 4).map f) =
      (List.range 2).map (fun j => f (2 * j) + f (2 * j + 1)) := by
  have e : ∀ a b : Nat, a ≤ 4080 → b ≤ 4080 → (a + b) % 2 ^ 64 = a + b := by
    intro a b ha hb; apply Nat.mod_eq_of_lt; norm_num; omega
  simp [vpaddlq_u32, pairwiseAddLong, List.range, List.range.loop, e, hf]
  have h0 := hf 0; have h1 := hf 1; have h2 := hf 2; have h3 := hf 3
  omega

theorem batchFinalSum64_eq (left right : Int → U8) (i : Int) :
    batchFinalSum64 left right i =
      (List.range 2).map (fun j =>
        ((List.range 8).map (fun t =>
          absDiffNat left right (i + ((8 * j + t : Nat) : Int))
          + absDiffNat left right (i + 16 + ((8 * j + t : Nat) : Int))
          + absDiffNat left right (i + 32 + ((8 * j + t : Nat) : Int))
          + absDiffNat left right (i + 48 + ((8 * j + t : Nat) : Int)))).sum) := by
  unfold batchFinalSum64
  simp only [vabdq_vld1q]
  have b := absDiffNat_le left right
  rw [vpaddlq_u8_map _ (fun k => b _), vpaddlq_u8_map _ (fun k => b _),
    vpaddlq_u8_map _ (fun k => b _), vpaddlq_u8_map _ (fun k => b _)]
  rw [vaddq_u16_map _ _ _ (fun j => by
      have := b (i + ((2 * j : Nat) : Int)); have := b (i + ((2 * j + 1 : Nat) : Int))
      have := b (i + 16 + ((2 * j : Nat) : Int)); have := b (i + 16 + ((2 * j + 1 : Nat) : Int))
      omega),
    vaddq_u16_map _ _ _ (fun j => by
      have := b (i + 32 + ((2 * j : Nat) : Int)); have := b (i + 32 + ((2 * j + 1 : Nat) : Int))
      have := b (i + 48 + ((2 * j : Nat) : Int)); have := b (i + 48 + ((2 * j + 1 : Nat) : Int))
      omega)]
  have c : ∀ j : Nat, absDiffNat left right (i + ((2 * j : Nat) : Int))
      + absDiffNat left right (i + ((2 * j + 1 : Nat) : Int))
      + (absDiffNat left right (i + 16 + ((2 * j : Nat) : Int))
        + absDiffNat left right (i + 16 + ((2 * j + 1 : Nat) : Int)))
      + (absDiffNat left right (i + 32 + ((2 * j : Nat) : Int))
        + absDiffNat left right (i + 32 + ((2 * j + 1 : Nat) : Int))
        + (absDiffNat left right (i + 48 + ((2 * j : Nat) : Int))
          + absDiffNat left right (i + 48 + ((2 * j + 1 : Nat) : Int)))) ≤ 2040 := by
    intro j
    have := b (i + ((2 * j : Nat) : Int)); have := b (i + ((2 * j + 1 : Nat) : Int))
    have := b (i + 16 + ((2 * j : Nat) : Int)); have := b (i + 16 + ((2 * j + 1 : Nat) : Int))
    have := b (i + 32 + ((2 * j : Nat) : Int)); have := b (i + 32 + ((2 * j + 1 : Nat) : Int))
    have := b (i + 48 + ((2 * j : Nat) : Int)); have := b (i + 48 + ((2 * j + 1 : Nat) : Int))
    omega
  rw [vaddq_u16_map _ _ _ (fun j => by have := c j; omega)]
  rw [vpaddlq_u16_map _ c]
  rw [vpaddlq_u32_map _ (fun k => by have := c (2 * k); have := c (2 * k + 1); omega)]
  simp [List.range, List.range.loop]
  constructor <;> ring


theorem wrapS64_eq_self {n : Int} (h1 : 0 ≤ n) (h2 : n < 9223372036854775808) :
    wrapS64 n = n := by
  unfold wrapS64
  simp only
  split_ifs <;> omega

theorem vreinterpretq_cons (x : Nat) (l : List Nat) :
    vreinterpretq_s64_u64 (x :: l) = wrapS64 x :: vreinterpretq_s64_u64 l := rfl

theorem vgetq_lane_zero (x : Int) (l : List Int) : vgetq_lane_s64 (x :: l) 0 = x := rfl

theorem range_two_map (f : Nat → Nat) : (List.range 2).map f = [f 0, f 1] := rfl

theorem range_eight_map_sum (f : Nat → Nat) :
    ((List.range 8).map f).sum = f 0 + f 1 + f 2 + f 3 + f 4 + f 5 + f 6 + f 7 := by
  simp [List.range, List.range.loop]
  ring

theorem range_eight_map_sum_le (f : Nat → Nat) (c : Nat) (h : ∀ t, f t ≤ c) :
    ((List.range 8).map f).sum ≤ 8 * c := by
  rw [range_eight_map_sum]
  have := h 0; have := h 1; have := h 2; have := h 3
  have := h 4; have := h 5; have := h 6; have := h 7
  omega

theorem batchSAD_eq (left right : Int → U8) (i : Int) :
    batchSAD left right i =
      (lane0Offsets.map (fun k => scalarAbsDiff left right (i + k))).sum := by
  have b := absDiffNat_le left right
  unfold batchSAD
  rw [batchFinalSum64_eq, range_two_map, vreinterpretq_cons, vgetq_lane_zero]
  have hb := range_eight_map_sum_le (fun t =>
          absDiffNat left right (i + ((8 * 0 + t : Nat) : Int))
          + absDiffNat left right (i + 16 + ((8 * 0 + t : Nat) : Int))
          + absDiffNat left right (i + 32 + ((8 * 0 + t : Nat) : Int))
          + absDiffNat left right (i + 48 + ((8 * 0 + t : Nat) : Int))) 1020
    (fun t => by
      beta_reduce
      have := b (i + ((8 * 0 + t : Nat) : Int)); have := b (i + 16 + ((8 * 0 + t : Nat) : Int))
      have := b (i + 32 + ((8 * 0 + t : Nat) : Int)); have := b (i + 48 + ((8 * 0 + t : Nat) : Int))
      omega)
  rw [wrapS64_eq_self (by positivity) (by omega)]
  rw [range_eight_map_sum]
  simp only [lane0Offsets, scalarAbsDiff_eq, List.map, List.sum_cons, List.sum_nil]
  norm_num
  ring_nf

/-! ## The loops of `calculateSAD_NEON` -/

theorem wrapS32_eq_self {n : Int} (h1 : -2147483648 ≤ n) (h2 : n < 2147483648) :
    wrapS32 n = n := by
  unfold wrapS32
  simp only
  split_ifs <;> omega

theorem wrapS32_add_wrapS32 (a b : Int) : wrapS32 (wrapS32 a + b) = wrapS32 (a + b) := by
  unfold wrapS32
  simp only
  split_ifs <;> omega

theorem foldl_wrapS32_add (f : Int → Int) (L : List Int) (a : Int) :
    L.foldl (fun acc i => wrapS32 (acc + f i)) (wrapS32 a) = wrapS32 (a + (L.map f).sum) := by
  induction L generalizing a with
  | nil => simp
  | cons x xs ih =>
    rw [List.foldl_cons, wrapS32_add_wrapS32, ih]
    simp [add_assoc]

theorem mem_forRange {a b i : Int} {step : Nat} :
    i ∈ forRange a b step ↔
      ∃ k : Nat, k < ((b - a).toNat + (step - 1)) / step ∧ a + (k : Int) * (step : Int) = i := by
  simp [forRange]

theorem mem_forRange_one {a b i : Int} : i ∈ forRange a b 1 ↔ a ≤ i ∧ i < b := by
  rw [mem_forRange]
  constructor
  · rintro ⟨k, hk, rfl⟩
    simp at hk
    omega
  · rintro ⟨h1, h2⟩
    refine ⟨(i - a).toNat, ?_, ?_⟩
    · simp; omega
    · simp; omega

theorem totalSAD_eq (left right : Int → U8) (width height : Int) :
    totalSAD left right width height = wrapS32 (accumulatedSAD left right width height) := by
  unfold totalSAD scalarLoop vectorLoop accumulatedSAD
  have h0 : (0 : Int) = wrapS32 0 := by decide
  rw [h0, foldl_wrapS32_add, foldl_wrapS32_add]
  simp


theorem batch_index_bounds {s i : Int} (hs : s % 64 = 0) (hi : i ∈ forRange 0 s 64) :
    0 ≤ i ∧ i + 64 ≤ s := by
  obtain ⟨k, hk, rfl⟩ := mem_forRange.mp hi
  simp only [sub_zero, Nat.add_one_sub_one] at hk
  have : k < (s.toNat + 63) / 64 := hk
  omega

theorem lane0Offsets_bounds {k : Int} (hk : k ∈ lane0Offsets) : 0 ≤ k ∧ k ≤ 55 := by
  simp only [lane0Offsets, List.mem_cons, List.mem_singleton, List.not_mem_nil, or_false] at hk
  omega

theorem scalarAbsDiff_eq_zero {left right : Int → U8} {i : Int} (h : left i = right i) :
    scalarAbsDiff left right i = 0 := by
  simp [scalarAbsDiff, h]

theorem list_sum_map_eq_zero {α : Type} (L : List α) (f : α → Int) (h : ∀ a ∈ L, f a = 0) :
    (L.map f).sum = 0 := by
  induction L with
  | nil => rfl
  | cons x xs ih =>
    rw [List.map_cons, List.sum_cons, h x (List.mem_cons_self _ _),
      ih (fun a ha => h a (List.mem_cons_of_mem _ ha)), add_zero]

/-- When the two grids agree on every cell below `totalPixels`, nothing is
accumulated. -/
theorem accumulatedSAD_eq_zero (left right : Int → U8) (width height : Int)
    (hs : simdPixels width height % 64 = 0)
    (h0 : 0 ≤ simdPixels width height)
    (hle : simdPixels width height ≤ totalPixels width height)
    (heq : ∀ j, 0 ≤ j → j < totalPixels width height → left j = right j) :
    accumulatedSAD left right width height = 0 := by
  unfold accumulatedSAD
  rw [list_sum_map_eq_zero, list_sum_map_eq_zero, add_zero]
  · intro i hi
    obtain ⟨h1, h2⟩ := mem_forRange_one.mp hi
    exact scalarAbsDiff_eq_zero (heq i (by omega) h2)
  · intro i hi
    obtain ⟨h1, h2⟩ := batch_index_bounds hs hi
    rw [batchSAD_eq]
    apply list_sum_map_eq_zero
    intro k hk
    obtain ⟨k1, k2⟩ := lane0Offsets_bounds hk
    exact scalarAbsDiff_eq_zero (heq _ (by omega) (by omega))

theorem land_mask_eq (n : Nat) (hn : n < 4294967296) : n &&& 4294967232 = n - n % 64 := by
  have hm : (4294967232 : Nat) = 2 ^ 6 * (2 ^ 26 - 1) := by norm_num
  have hr : n - n % 64 = 2 ^ 6 * (n / 2 ^ 6) := by
    have := Nat.div_add_mod n 64
    norm_num
    omega
  apply Nat.eq_of_testBit_eq
  intro i
  rw [Nat.testBit_and, hm, hr, Nat.testBit_mul_pow_two, Nat.testBit_mul_pow_two,
    Nat.testBit_two_pow_sub_one, ← Nat.shiftRight_eq_div_pow, Nat.testBit_shiftRight]
  by_cases h6 : 6 ≤ i
  · have e : 6 + (i - 6) = i := by omega
    rw [e]
    by_cases h32 : i < 32
    · have : i - 6 < 26 := by omega
      simp [h6, this]
    · have hlt : n < 2 ^ i :=
        lt_of_lt_of_le hn (by
          have : (4294967296 : Nat) = 2 ^ 32 := by norm_num
          rw [this]
          exact Nat.pow_le_pow_right (by norm_num) (by omega))
      rw [Nat.testBit_lt_two_pow hlt]
      simp
  · simp [h6]

theorem simdPixels_eq {width height : Int} (h : 0 ≤ totalPixels width height) :
    simdPixels width height = totalPixels width height - totalPixels width height % 64 := by
  have hlt : totalPixels width height < 2147483648 := by
    unfold totalPixels wrapS32
    simp only
    split_ifs <;> omega
  unfold simdPixels andS32
  generalize totalPixels width height = tp at h hlt
  have e1 : (tp % 4294967296).toNat = tp.toNat := by
    rw [Int.emod_eq_of_lt h (by omega)]
  have e2 : ((~~~ (63 : Int)) % 4294967296).toNat = 4294967232 := by decide
  rw [e1, e2, land_mask_eq _ (by omega)]
  rw [wrapS32_eq_self (by omega) (by omega)]
  omega

/-! ## The cell-by-cell sum -/

theorem scalarSAD_add (left right : Int → U8) (a b : Nat) :
    scalarSAD left right (a + b) =
      scalarSAD left right a +
        scalarSAD (fun i => left ((a : Int) + i)) (fun i => right ((a : Int) + i)) b := by
  unfold scalarSAD
  rw [List.range_add, List.map_append, List.sum_append, List.map_map]
  rfl

theorem scalarSAD_periodic (left right : Int → U8) (p : Nat)
    (hl : ∀ i, left ((p : Int) + i) = left i) (hr : ∀ i, right ((p : Int) + i) = right i)
    (m : Nat) : scalarSAD left right (p * m) = (m : Int) * scalarSAD left right p := by
  induction m with
  | zero => simp [scalarSAD]
  | succ n ih =>
    have e : p * (n + 1) = p + p * n := by ring
    rw [e, scalarSAD_add]
    have e1 : (fun i => left ((p : Int) + i)) = left := funext hl
    have e2 : (fun i => right ((p : Int) + i)) = right := funext hr
    rw [e1, e2, ih]
    push_cast
    ring

theorem upperHalves_periodic (i : Int) : upperHalves (((64 : Nat) : Int) + i) = upperHalves i := by
  unfold upperHalves
  have : (((64 : Nat) : Int) + i) % 16 = i % 16 := by omega
  rw [this]

/-! ## Evaluating the returned value for the canonical 64x64 grid -/

theorem f32round_div_two_pow (m : Int) (k : Nat) (hm : |m| < 2 ^ 24) :
    f32round ((m : ℚ) / 2 ^ k) = (m : ℚ) / 2 ^ k := by
  have h := f32round_exact m (-(k : Int)) hm
  rw [zpow_neg, zpow_natCast, ← div_eq_mul_inv] at h
  exact h

theorem f32ofInt_eq (n : Int) (h : |n| < 2 ^ 24) : f32ofInt n = n := f32round_intCast n h

theorem f32lit_255 : f32lit 255 = 255 := by
  have := f32round_intCast 255 (by norm_num)
  simpa [f32lit] using this

theorem f32lit_one : f32lit 1 = 1 := by
  have := f32round_intCast 1 (by norm_num)
  simpa [f32lit] using this

theorem f32round_pos_eq_of_near (q : ℚ) (e m : Int) (h1 : (2 : ℚ) ^ e ≤ q)
    (h2 : q < (2 : ℚ) ^ (e + 1)) (h3 : (m : ℚ) - 1 / 2 < q / 2 ^ (e - 23))
    (h4 : q / 2 ^ (e - 23) < (m : ℚ) + 1 / 2) : f32round q = m * 2 ^ (e - 23) := by
  have hq : 0 < q := lt_of_lt_of_le (by positivity) h1
  apply f32round_eq_of_near q e m
  · rwa [abs_of_pos hq]
  · rwa [abs_of_pos hq]
  · rw [abs_lt]; constructor <;> linarith

theorem f32lit_95 : f32lit (95 / 100) = 15938355 / 16777216 := by
  unfold f32lit
  rw [f32round_pos_eq_of_near (95 / 100) (-1) 15938355 (by norm_num) (by norm_num)
    (by norm_num) (by norm_num)]
  norm_num

theorem totalPixels_64 : totalPixels 64 64 = 4096 := by decide

theorem calculateSAD_NEON_64 (left right : Int → U8) (h : |totalSAD left right 64 64| < 2 ^ 24) :
    calculateSAD_NEON left right 64 64 =
      f32round ((totalSAD left right 64 64 : ℚ) / 1044480) := by
  unfold calculateSAD_NEON
  rw [totalPixels_64, f32ofInt_eq _ h, f32ofInt_eq 4096 (by norm_num), f32lit_255]
  unfold f32mul f32div
  have : ((255 : ℚ) * ((4096 : Int) : ℚ)) = ((1044480 : Int) : ℚ) := by norm_num
  rw [this, f32round_intCast 1044480 (by norm_num)]
  norm_num

/-! ## The loops of `downsampleToGrayScale` -/

theorem foldl_foldl_eq_foldl_flatMap {σ : Type} (F : σ → Int → Int → σ) (L1 L2 : List Int) (g : σ) :
    L1.foldl (fun g y => L2.foldl (fun g x => F g y x) g) g =
      (L1.flatMap (fun y => L2.map (fun x => (y, x)))).foldl (fun g p => F g p.1 p.2) g := by
  induction L1 generalizing g with
  | nil => rfl
  | cons y ys ih =>
    rw [List.foldl_cons, ih, List.flatMap_cons, List.foldl_append, List.foldl_map]

theorem foldl_pair_fst {α β γ : Type} (f : β → α → β) (h : γ → α → γ) (L : List α) (a : β) (b : γ) :
    (L.foldl (fun g p => (f g.1 p, h g.2 p)) (a, b)).1 = L.foldl f a := by
  induction L generalizing a b with
  | nil => rfl
  | cons x xs ih => rw [List.foldl_cons, List.foldl_cons, ih]

theorem foldl_pair_snd {α β γ : Type} (f : β → α → β) (h : γ → α → γ) (L : List α) (a : β) (b : γ) :
    (L.foldl (fun g p => (f g.1 p, h g.2 p)) (a, b)).2 = L.foldl h b := by
  induction L generalizing a b with
  | nil => rfl
  | cons x xs ih => rw [List.foldl_cons, List.foldl_cons, ih]

theorem foldl_update_of_forall_ne {α : Type} (k : α → Int) (v : α → U8) (L : List α)
    (g : Int → U8) (j : Int) (h : ∀ p ∈ L, k p ≠ j) :
    (L.foldl (fun g p => Function.update g (k p) (v p)) g) j = g j := by
  induction L generalizing g with
  | nil => rfl
  | cons x xs ih =>
    rw [List.foldl_cons, ih _ (fun p hp => h p (List.mem_cons_of_mem _ hp))]
    exact Function.update_noteq (Ne.symm (h x (List.mem_cons_self _ _))) _ _

theorem foldl_update_of_mem {α : Type} (k : α → Int) (v : α → U8) (L : List α)
    (g : Int → U8) (j : Int) (c : U8) (hex : ∃ p ∈ L, k p = j) (hv : ∀ p ∈ L, k p = j → v p = c) :
    (L.foldl (fun g p => Function.update g (k p) (v p)) g) j = c := by
  induction L generalizing g with
  | nil => obtain ⟨p, hp, _⟩ := hex; cases hp
  | cons x xs ih =>
    rw [List.foldl_cons]
    by_cases hxs : ∃ p ∈ xs, k p = j
    · exact ih _ hxs (fun p hp => hv p (List.mem_cons_of_mem _ hp))
    · have hne : ∀ p ∈ xs, k p ≠ j := fun p hp he => hxs ⟨p, hp, he⟩
      rw [foldl_update_of_forall_ne k v xs _ j hne]
      obtain ⟨p, hp, hk⟩ := hex
      rcases List.mem_cons.mp hp with rfl | hp'
      · rw [← hk, Function.update_same]
        exact hv p (List.mem_cons_self _ _) hk
      · exact absurd hk (hne p hp')

theorem mem_targetCells {tw th : Int} {p : Int × Int} :
    p ∈ targetCells tw th ↔ (0 ≤ p.1 ∧ p.1 < th) ∧ (0 ≤ p.2 ∧ p.2 < tw) := by
  unfold targetCells
  rw [List.mem_flatMap]
  constructor
  · rintro ⟨y, hy, hp⟩
    rw [List.mem_map] at hp
    obtain ⟨x, hx, rfl⟩ := hp
    exact ⟨mem_forRange_one.mp hy, mem_forRange_one.mp hx⟩
  · rintro ⟨hy, hx⟩
    exact ⟨p.1, mem_forRange_one.mpr hy, List.mem_map.mpr ⟨p.2, mem_forRange_one.mpr hx, rfl⟩⟩

theorem downsample_fst (li ri : AndroidBitmapInfo) (lp rp lg rg : Int → U8) (tw th : Int) :
    (downsampleToGrayScale li ri lp rp lg rg tw th).1 =
      (targetCells tw th).foldl (fun g p => Function.update g (cellIndex tw p.2 p.1)
        (cellValue li.width li.height li.width lp tw th p.2 p.1)) lg := by
  unfold downsampleToGrayScale targetCells
  rw [foldl_foldl_eq_foldl_flatMap]
  unfold downsampleCell
  exact foldl_pair_fst
    (fun (g : Int → U8) (p : Int × Int) => Function.update g (cellIndex tw p.2 p.1)
      (cellValue li.width li.height li.width lp tw th p.2 p.1))
    (fun (g : Int → U8) (p : Int × Int) => Function.update g (cellIndex tw p.2 p.1)
      (cellValue li.width li.height ri.width rp tw th p.2 p.1)) _ lg rg

theorem downsample_snd (li ri : AndroidBitmapInfo) (lp rp lg rg : Int → U8) (tw th : Int) :
    (downsampleToGrayScale li ri lp rp lg rg tw th).2 =
      (targetCells tw th).foldl (fun g p => Function.update g (cellIndex tw p.2 p.1)
        (cellValue li.width li.height ri.width rp tw th p.2 p.1)) rg := by
  unfold downsampleToGrayScale targetCells
  rw [foldl_foldl_eq_foldl_flatMap]
  unfold downsampleCell
  exact foldl_pair_snd
    (fun (g : Int → U8) (p : Int × Int) => Function.update g (cellIndex tw p.2 p.1)
      (cellValue li.width li.height li.width lp tw th p.2 p.1))
    (fun (g : Int → U8) (p : Int × Int) => Function.update g (cellIndex tw p.2 p.1)
      (cellValue li.width li.height ri.width rp tw th p.2 p.1)) _ lg rg

theorem cellIndex_eq {tw x y : Int} (h0 : 0 ≤ y * tw + x) (h1 : y * tw + x < 2147483648) :
    cellIndex tw x y = y * tw + x :=
  wrapS32_eq_self (by omega) h1

theorem cell_bounds {tw th x y : Int} (hx0 : 0 ≤ x) (hx : x < tw) (hy0 : 0 ≤ y) (hy : y < th) :
    0 ≤ y * tw + x ∧ y * tw + x < th * tw := by
  have h1 : 0 ≤ y * tw := mul_nonneg hy0 (by omega)
  have h2 : (y + 1) * tw ≤ th * tw := mul_le_mul_of_nonneg_right (by omega) (by omega)
  constructor
  · omega
  · have : (y + 1) * tw = y * tw + tw := by ring
    omega

theorem cell_unique {tw x y x' y' : Int} (hx0 : 0 ≤ x) (hx : x < tw) (hx0' : 0 ≤ x') (hx' : x' < tw)
    (h : y * tw + x = y' * tw + x') : x = x' ∧ y = y' := by
  have e1 : (y * tw + x) % tw = x := by
    rw [add_comm, Int.add_mul_emod_self, Int.emod_eq_of_lt hx0 hx]
  have e2 : (y' * tw + x') % tw = x' := by
    rw [add_comm, Int.add_mul_emod_self, Int.emod_eq_of_lt hx0' hx']
  have hxx : x = x' := by rw [← e1, ← e2, h]
  refine ⟨hxx, ?_⟩
  subst hxx
  have : y * tw = y' * tw := by omega
  exact Int.eq_of_mul_eq_mul_right (by omega) this

/-- After `downsampleToGrayScale`, cell `y * targetWidth + x` of the left gray
buffer holds the luminance sampled for target cell `(x, y)` from the left
bitmap. -/
theorem downsample_left_apply (li ri : AndroidBitmapInfo) (lp rp lg rg : Int → U8) (tw th : Int)
    (hsize : th * tw ≤ 2147483648) {x y : Int} (hx0 : 0 ≤ x) (hx : x < tw) (hy0 : 0 ≤ y)
    (hy : y < th) :
    (downsampleToGrayScale li ri lp rp lg rg tw th).1 (y * tw + x) =
      cellValue li.width li.height li.width lp tw th x y := by
  rw [downsample_fst]
  apply foldl_update_of_mem
  · refine ⟨(y, x), mem_targetCells.mpr ⟨⟨hy0, hy⟩, ⟨hx0, hx⟩⟩, ?_⟩
    have b := cell_bounds hx0 hx hy0 hy
    show cellIndex tw x y = y * tw + x
    exact cellIndex_eq b.1 (by omega)
  · rintro ⟨y', x'⟩ hp hk
    obtain ⟨⟨hy0', hy'⟩, ⟨hx0', hx'⟩⟩ := mem_targetCells.mp hp
    have b := cell_bounds hx0' hx' hy0' hy'
    simp only at hk b hx0' hx' hy0' hy'
    rw [cellIndex_eq b.1 (by omega)] at hk
    obtain ⟨rfl, rfl⟩ := cell_unique hx0' hx' hx0 hx hk
    rfl

/-- After `downsampleToGrayScale`, cell `y * targetWidth + x` of the right gray
buffer holds the luminance sampled for target cell `(x, y)` from the right
bitmap. -/
theorem downsample_right_apply (li ri : AndroidBitmapInfo) (lp rp lg rg : Int → U8) (tw th : Int)
    (hsize : th * tw ≤ 2147483648) {x y : Int} (hx0 : 0 ≤ x) (hx : x < tw) (hy0 : 0 ≤ y)
    (hy : y < th) :
    (downsampleToGrayScale li ri lp rp lg rg tw th).2 (y * tw + x) =
      cellValue li.width li.height ri.width rp tw th x y := by
  rw [downsample_snd]
  apply foldl_update_of_mem
  · refine ⟨(y, x), mem_targetCells.mpr ⟨⟨hy0, hy⟩, ⟨hx0, hx⟩⟩, ?_⟩
    have b := cell_bounds hx0 hx hy0 hy
    show cellIndex tw x y = y * tw + x
    exact cellIndex_eq b.1 (by omega)
  · rintro ⟨y', x'⟩ hp hk
    obtain ⟨⟨hy0', hy'⟩, ⟨hx0', hx'⟩⟩ := mem_targetCells.mp hp
    have b := cell_bounds hx0' hx' hy0' hy'
    simp only at hk b hx0' hx' hy0' hy'
    rw [cellIndex_eq b.1 (by omega)] at hk
    obtain ⟨rfl, rfl⟩ := cell_unique hx0' hx' hx0 hx hk
    rfl

/-! ## Source coordinates -/

theorem f32ofInt_two_pow (a : Nat) : f32ofInt ((2 : Int) ^ a) = (2 : ℚ) ^ a := by
  have h := f32round_exact 1 (a : Int) (by norm_num)
  unfold f32ofInt
  push_cast
  simpa using h

theorem f32toInt_div_two_pow (n : Int) (a : Nat) (hn : 0 ≤ n) :
    f32toInt ((n : ℚ) / 2 ^ a) = n / 2 ^ a := by
  unfold f32toInt
  have h0 : (0 : ℚ) ≤ (n : ℚ) / 2 ^ a := by
    apply div_nonneg
    · exact_mod_cast hn
    · positivity
  rw [if_pos h0]
  have := Rat.floor_intCast_div_natCast n (2 ^ a)
  push_cast at this
  exact this

/-- For a power-of-two target size and a product `x * dim` below `2 ^ 24`
every floating point step is exact and the sampled coordinate is the integer
quotient. -/
theorem srcCoord_two_pow (dim : Nat) (a : Nat) (x : Int) (hx0 : 0 ≤ x)
    (hdim : (dim : Int) < 2 ^ 24) (hx : x < 2 ^ 24) (hprod : x * (dim : Int) < 2 ^ 24) :
    srcCoord dim ((2 : Int) ^ a) x = x * (dim : Int) / 2 ^ a := by
  have hd : f32ofInt (dim : Int) = ((dim : Int) : ℚ) :=
    f32ofInt_eq _ (by rw [abs_of_nonneg (by positivity)]; exact hdim)
  have hxq : f32ofInt x = (x : ℚ) := f32ofInt_eq _ (by rw [abs_of_nonneg hx0]; exact hx)
  have hs : scale dim ((2 : Int) ^ a) = ((dim : Int) : ℚ) / 2 ^ a := by
    unfold scale f32div
    rw [hd, f32ofInt_two_pow]
    exact f32round_div_two_pow _ a (by rw [abs_of_nonneg (by positivity)]; exact hdim)
  have hp0 : 0 ≤ x * (dim : Int) := mul_nonneg hx0 (by positivity)
  unfold srcCoord f32mul
  rw [hs, hxq]
  have e : (x : ℚ) * (((dim : Int) : ℚ) / 2 ^ a) = ((x * (dim : Int) : Int) : ℚ) / 2 ^ a := by
    push_cast; ring
  rw [e, f32round_div_two_pow _ a (by rw [abs_of_nonneg hp0]; exact hprod),
    f32toInt_div_two_pow _ a hp0]

theorem f32toInt_eq_of_bounds (q : ℚ) (n : Int) (h0 : 0 ≤ q) (h1 : (n : ℚ) ≤ q)
    (h2 : q < (n : ℚ) + 1) : f32toInt q = n := by
  unfold f32toInt
  rw [if_pos h0, Int.floor_eq_iff]
  exact ⟨h1, h2⟩

theorem f32round_le_mul {q : ℚ} (hq : 0 ≤ q) : f32round q ≤ q * (1 + 1 / 2 ^ 24) := by
  rcases eq_or_lt_of_le hq with h | h
  · rw [← h, f32round_zero]; norm_num
  · have := (abs_le.mp (f32round_abs_sub_le h)).2
    linarith

theorem f32toInt_nonneg {q : ℚ} (hq : 0 ≤ q) : 0 ≤ f32toInt q := by
  unfold f32toInt
  rw [if_pos hq]
  exact Int.floor_nonneg.mpr hq

theorem f32toInt_lt {q : ℚ} {n : Int} (hq : 0 ≤ q) (h : q < n) : f32toInt q < n := by
  unfold f32toInt
  rw [if_pos hq]
  exact Int.floor_lt.mpr h

/-- For a target size of at most `2 ^ 22` the sampled coordinate stays inside
the source dimension. -/
theorem srcCoord_bounds (dim : Nat) (target x : Int) (hdim : 0 < dim) (ht : 0 < target)
    (ht2 : target ≤ 2 ^ 22) (hx0 : 0 ≤ x) (hx : x < target) :
    0 ≤ srcCoord dim target x ∧ srcCoord dim target x < dim := by
  have hd : (0 : ℚ) < ((dim : Int) : ℚ) := by exact_mod_cast hdim
  have htq : (0 : ℚ) < (target : ℚ) := by exact_mod_cast ht
  have hxq0 : (0 : ℚ) ≤ (x : ℚ) := by exact_mod_cast hx0
  have hxq : (x : ℚ) ≤ (target : ℚ) - 1 := by
    have : x ≤ target - 1 := by omega
    exact_mod_cast this
  have ht2q : (target : ℚ) ≤ 2 ^ 22 := by exact_mod_cast ht2
  have eT : f32ofInt target = (target : ℚ) :=
    f32ofInt_eq _ (by rw [abs_of_pos ht]; omega)
  have eX : f32ofInt x = (x : ℚ) := f32ofInt_eq _ (by rw [abs_of_nonneg hx0]; omega)
  have h1 : f32ofInt (dim : Int) ≤ ((dim : Int) : ℚ) * (1 + 1 / 2 ^ 24) := f32round_le_mul hd.le
  have h1n : 0 ≤ f32ofInt (dim : Int) := f32round_nonneg hd.le
  have h2n : 0 ≤ scale dim target := by
    unfold scale f32div
    rw [eT]
    exact f32round_nonneg (div_nonneg h1n htq.le)
  have h2 : scale dim target ≤ f32ofInt (dim : Int) / target * (1 + 1 / 2 ^ 24) := by
    unfold scale f32div
    rw [eT]
    exact f32round_le_mul (div_nonneg h1n htq.le)
  have h3n : 0 ≤ f32mul (f32ofInt x) (scale dim target) := by
    unfold f32mul
    rw [eX]
    exact f32round_nonneg (mul_nonneg hxq0 h2n)
  have h3 : f32mul (f32ofInt x) (scale dim target) ≤
      (x : ℚ) * scale dim target * (1 + 1 / 2 ^ 24) := by
    unfold f32mul
    rw [eX]
    exact f32round_le_mul (mul_nonneg hxq0 h2n)
  have hs : scale dim target ≤ ((dim : Int) : ℚ) * (1 + 1 / 2 ^ 24) ^ 2 / target := by
    calc scale dim target ≤ f32ofInt (dim : Int) / target * (1 + 1 / 2 ^ 24) := h2
      _ ≤ ((dim : Int) : ℚ) * (1 + 1 / 2 ^ 24) / target * (1 + 1 / 2 ^ 24) := by
          apply mul_le_mul_of_nonneg_right _ (by norm_num)
          exact div_le_div_of_nonneg_right h1 htq.le
      _ = ((dim : Int) : ℚ) * (1 + 1 / 2 ^ 24) ^ 2 / target := by ring
  have hxc : (x : ℚ) * (1 + 1 / 2 ^ 24) ^ 3 < target := by
    have : (x : ℚ) * (1 + 1 / 2 ^ 24) ^ 3 ≤ ((target : ℚ) - 1) * (1 + 1 / 2 ^ 24) ^ 3 :=
      mul_le_mul_of_nonneg_right hxq (by positivity)
    norm_num at this ⊢
    linarith
  have hfin : f32mul (f32ofInt x) (scale dim target) < ((dim : Int) : ℚ) := by
    calc f32mul (f32ofInt x) (scale dim target)
        ≤ (x : ℚ) * scale dim target * (1 + 1 / 2 ^ 24) := h3
      _ ≤ (x : ℚ) * (((dim : Int) : ℚ) * (1 + 1 / 2 ^ 24) ^ 2 / target) * (1 + 1 / 2 ^ 24) := by
          apply mul_le_mul_of_nonneg_right _ (by norm_num)
          exact mul_le_mul_of_nonneg_left hs hxq0
      _ = ((dim : Int) : ℚ) * ((x : ℚ) * (1 + 1 / 2 ^ 24) ^ 3) / target := by ring
      _ < ((dim : Int) : ℚ) * target / target := by
          apply div_lt_div_of_pos_right _ htq
          exact mul_lt_mul_of_pos_left hxc hd
      _ = ((dim : Int) : ℚ) := by field_simp
  unfold srcCoord
  exact ⟨f32toInt_nonneg h3n, f32toInt_lt h3n hfin⟩

theorem pixelOffset_bounds (width height : Nat) (srcX srcY : Int)
    (hsize : (width : Int) * (height : Int) * 4 ≤ 2147483648)
    (hx0 : 0 ≤ srcX) (hx : srcX < width) (hy0 : 0 ≤ srcY) (hy : srcY < height) :
    pixelOffset width srcX srcY = (srcY * (width : Int) + srcX) * 4 ∧
      0 ≤ pixelOffset width srcX srcY ∧
      pixelOffset width srcX srcY + 2 < (width : Int) * (height : Int) * 4 := by
  have b := cell_bounds hx0 hx hy0 hy
  have e : pixelOffset width srcX srcY = (srcY * (width : Int) + srcX) * 4 := by
    unfold pixelOffset
    apply wrapS32_eq_self
    · omega
    · have : (height : Int) * (width : Int) = (width : Int) * (height : Int) := mul_comm _ _
      omega
  rw [e]
  have : (height : Int) * (width : Int) = (width : Int) * (height : Int) := mul_comm _ _
  refine ⟨rfl, by omega, by omega⟩

/-! ## Luminance -/

theorem roundHalfEven_of_floor (q : ℚ) (f : Int) (h1 : (f : ℚ) ≤ q) (h2 : q < (f : ℚ) + 1) :
    roundHalfEven q =
      if q - f < 1 / 2 then f else if 1 / 2 < q - f then f + 1
      else if f % 2 = 0 then f else f + 1 := by
  have hf : ⌊q⌋ = f := Int.floor_eq_iff.mpr ⟨h1, h2⟩
  unfold roundHalfEven
  rw [hf]

theorem f32round_pos_eq_of_tie_up (q : ℚ) (e f : Int) (h1 : (2 : ℚ) ^ e ≤ q)
    (h2 : q < (2 : ℚ) ^ (e + 1)) (h3 : q / 2 ^ (e - 23) = (f : ℚ) + 1 / 2) (hodd : f % 2 = 1) :
    f32round q = ((f + 1 : Int) : ℚ) * 2 ^ (e - 23) := by
  have hq : 0 < q := lt_of_lt_of_le (by positivity) h1
  rw [f32round_of_pos hq, log2_eq_of_bounds h1 h2,
    roundHalfEven_of_floor _ f (by rw [h3]; linarith) (by rw [h3]; linarith), h3]
  have a1 : ¬ ((f : ℚ) + 1 / 2 - f < 1 / 2) := by norm_num
  have a2 : ¬ ((1 : ℚ) / 2 < (f : ℚ) + 1 / 2 - f) := by norm_num
  have a3 : ¬ (f % 2 = 0) := by omega
  rw [if_neg a1, if_neg a2, if_neg a3]

theorem f32round_pos_eq_of_tie_down (q : ℚ) (e f : Int) (h1 : (2 : ℚ) ^ e ≤ q)
    (h2 : q < (2 : ℚ) ^ (e + 1)) (h3 : q / 2 ^ (e - 23) = (f : ℚ) + 1 / 2) (heven : f % 2 = 0) :
    f32round q = (f : ℚ) * 2 ^ (e - 23) := by
  have hq : 0 < q := lt_of_lt_of_le (by positivity) h1
  rw [f32round_of_pos hq, log2_eq_of_bounds h1 h2,
    roundHalfEven_of_floor _ f (by rw [h3]; linarith) (by rw [h3]; linarith), h3]
  have a1 : ¬ ((f : ℚ) + 1 / 2 - f < 1 / 2) := by norm_num
  have a2 : ¬ ((1 : ℚ) / 2 < (f : ℚ) + 1 / 2 - f) := by norm_num
  rw [if_neg a1, if_neg a2, if_pos heven]

theorem f32lit_299 : f32lit (299 / 1000) = 10032775 / 33554432 := by
  unfold f32lit
  rw [f32round_pos_eq_of_near _ (-2) 10032775 (by norm_num) (by norm_num) (by norm_num)
    (by norm_num)]
  norm_num

theorem f32lit_587 : f32lit (587 / 1000) = 4924113 / 8388608 := by
  unfold f32lit
  rw [f32round_pos_eq_of_near _ (-1) 9848226 (by norm_num) (by norm_num) (by norm_num)
    (by norm_num)]
  norm_num

theorem f32lit_114 : f32lit (114 / 1000) = 15300821 / 134217728 := by
  unfold f32lit
  rw [f32round_pos_eq_of_near _ (-4) 15300821 (by norm_num) (by norm_num) (by norm_num)
    (by norm_num)]
  norm_num

theorem f32ofInt_u8 (r : U8) : f32ofInt (r.val : Int) = (r.val : ℚ) := by
  have h := r.isLt
  rw [f32ofInt_eq _ (by rw [abs_of_nonneg (by positivity)]; omega)]
  push_cast
  rfl

/-- The luminance obtained from the rounded intermediate results of the
expression `0.299f * R + 0.587f * G + 0.114f * B`. -/
theorem luma_eq_of_steps (r g b : U8) (p1 p2 p3 s1 s2 : ℚ) (v : Int)
    (h1 : f32round (10032775 / 33554432 * (r.val : ℚ)) = p1)
    (h2 : f32round (4924113 / 8388608 * (g.val : ℚ)) = p2)
    (h3 : f32round (15300821 / 134217728 * (b.val : ℚ)) = p3)
    (h4 : f32round (p1 + p2) = s1) (h5 : f32round (s1 + p3) = s2) (h6 : f32toInt s2 = v) :
    luma r g b = toU8 v := by
  unfold luma lumaFloat f32add f32mul
  rw [f32lit_299, f32lit_587, f32lit_114, f32ofInt_u8, f32ofInt_u8, f32ofInt_u8, h1, h2, h3,
    h4, h5, h6]

theorem luma_white : luma 255 255 255 = 255 := by
  have e : toU8 255 = 255 := by decide
  rw [← e]
  apply luma_eq_of_steps 255 255 255 (624599 / 8192) (2452439 / 16384) (3810263 / 131072) (3701637 / 16384) (255)
  · rw [show ((255 : U8).val : ℚ) = 255 from rfl]
    rw [f32round_pos_eq_of_near _ (6) 9993584 (by norm_num) (by norm_num) (by norm_num)
      (by norm_num)]
    norm_num
  · rw [show ((255 : U8).val : ℚ) = 255 from rfl]
    rw [f32round_pos_eq_of_near _ (7) 9809756 (by norm_num) (by norm_num) (by norm_num)
      (by norm_num)]
    norm_num
  · rw [show ((255 : U8).val : ℚ) = 255 from rfl]
    rw [f32round_pos_eq_of_near _ (4) 15241052 (by norm_num) (by norm_num) (by norm_num)
      (by norm_num)]
    norm_num
  · rw [f32round_pos_eq_of_near _ (7) 14806548 (by norm_num) (by norm_num) (by norm_num)
      (by norm_num)]
    norm_num
  · rw [f32round_pos_eq_of_tie_up _ (7) 16711679 (by norm_num) (by norm_num) (by norm_num)
      (by decide)]
    norm_num
  · apply f32toInt_eq_of_bounds <;> norm_num

theorem luma_gray200 : luma 200 200 200 = 200 := by
  have e : toU8 200 = 200 := by decide
  rw [← e]
  apply luma_eq_of_steps 200 200 200 (15676211 / 262144) (15387853 / 131072) (5976883 / 262144) (11612979 / 65536) (200)
  · rw [show ((200 : U8).val : ℚ) = 200 from rfl]
    rw [f32round_pos_eq_of_near _ (5) 15676211 (by norm_num) (by norm_num) (by norm_num)
      (by norm_num)]
    norm_num
  · rw [show ((200 : U8).val : ℚ) = 200 from rfl]
    rw [f32round_pos_eq_of_near _ (6) 15387853 (by norm_num) (by norm_num) (by norm_num)
      (by norm_num)]
    norm_num
  · rw [show ((200 : U8).val : ℚ) = 200 from rfl]
    rw [f32round_pos_eq_of_near _ (4) 11953766 (by norm_num) (by norm_num) (by norm_num)
      (by norm_num)]
    norm_num
  · rw [f32round_pos_eq_of_near _ (7) 11612979 (by norm_num) (by norm_num) (by norm_num)
      (by norm_num)]
    norm_num
  · rw [f32round_pos_eq_of_near _ (7) 13107200 (by norm_num) (by norm_num) (by norm_num)
      (by norm_num)]
    norm_num
  · apply f32toInt_eq_of_bounds <;> norm_num

theorem luma_black : luma 0 0 0 = 0 := by
  have e : toU8 0 = 0 := by decide
  rw [← e]
  apply luma_eq_of_steps 0 0 0 (0) (0) (0) (0) (0)
  · rw [show ((0 : U8).val : ℚ) = 0 from rfl]
    norm_num [f32round_zero]
  · rw [show ((0 : U8).val : ℚ) = 0 from rfl]
    norm_num [f32round_zero]
  · rw [show ((0 : U8).val : ℚ) = 0 from rfl]
    norm_num [f32round_zero]
  · norm_num [f32round_zero]
  · norm_num [f32round_zero]
  · apply f32toInt_eq_of_bounds <;> norm_num

theorem luma_173_39_170 : luma 173 39 170 = 93 := by
  have e : toU8 93 = 93 := by decide
  rw [← e]
  apply luma_eq_of_steps 173 39 170 (6779961 / 131072) (12002525 / 524288) (10160701 / 524288) (611287 / 8192) (12320767 / 131072)
  · rw [show ((173 : U8).val : ℚ) = 173 from rfl]
    rw [f32round_pos_eq_of_near _ (5) 13559922 (by norm_num) (by norm_num) (by norm_num)
      (by norm_num)]
    norm_num
  · rw [show ((39 : U8).val : ℚ) = 39 from rfl]
    rw [f32round_pos_eq_of_near _ (4) 12002525 (by norm_num) (by norm_num) (by norm_num)
      (by norm_num)]
    norm_num
  · rw [show ((170 : U8).val : ℚ) = 170 from rfl]
    rw [f32round_pos_eq_of_near _ (4) 10160701 (by norm_num) (by norm_num) (by norm_num)
      (by norm_num)]
    norm_num
  · rw [f32round_pos_eq_of_near _ (6) 9780592 (by norm_num) (by norm_num) (by norm_num)
      (by norm_num)]
    norm_num
  · rw [f32round_pos_eq_of_near _ (6) 12320767 (by norm_num) (by norm_num) (by norm_num)
      (by norm_num)]
    norm_num
  · apply f32toInt_eq_of_bounds <;> norm_num

theorem lumaFloat_eq (r g b : U8) :
    lumaFloat r g b =
      f32round (f32round (f32round (10032775 / 33554432 * (r.val : ℚ)) +
        f32round (4924113 / 8388608 * (g.val : ℚ))) +
        f32round (15300821 / 134217728 * (b.val : ℚ))) := by
  unfold lumaFloat f32add f32mul
  rw [f32lit_299, f32lit_587, f32lit_114, f32ofInt_u8, f32ofInt_u8, f32ofInt_u8]

theorem u8_cast_bounds (r : U8) : (0 : ℚ) ≤ (r.val : ℚ) ∧ (r.val : ℚ) ≤ 255 := by
  have h := r.isLt
  constructor
  · positivity
  · have : r.val ≤ 255 := by omega
    exact_mod_cast this

theorem lumaFloat_nonneg (r g b : U8) : 0 ≤ lumaFloat r g b := by
  rw [lumaFloat_eq]
  obtain ⟨r0, _⟩ := u8_cast_bounds r
  obtain ⟨g0, _⟩ := u8_cast_bounds g
  obtain ⟨b0, _⟩ := u8_cast_bounds b
  apply f32round_nonneg
  apply add_nonneg
  · apply f32round_nonneg
    apply add_nonneg <;> apply f32round_nonneg <;> positivity
  · apply f32round_nonneg; positivity

theorem lumaFloat_mono (r g b r' g' b' : U8) (hr : r.val ≤ r'.val) (hg : g.val ≤ g'.val)
    (hb : b.val ≤ b'.val) : lumaFloat r g b ≤ lumaFloat r' g' b' := by
  rw [lumaFloat_eq, lumaFloat_eq]
  obtain ⟨r0, _⟩ := u8_cast_bounds r
  obtain ⟨g0, _⟩ := u8_cast_bounds g
  obtain ⟨b0, _⟩ := u8_cast_bounds b
  have hr' : (r.val : ℚ) ≤ (r'.val : ℚ) := by exact_mod_cast hr
  have hg' : (g.val : ℚ) ≤ (g'.val : ℚ) := by exact_mod_cast hg
  have hb' : (b.val : ℚ) ≤ (b'.val : ℚ) := by exact_mod_cast hb
  have p1 : f32round (10032775 / 33554432 * (r.val : ℚ)) ≤
      f32round (10032775 / 33554432 * (r'.val : ℚ)) :=
    f32round_mono (by positivity) (by linarith)
  have p2 : f32round (4924113 / 8388608 * (g.val : ℚ)) ≤
      f32round (4924113 / 8388608 * (g'.val : ℚ)) :=
    f32round_mono (by positivity) (by linarith)
  have p3 : f32round (15300821 / 134217728 * (b.val : ℚ)) ≤
      f32round (15300821 / 134217728 * (b'.val : ℚ)) :=
    f32round_mono (by positivity) (by linarith)
  have n1 : 0 ≤ f32round (10032775 / 33554432 * (r.val : ℚ)) := f32round_nonneg (by positivity)
  have n2 : 0 ≤ f32round (4924113 / 8388608 * (g.val : ℚ)) := f32round_nonneg (by positivity)
  have n3 : 0 ≤ f32round (15300821 / 134217728 * (b.val : ℚ)) := f32round_nonneg (by positivity)
  have s1 := f32round_mono (add_nonneg n1 n2) (add_le_add p1 p2)
  have ns1 := f32round_nonneg (add_nonneg n1 n2)
  exact f32round_mono (add_nonneg ns1 n3) (add_le_add s1 p3)

theorem lumaFloat_white : lumaFloat 255 255 255 = 255 := by
  rw [lumaFloat_eq]
  rw [show ((255 : U8).val : ℚ) = 255 from rfl]
  have h1 : f32round ((10032775 : ℚ) / 33554432 * 255) = 624599 / 8192 := by
    rw [f32round_pos_eq_of_near _ (6) 9993584 (by norm_num) (by norm_num) (by norm_num)
      (by norm_num)]
    norm_num
  have h2 : f32round ((4924113 : ℚ) / 8388608 * 255) = 2452439 / 16384 := by
    rw [f32round_pos_eq_of_near _ (7) 9809756 (by norm_num) (by norm_num) (by norm_num)
      (by norm_num)]
    norm_num
  have h3 : f32round ((15300821 : ℚ) / 134217728 * 255) = 3810263 / 131072 := by
    rw [f32round_pos_eq_of_near _ (4) 15241052 (by norm_num) (by norm_num) (by norm_num)
      (by norm_num)]
    norm_num
  rw [h1, h2, h3]
  have h4 : f32round ((624599 : ℚ) / 8192 + 2452439 / 16384) = 3701637 / 16384 := by
    rw [f32round_pos_eq_of_near _ (7) 14806548 (by norm_num) (by norm_num) (by norm_num)
      (by norm_num)]
    norm_num
  rw [h4]
  rw [f32round_pos_eq_of_tie_up _ (7) 16711679 (by norm_num) (by norm_num) (by norm_num)
    (by decide)]
  norm_num

/-- The `float` weighted sum lies in `[0, 255]`, so its truncation fits in a
byte. -/
theorem lumaFloat_range (r g b : U8) : 0 ≤ lumaFloat r g b ∧ lumaFloat r g b ≤ 255 := by
  refine ⟨lumaFloat_nonneg r g b, ?_⟩
  rw [← lumaFloat_white]
  have hr := r.isLt
  have hg := g.isLt
  have hb := b.isLt
  apply lumaFloat_mono
  · show r.val ≤ 255; omega
  · show g.val ≤ 255; omega
  · show b.val ≤ 255; omega

theorem f32round_sub_bounds {q : ℚ} (hq : 0 ≤ q) :
    q - q / 2 ^ 24 ≤ f32round q ∧ f32round q ≤ q + q / 2 ^ 24 := by
  rcases eq_or_lt_of_le hq with h | h
  · rw [← h, f32round_zero]; norm_num
  · have := abs_le.mp (f32round_abs_sub_le h)
    constructor <;> linarith [this.1, this.2]

/-- The `float` weighted sum is within one thousandth of the exact weighted
sum. -/
theorem lumaFloat_near_exact (r g b : U8) :
    exactLuma r g b - 1 / 1000 < lumaFloat r g b ∧
      lumaFloat r g b < exactLuma r g b + 1 / 1000 := by
  rw [lumaFloat_eq]
  unfold exactLuma
  obtain ⟨r0, r1⟩ := u8_cast_bounds r
  obtain ⟨g0, g1⟩ := u8_cast_bounds g
  obtain ⟨b0, b1⟩ := u8_cast_bounds b
  obtain ⟨x1, y1⟩ := f32round_sub_bounds
    (q := 10032775 / 33554432 * (r.val : ℚ)) (by positivity)
  obtain ⟨x2, y2⟩ := f32round_sub_bounds
    (q := 4924113 / 8388608 * (g.val : ℚ)) (by positivity)
  obtain ⟨x3, y3⟩ := f32round_sub_bounds
    (q := 15300821 / 134217728 * (b.val : ℚ)) (by positivity)
  have n1 : 0 ≤ f32round (10032775 / 33554432 * (r.val : ℚ)) := f32round_nonneg (by positivity)
  have n2 : 0 ≤ f32round (4924113 / 8388608 * (g.val : ℚ)) := f32round_nonneg (by positivity)
  have n3 : 0 ≤ f32round (15300821 / 134217728 * (b.val : ℚ)) := f32round_nonneg (by positivity)
  obtain ⟨x4, y4⟩ := f32round_sub_bounds (add_nonneg n1 n2)
  have n4 := f32round_nonneg (add_nonneg n1 n2)
  obtain ⟨x5, y5⟩ := f32round_sub_bounds (add_nonneg n4 n3)
  norm_num at x1 y1 x2 y2 x3 y3 x4 y4 x5 y5 ⊢
  constructor <;> linarith

theorem exactLuma_floor_bounds (r g b : U8) :
    ((⌊exactLuma r g b⌋ : Int) : ℚ) ≤ exactLuma r g b ∧
      exactLuma r g b ≤ ((⌊exactLuma r g b⌋ : Int) : ℚ) + 999 / 1000 := by
  have e : exactLuma r g b =
      (((299 * (r.val : Int) + 587 * (g.val : Int) + 114 * (b.val : Int) : Int) : ℚ)) /
        ((1000 : ℕ) : ℚ) := by
    unfold exactLuma
    push_cast
    ring
  have hfl : ⌊exactLuma r g b⌋ =
      (299 * (r.val : Int) + 587 * (g.val : Int) + 114 * (b.val : Int)) / ((1000 : ℕ) : Int) := by
    rw [e]
    exact Rat.floor_intCast_div_natCast _ _
  refine ⟨Int.floor_le _, ?_⟩
  rw [hfl]
  rw [e]
  generalize 299 * (r.val : Int) + 587 * (g.val : Int) + 114 * (b.val : Int) = n
  have h1 : n = 1000 * (n / 1000) + n % 1000 := (Int.ediv_add_emod n 1000).symm
  have h2 : n % 1000 ≤ 999 := by omega
  have h3 : (n : ℚ) = 1000 * ((n / 1000 : Int) : ℚ) + ((n % 1000 : Int) : ℚ) := by
    exact_mod_cast h1
  have h4 : ((n % 1000 : Int) : ℚ) ≤ 999 := by exact_mod_cast h2
  push_cast
  rw [div_le_iff₀ (by norm_num)]
  push_cast at h3
  linarith

theorem toU8_val {n : Int} (h0 : 0 ≤ n) (h1 : n ≤ 255) : ((toU8 n).val : Int) = n := by
  unfold toU8
  simp only
  omega

theorem srcCoord_64_64_one : srcCoord 64 64 1 = 1 := by
  have h := srcCoord_two_pow 64 6 1 (by norm_num) (by norm_num) (by norm_num) (by norm_num)
  norm_num at h
  exact h

/-! ## Failure paths -/

theorem forRange_of_le {a b : Int} (h : b ≤ a) (step : Nat) : forRange a b step = [] := by
  unfold forRange
  have : (b - a).toNat = 0 := by omega
  rw [this]
  rcases Nat.eq_zero_or_pos step with h0 | h0
  · subst h0; simp
  · have : (0 + (step - 1)) / step = 0 := by
      apply Nat.div_eq_of_lt; omega
    rw [this]
    rfl

theorem foldl_id {σ α : Type} (L : List α) (g : σ) : L.foldl (fun g _ => g) g = g := by
  induction L with
  | nil => rfl
  | cons x xs ih => rw [List.foldl_cons, ih]

/-- With a non-positive target width or height the loops of
`downsampleToGrayScale` do not run and both gray buffers are returned as they
were. -/
theorem downsample_of_nonpos_target (li ri : AndroidBitmapInfo) (lp rp lg rg : Int → U8)
    (tw th : Int) (h : tw ≤ 0 ∨ th ≤ 0) :
    downsampleToGrayScale li ri lp rp lg rg tw th = (lg, rg) := by
  unfold downsampleToGrayScale
  rcases h with h | h
  · rw [forRange_of_le h 1]
    simp only [List.foldl_nil]
    exact foldl_id _ _
  · rw [forRange_of_le h 1]
    rfl

theorem isSBSOutcome_classified_iff (leftHalf rightHalf : Bitmap) (heapLeft heapRight : Int → U8) :
    (∃ r, isSBSOutcome leftHalf rightHalf heapLeft heapRight = SbsOutcome.classified r) ↔
      (leftHalf.infoResult = 0 ∧ rightHalf.infoResult = 0 ∧
        leftHalf.lockResult = 0 ∧ rightHalf.lockResult = 0) := by
  unfold isSBSOutcome
  constructor
  · rintro ⟨r, hr⟩
    split_ifs at hr with h1 h2
    push_neg at h1 h2
    exact ⟨h1.1, h1.2, h2.1, h2.2⟩
  · rintro ⟨a, b, c, d⟩
    rw [if_neg (by simp [a, b]), if_neg (by simp [c, d])]
    exact ⟨_, rfl⟩

/-! ## Bounds on the accumulated total and on the correlation -/

theorem length_forRange (a b : Int) (step : Nat) :
    (forRange a b step).length = ((b - a).toNat + (step - 1)) / step := by
  simp [forRange]

theorem list_sum_map_bounds {α : Type} (L : List α) (f : α → Int) (c : Int)
    (h : ∀ a ∈ L, 0 ≤ f a ∧ f a ≤ c) :
    0 ≤ (L.map f).sum ∧ (L.map f).sum ≤ c * (L.length : Int) := by
  induction L with
  | nil => simp
  | cons x xs ih =>
    obtain ⟨i0, i1⟩ := ih (fun a ha => h a (List.mem_cons_of_mem _ ha))
    obtain ⟨x0, x1⟩ := h x (List.mem_cons_self _ _)
    rw [List.map_cons, List.sum_cons, List.length_cons]
    push_cast
    constructor
    · omega
    · have : c * ((xs.length : Int) + 1) = c * (xs.length : Int) + c := by ring
      omega

theorem scalarAbsDiff_bounds (left right : Int → U8) (i : Int) :
    0 ≤ scalarAbsDiff left right i ∧ scalarAbsDiff left right i ≤ 255 := by
  rw [scalarAbsDiff_eq]
  have := absDiffNat_le left right i
  omega

theorem batchSAD_bounds (left right : Int → U8) (i : Int) :
    0 ≤ batchSAD left right i ∧ batchSAD left right i ≤ 8160 := by
  rw [batchSAD_eq]
  have h := list_sum_map_bounds lane0Offsets (fun k => scalarAbsDiff left right (i + k)) 255
    (fun a _ => scalarAbsDiff_bounds left right (i + a))
  have hl : (lane0Offsets.length : Int) = 32 := by decide
  rw [hl] at h
  omega

/-- Without overflow of `totalPixels`, what the two loops accumulate lies
between 0 and `255 * totalPixels`. -/
theorem accumulatedSAD_bounds (left right : Int → U8) (width height : Int)
    (h0 : 0 ≤ totalPixels width height) :
    0 ≤ accumulatedSAD left right width height ∧
      accumulatedSAD left right width height ≤ 255 * totalPixels width height := by
  unfold accumulatedSAD
  rw [simdPixels_eq h0]
  generalize totalPixels width height = tp at *
  obtain ⟨a0, a1⟩ := list_sum_map_bounds (forRange 0 (tp - tp % 64) 64)
    (fun i => batchSAD left right i) 8160 (fun a _ => batchSAD_bounds left right a)
  obtain ⟨b0, b1⟩ := list_sum_map_bounds (forRange (tp - tp % 64) tp 1)
    (fun i => scalarAbsDiff left right i) 255 (fun a _ => scalarAbsDiff_bounds left right a)
  rw [length_forRange] at a1 b1
  simp only [sub_zero, Nat.add_one_sub_one, Nat.sub_self, Nat.add_zero, Nat.div_one] at a1 b1
  constructor
  · omega
  · have e1 : (((tp - tp % 64).toNat + 63) / 64 : Nat) = (tp / 64).toNat := by omega
    have e2 : ((tp - (tp - tp % 64)).toNat : Int) = tp % 64 := by omega
    rw [e1] at a1
    rw [e2] at b1
    have e3 : ((tp / 64).toNat : Int) = tp / 64 := by omega
    rw [e3] at a1
    omega

theorem totalPixels_eq {width height : Int} (h0 : 0 ≤ width * height)
    (h1 : width * height < 2147483648) : totalPixels width height = width * height :=
  wrapS32_eq_self (by omega) h1

theorem f32round_one : f32round 1 = 1 := by
  have := f32round_intCast 1 (by norm_num)
  simpa using this

/-- The correlation computed from a total between 0 and `255 * cells`, for at
most `2 ^ 23` cells, lies in `[0, 1]`. -/
theorem correlation_bounds (total cells : Int) (h0 : 0 ≤ total) (h1 : total ≤ 255 * cells)
    (hc0 : 0 < cells) (hc1 : cells ≤ 2 ^ 23) :
    0 ≤ f32sub (f32lit 1) (f32div (f32ofInt total) (f32mul (f32lit 255) (f32ofInt cells))) ∧
      f32sub (f32lit 1) (f32div (f32ofInt total) (f32mul (f32lit 255) (f32ofInt cells))) ≤ 1 := by
  have eC : f32ofInt cells = (cells : ℚ) :=
    f32ofInt_eq _ (by rw [abs_of_pos hc0]; omega)
  have hcq : (0 : ℚ) < (cells : ℚ) := by exact_mod_cast hc0
  have htq0 : (0 : ℚ) ≤ (total : ℚ) := by exact_mod_cast h0
  have htq1 : (total : ℚ) ≤ 255 * (cells : ℚ) := by exact_mod_cast h1
  have hden : 0 < f32mul (f32lit 255) (f32ofInt cells) := by
    unfold f32mul
    rw [f32lit_255, eC]
    exact f32round_pos (by positivity)
  have hnum0 : 0 ≤ f32ofInt total := f32round_nonneg htq0
  have hnum1 : f32ofInt total ≤ f32mul (f32lit 255) (f32ofInt cells) := by
    unfold f32mul f32ofInt
    rw [f32lit_255]
    have := eC
    unfold f32ofInt at this
    rw [this]
    exact f32round_mono htq0 htq1
  have hr0 : 0 ≤ f32ofInt total / f32mul (f32lit 255) (f32ofInt cells) :=
    div_nonneg hnum0 hden.le
  have hr1 : f32ofInt total / f32mul (f32lit 255) (f32ofInt cells) ≤ 1 :=
    (div_le_one hden).mpr hnum1
  have hs0 : 0 ≤ f32div (f32ofInt total) (f32mul (f32lit 255) (f32ofInt cells)) :=
    f32round_nonneg hr0
  have hs1 : f32div (f32ofInt total) (f32mul (f32lit 255) (f32ofInt cells)) ≤ 1 := by
    have := f32round_mono hr0 hr1
    rwa [f32round_one] at this
  unfold f32sub
  rw [f32lit_one]
  constructor
  · exact f32round_nonneg (by linarith)
  · have := f32round_mono (a := 1 - f32div (f32ofInt total)
      (f32mul (f32lit 255) (f32ofInt cells))) (b := 1) (by linarith) (by linarith)
    rwa [f32round_one] at this

theorem list_sum_map_const {α : Type} (L : List α) (f : α → Int) (c : Int)
    (h : ∀ a ∈ L, f a = c) : (L.map f).sum = c * (L.length : Int) := by
  induction L with
  | nil => simp
  | cons x xs ih =>
    rw [List.map_cons, List.sum_cons, List.length_cons, h x (List.mem_cons_self _ _),
      ih (fun a ha => h a (List.mem_cons_of_mem _ ha))]
    push_cast
    ring

theorem batchSAD_white_black (i : Int) : batchSAD (fun _ => 255) (fun _ => 0) i = 8160 := by
  rw [batchSAD_eq]
  have h := list_sum_map_const lane0Offsets
    (fun k => scalarAbsDiff (fun _ => 255) (fun _ => 0) (i + k)) 255 (fun a _ => rfl)
  rw [h]
  decide

theorem totalSAD_wraps : totalSAD (fun _ => 255) (fun _ => 0) 8192 4096 = -16777216 := by
  have htp : totalPixels 8192 4096 = 33554432 := by decide
  have hsp : simdPixels 8192 4096 = 33554432 := by decide
  have hacc : accumulatedSAD (fun _ => 255) (fun _ => 0) 8192 4096 = 4278190080 := by
    unfold accumulatedSAD
    rw [htp, hsp, forRange_of_le (le_refl _) 1,
      list_sum_map_const _ _ 8160 (fun a _ => batchSAD_white_black a), length_forRange]
    decide
  rw [totalSAD_eq, hacc]
  decide

/-- When two pixel buffers agree on the bytes of a `width` x `height` bitmap of
at most `2 ^ 31` bytes, every target cell of a grid of at most `2 ^ 22` columns
and rows gets the same value from both. -/
theorem cellValue_congr (width height : Nat) (lp rp : Int → U8) (tw th x y : Int)
    (hw : 0 < width) (hh : 0 < height)
    (hsize : (width : Int) * (height : Int) * 4 ≤ 2147483648)
    (htw : 0 < tw) (htw2 : tw ≤ 2 ^ 22) (hth : 0 < th) (hth2 : th ≤ 2 ^ 22)
    (hx0 : 0 ≤ x) (hx : x < tw) (hy0 : 0 ≤ y) (hy : y < th)
    (hpix : ∀ j, 0 ≤ j → j < (width : Int) * (height : Int) * 4 → lp j = rp j) :
    cellValue width height width lp tw th x y = cellValue width height width rp tw th x y := by
  obtain ⟨a1, a2⟩ := srcCoord_bounds width tw x hw htw htw2 hx0 hx
  obtain ⟨b1, b2⟩ := srcCoord_bounds height th y hh hth hth2 hy0 hy
  obtain ⟨_, c1, c2⟩ := pixelOffset_bounds width height _ _ hsize a1 a2 b1 b2
  unfold cellValue lumaAt
  rw [hpix _ c1 (by omega), hpix _ (by omega) (by omega), hpix _ (by omega) (by omega)]

/-! ## Surfaces without row padding -/

/-- For surfaces without row padding (`stride = width * 4`) of
equal positive width, positive height and at most `2 ^ 31` bytes, and positive
target sizes of at most `2 ^ 22` with at most `2 ^ 31` cells, the value written for target cell `(x, y)` is
the luminance of the pixel at column `srcX` of row `srcY`, that is of the three
bytes starting at byte offset `srcY * stride + srcX * 4`, for the left and for
the right surface. -/
theorem downsample_unpadded_samples_pixel (li ri : AndroidBitmapInfo)
    (lp rp lg rg : Int → U8) (targetWidth targetHeight x y : Int)
    (hsl : li.stride = li.width * 4) (hsr : ri.stride = ri.width * 4)
    (hwr : ri.width = li.width)
    (hw : 0 < li.width) (hh : 0 < li.height)
    (hsize : (li.width : Int) * (li.height : Int) * 4 ≤ 2147483648)
    (htw : 0 < targetWidth) (htw2 : targetWidth ≤ 2 ^ 22)
    (hth : 0 < targetHeight) (hth2 : targetHeight ≤ 2 ^ 22)
    (hcells : targetHeight * targetWidth ≤ 2147483648)
    (hx0 : 0 ≤ x) (hx : x < targetWidth) (hy0 : 0 ≤ y) (hy : y < targetHeight) :
    (downsampleToGrayScale li ri lp rp lg rg targetWidth targetHeight).1 (y * targetWidth + x) =
        lumaAt lp (srcCoord li.height targetHeight y * (li.stride : Int) +
          srcCoord li.width targetWidth x * 4) ∧
      (downsampleToGrayScale li ri lp rp lg rg targetWidth targetHeight).2 (y * targetWidth + x) =
        lumaAt rp (srcCoord li.height targetHeight y * (ri.stride : Int) +
          srcCoord li.width targetWidth x * 4) := by
  obtain ⟨a1, a2⟩ := srcCoord_bounds li.width targetWidth x hw htw htw2 hx0 hx
  obtain ⟨b1, b2⟩ := srcCoord_bounds li.height targetHeight y hh hth hth2 hy0 hy
  obtain ⟨c, _, _⟩ := pixelOffset_bounds li.width li.height _ _ hsize a1 a2 b1 b2
  have e : pixelOffset li.width (srcCoord li.width targetWidth x)
      (srcCoord li.height targetHeight y) =
      srcCoord li.height targetHeight y * (li.stride : Int) +
        srcCoord li.width targetWidth x * 4 := by
    rw [c, hsl]
    push_cast
    ring
  constructor
  · rw [downsample_left_apply _ _ _ _ _ _ _ _ hcells hx0 hx hy0 hy]
    unfold cellValue
    rw [e]
  · rw [downsample_right_apply _ _ _ _ _ _ _ _ hcells hx0 hx hy0 hy]
    unfold cellValue
    rw [hsr, hwr, ← hsl, e]

/-! ## Uniformly gray bitmaps -/

/-- The 64x64 gray buffers that `isSBS` computes from two uniformly gray
bitmaps hold the luminance of the respective gray level in every cell. -/
theorem sbsGrays_grayBitmap (width height : Nat) (v w : U8) (heapLeft heapRight : Int → U8)
    (hw : 0 < width) (hh : 0 < height)
    (hsize : (width : Int) * (height : Int) * 4 ≤ 2147483648) (j : Int) (h0 : 0 ≤ j)
    (h1 : j < 4096) :
    (sbsGrays (grayBitmap width height v) (grayBitmap width height w) heapLeft heapRight).1 j =
        luma v v v ∧
      (sbsGrays (grayBitmap width height v) (grayBitmap width height w) heapLeft heapRight).2 j =
        luma w w w := by
  have hj : j = (j / 64) * 64 + j % 64 := by omega
  obtain ⟨a1, a2⟩ := srcCoord_bounds width 64 (j % 64) hw (by norm_num) (by norm_num)
    (by omega) (by omega)
  obtain ⟨b1, b2⟩ := srcCoord_bounds height 64 (j / 64) hh (by norm_num) (by norm_num)
    (by omega) (by omega)
  obtain ⟨c, _, _⟩ := pixelOffset_bounds width height _ _ hsize a1 a2 b1 b2
  have hpix : ∀ (u : U8) (off : Int), off % 4 = 0 →
      lumaAt (grayBitmap width height u).pixels off = luma u u u := by
    intro u off hoff
    unfold lumaAt grayBitmap
    simp only
    rw [if_neg (by omega), if_neg (by omega), if_neg (by omega)]
  unfold sbsGrays
  rw [hj, downsample_left_apply _ _ _ _ _ _ 64 64 (by norm_num) (by omega) (by omega)
    (by omega) (by omega),
    downsample_right_apply _ _ _ _ _ _ 64 64 (by norm_num) (by omega) (by omega)
    (by omega) (by omega)]
  unfold cellValue
  have e1 : (grayBitmap width height v).info.width = width := rfl
  have e2 : (grayBitmap width height v).info.height = height := rfl
  have e3 : (grayBitmap width height w).info.width = width := rfl
  rw [e1, e2, e3]
  exact ⟨hpix v _ (by rw [c]; omega), hpix w _ (by rw [c]; omega)⟩

theorem whiteBlackGrays_max_delta (i : Int) (h0 : 0 ≤ i) (h1 : i < 4096) :
    scalarAbsDiff whiteBlackGrays.1 whiteBlackGrays.2 i = 255 := by
  obtain ⟨a, b⟩ := sbsGrays_grayBitmap 128 128 255 0 (fun _ => 0) (fun _ => 0) (by decide)
    (by decide) (by decide) i h0 h1
  unfold scalarAbsDiff whiteBlackGrays
  rw [a, b, luma_white, luma_black]
  rfl

/-! ## The canonical 64x64 grid with equal cells -/

theorem simdPixels_64 : simdPixels 64 64 = 4096 := by decide

theorem totalSAD_64_eq_zero (left right : Int → U8)
    (heq : ∀ j, 0 ≤ j → j < 4096 → left j = right j) : totalSAD left right 64 64 = 0 := by
  rw [totalSAD_eq, accumulatedSAD_eq_zero left right 64 64 (by rw [simdPixels_64]; decide)
    (by rw [simdPixels_64]; decide) (by rw [simdPixels_64, totalPixels_64])
    (by rw [totalPixels_64]; exact heq)]
  decide

theorem sbs_of_totalSAD_zero (left right : Int → U8) (h : totalSAD left right 64 64 = 0) :
    sbsCorrelation left right = 1 ∧ sbsResult left right = false := by
  have hs : calculateSAD_NEON left right 64 64 = 0 := by
    rw [calculateSAD_NEON_64 _ _ (by rw [h]; norm_num), h]
    simp [f32round_zero]
  have hc : sbsCorrelation left right = 1 := by
    unfold sbsCorrelation f32sub
    rw [hs, f32lit_one, sub_zero]
    exact f32lit_one
  refine ⟨hc, ?_⟩
  unfold sbsResult
  rw [hc, f32lit_95]
  norm_num

/-! ## The accumulator during the loops -/

theorem foldl_add_eq (f : Int → Int) (L : List Int) (a : Int) :
    L.foldl (fun acc i => acc + f i) a = a + (L.map f).sum := by
  induction L generalizing a with
  | nil => simp
  | cons x xs ih =>
    rw [List.foldl_cons, ih]
    simp [add_assoc]

theorem totalSADUnreduced_eq (left right : Int → U8) (width height : Int) :
    totalSADUnreduced left right width height = accumulatedSAD left right width height := by
  unfold totalSADUnreduced accumulatedSAD
  rw [foldl_add_eq, foldl_add_eq]
  simp

theorem vectorRunningTotal_eq (left right : Int → U8) (width height : Int) (n : Nat) :
    vectorRunningTotal left right width height n =
      wrapS32 ((((forRange 0 (simdPixels width height) 64).take n).map
        (fun i => batchSAD left right i)).sum) := by
  unfold vectorRunningTotal
  have h0 : (0 : Int) = wrapS32 0 := by decide
  rw [h0, foldl_wrapS32_add]
  simp

theorem vectorLoop_eq (left right : Int → U8) (simd : Int) :
    vectorLoop left right simd 0 =
      wrapS32 (((forRange 0 simd 64).map (fun i => batchSAD left right i)).sum) := by
  unfold vectorLoop
  have h0 : (0 : Int) = wrapS32 0 := by decide
  rw [h0, foldl_wrapS32_add]
  simp

theorem scalarRunningTotal_eq (left right : Int → U8) (width height : Int) (m : Nat) :
    scalarRunningTotal left right width height m =
      wrapS32 (((forRange 0 (simdPixels width height) 64).map
          (fun i => batchSAD left right i)).sum +
        (((forRange (simdPixels width height) (totalPixels width height) 1).take m).map
          (fun i => scalarAbsDiff left right i)).sum) := by
  unfold scalarRunningTotal
  rw [vectorLoop_eq, foldl_wrapS32_add]

theorem take_sum_bounds (L : List Int) (f : Int → Int) (c : Int) (n : Nat)
    (h : ∀ a, 0 ≤ f a ∧ f a ≤ c) :
    0 ≤ ((L.take n).map f).sum ∧ ((L.take n).map f).sum ≤ c * (L.length : Int) := by
  obtain ⟨a0, a1⟩ := list_sum_map_bounds (L.take n) f c (fun a _ => h a)
  have hc : 0 ≤ c := le_trans (h 0).1 (h 0).2
  have hl : ((L.take n).length : Int) ≤ (L.length : Int) := by
    have := List.length_take_le' n L
    exact_mod_cast this
  exact ⟨a0, le_trans a1 (mul_le_mul_of_nonneg_left hl hc)⟩

theorem vabdq_lane (left right : Int → U8) (i : Int) (k : Nat) (hk : k < 16) :
    (vabdq_u8 (vld1q_u8 left i) (vld1q_u8 right i)).getD k 0 =
      absDiffNat left right (i + (k : Int)) := by
  rw [vabdq_vld1q, List.getD_eq_getElem?_getD, List.getElem?_map,
    List.getElem?_range hk]
  rfl

theorem vectorRunningTotal_64_bounds (left right : Int → U8) (n : Nat) :
    0 ≤ (((forRange 0 (simdPixels 64 64) 64).take n).map
        (fun i => batchSAD left right i)).sum ∧
      (((forRange 0 (simdPixels 64 64) 64).take n).map
        (fun i => batchSAD left right i)).sum ≤ 522240 := by
  have h := take_sum_bounds (forRange 0 (simdPixels 64 64) 64)
    (fun i => batchSAD left right i) 8160 n (fun a => batchSAD_bounds left right a)
  have hl : ((forRange 0 (simdPixels 64 64) 64).length : Int) = 64 := by
    rw [simdPixels_64]; decide
  rw [hl] at h
  omega

theorem scalar_range_64 : forRange (simdPixels 64 64) (totalPixels 64 64) 1 = [] := by
  rw [simdPixels_64, totalPixels_64]; decide

/-! ## The backend library -/

theorem loadLeiaLibrary_of_handle {dl : DlResults} {g : LeiaGlobals}
    (h : g.leiaLibHandle ≠ 0) : loadLeiaLibrary dl g = (true, g) := by
  unfold loadLeiaLibrary
  rw [if_pos h]

theorem loadLeiaLibrary_true {dl : DlResults} {g : LeiaGlobals}
    (h : (loadLeiaLibrary dl g).1 = true) : (loadLeiaLibrary dl g).2.leiaLibHandle ≠ 0 := by
  unfold loadLeiaLibrary at h ⊢
  by_cases h1 : g.leiaLibHandle ≠ 0
  · rw [if_pos h1]; exact h1
  · rw [if_neg h1] at h ⊢
    simp only at h ⊢
    split_ifs at h ⊢ with h2 h3
    · exact h2

theorem loadLeiaLibrary_current3DState (dl : DlResults) (g : LeiaGlobals) :
    (loadLeiaLibrary dl g).2.current3DState = g.current3DState := by
  unfold loadLeiaLibrary
  simp only
  split_ifs <;> rfl

theorem set3D_of_load_false {dl : DlResults} {g : LeiaGlobals} (on_ : U8) (mode : Int)
    (h : (loadLeiaLibrary dl g).1 = false) :
    Java_com_limelight_LeiaHelper_set3D dl on_ mode g = ((loadLeiaLibrary dl g).2, []) := by
  unfold Java_com_limelight_LeiaHelper_set3D
  generalize loadLeiaLibrary dl g = r at h
  obtain ⟨b, g1⟩ := r
  simp only at h
  subst h
  rfl

theorem set3D_of_load_true {dl : DlResults} {g : LeiaGlobals} (on_ : U8) (mode : Int)
    (h : (loadLeiaLibrary dl g).1 = true) :
    Java_com_limelight_LeiaHelper_set3D dl on_ mode g =
      if on_.val ≠ 0 ∧ boolToInt (loadLeiaLibrary dl g).2.current3DState ≠ (on_.val : Int) then
        ({ (loadLeiaLibrary dl g).2 with current3DState := true },
          [BackendCall.leiaSet3DOn (loadLeiaLibrary dl g).2.leiaSet3DOn mode])
      else if on_.val = 0 ∧
          boolToInt (loadLeiaLibrary dl g).2.current3DState ≠ (on_.val : Int) then
        ({ (loadLeiaLibrary dl g).2 with current3DState := false },
          [BackendCall.leiaSet3DOff (loadLeiaLibrary dl g).2.leiaSet3DOff])
      else ((loadLeiaLibrary dl g).2, []) := by
  unfold Java_com_limelight_LeiaHelper_set3D
  generalize loadLeiaLibrary dl g = r at h
  obtain ⟨b, g1⟩ := r
  simp only at h
  subst h
  rfl

theorem loadLeiaLibrary_invariant (dl : DlResults) (g : LeiaGlobals)
    (h1 : g.leiaLibHandle ≠ 0 → g.leiaSet3DOn ≠ 0 ∧ g.leiaSet3DOff ≠ 0)
    (h2 : g.current3DState = true → g.leiaLibHandle ≠ 0) :
    ((loadLeiaLibrary dl g).2.leiaLibHandle ≠ 0 →
      (loadLeiaLibrary dl g).2.leiaSet3DOn ≠ 0 ∧ (loadLeiaLibrary dl g).2.leiaSet3DOff ≠ 0) ∧
    ((loadLeiaLibrary dl g).2.current3DState = true →
      (loadLeiaLibrary dl g).2.leiaLibHandle ≠ 0) := by
  unfold loadLeiaLibrary
  by_cases h : g.leiaLibHandle ≠ 0
  · rw [if_pos h]
    exact ⟨h1, h2⟩
  · rw [if_neg h]
    have hc : g.current3DState ≠ true := fun hc => h (h2 hc)
    simp only
    split_ifs with h3 h4
    · exact ⟨fun h5 => absurd h3 h5, fun h5 => absurd h5 hc⟩
    · exact ⟨fun h5 => absurd rfl h5, fun h5 => absurd h5 hc⟩
    · exact ⟨fun _ => not_or.mp h4, fun _ => h3⟩

theorem set3D_invariant (dl : DlResults) (on_ : U8) (mode : Int) (g : LeiaGlobals)
    (h1 : g.leiaLibHandle ≠ 0 → g.leiaSet3DOn ≠ 0 ∧ g.leiaSet3DOff ≠ 0)
    (h2 : g.current3DState = true → g.leiaLibHandle ≠ 0) :
    ((Java_com_limelight_LeiaHelper_set3D dl on_ mode g).1.leiaLibHandle ≠ 0 →
      (Java_com_limelight_LeiaHelper_set3D dl on_ mode g).1.leiaSet3DOn ≠ 0 ∧
      (Java_com_limelight_LeiaHelper_set3D dl on_ mode g).1.leiaSet3DOff ≠ 0) ∧
    ((Java_com_limelight_LeiaHelper_set3D dl on_ mode g).1.current3DState = true →
      (Java_com_limelight_LeiaHelper_set3D dl on_ mode g).1.leiaLibHandle ≠ 0) := by
  obtain ⟨i1, i2⟩ := loadLeiaLibrary_invariant dl g h1 h2
  cases hl : (loadLeiaLibrary dl g).1
  · rw [set3D_of_load_false on_ mode hl]
    exact ⟨i1, i2⟩
  · have hh := loadLeiaLibrary_true hl
    rw [set3D_of_load_true on_ mode hl]
    split_ifs
    · exact ⟨i1, fun _ => hh⟩
    · exact ⟨i1, fun _ => hh⟩
    · exact ⟨i1, i2⟩

theorem set3D_calls_nonnull (dl : DlResults) (on_ : U8) (mode : Int) (g : LeiaGlobals)
    (h1 : g.leiaLibHandle ≠ 0 → g.leiaSet3DOn ≠ 0 ∧ g.leiaSet3DOff ≠ 0)
    (h2 : g.current3DState = true → g.leiaLibHandle ≠ 0) :
    ∀ b ∈ (Java_com_limelight_LeiaHelper_set3D dl on_ mode g).2, b.fn ≠ 0 := by
  obtain ⟨i1, _⟩ := loadLeiaLibrary_invariant dl g h1 h2
  cases hl : (loadLeiaLibrary dl g).1
  · rw [set3D_of_load_false on_ mode hl]
    intro b hb
    simp at hb
  · obtain ⟨n1, n2⟩ := i1 (loadLeiaLibrary_true hl)
    rw [set3D_of_load_true on_ mode hl]
    intro b hb
    split_ifs at hb
    · simp only [List.mem_singleton] at hb
      subst hb
      exact n1
    · simp only [List.mem_singleton] at hb
      subst hb
      exact n2
    · simp at hb

theorem foldl_set3D_invariant (calls : List Set3DCall) (g : LeiaGlobals)
    (h1 : g.leiaLibHandle ≠ 0 → g.leiaSet3DOn ≠ 0 ∧ g.leiaSet3DOff ≠ 0)
    (h2 : g.current3DState = true → g.leiaLibHandle ≠ 0) :
    ((calls.foldl (fun g c => (Java_com_limelight_LeiaHelper_set3D c.dl c.on_ c.mode g).1)
        g).leiaLibHandle ≠ 0 →
      (calls.foldl (fun g c => (Java_com_limelight_LeiaHelper_set3D c.dl c.on_ c.mode g).1)
        g).leiaSet3DOn ≠ 0 ∧
      (calls.foldl (fun g c => (Java_com_limelight_LeiaHelper_set3D c.dl c.on_ c.mode g).1)
        g).leiaSet3DOff ≠ 0) ∧
    ((calls.foldl (fun g c => (Java_com_limelight_LeiaHelper_set3D c.dl c.on_ c.mode g).1)
        g).current3DState = true →
      (calls.foldl (fun g c => (Java_com_limelight_LeiaHelper_set3D c.dl c.on_ c.mode g).1)
        g).leiaLibHandle ≠ 0) := by
  induction calls generalizing g with
  | nil => exact ⟨h1, h2⟩
  | cons c cs ih =>
    obtain ⟨j1, j2⟩ := set3D_invariant c.dl c.on_ c.mode g h1 h2
    exact ih _ j1 j2

theorem jboolean_val (b : Bool) : ((jboolean b).val : Int) = boolToInt b := by
  cases b <;> rfl

/-! ## The vectors inside one batch -/

theorem batchFinalSum64_eq_vpaddlq (left right : Int → U8) (i : Int) :
    batchFinalSum64 left right i = vpaddlq_u32 (batchFinalSum left right i) := rfl

theorem batchDiff_eq (left right : Int → U8) (off : Int) :
    batchDiff left right off =
      (List.range 16).map (fun (k : Nat) => absDiffNat left right (off + (k : Int))) :=
  vabdq_vld1q left right off

theorem batchPairSum_eq (left right : Int → U8) (off : Int) :
    vpaddlq_u8 (batchDiff left right off) =
      (List.range 8).map (fun (j : Nat) =>
        absDiffNat left right (off + ((2 * j : Nat) : Int)) +
          absDiffNat left right (off + ((2 * j + 1 : Nat) : Int))) := by
  rw [batchDiff_eq, vpaddlq_u8_map _ (fun k => absDiffNat_le left right _)]

theorem mem_range_map_le {n : Nat} {f : Nat → Nat} {c x : Nat} (h : ∀ j, f j ≤ c)
    (hx : x ∈ (List.range n).map f) : x ≤ c := by
  obtain ⟨j, _, rfl⟩ := List.mem_map.mp hx
  exact h j

theorem lane0Offsets_eq : lane0Offsets = lowerHalfOffsets.map (fun (k : Nat) => (k : Int)) := by
  decide

theorem scalarAbsDiff_comm (left right : Int → U8) (i : Int) :
    scalarAbsDiff left right i = scalarAbsDiff right left i := by
  unfold scalarAbsDiff
  exact abs_sub_comm _ _

theorem batchSAD_comm (left right : Int → U8) (i : Int) :
    batchSAD left right i = batchSAD right left i := by
  rw [batchSAD_eq, batchSAD_eq]
  congr 1
  apply List.map_congr_left
  intro k _
  exact scalarAbsDiff_comm left right _

theorem totalSAD_comm (left right : Int → U8) (width height : Int) :
    totalSAD left right width height = totalSAD right left width height := by
  have e1 : (fun i => batchSAD left right i) = (fun i => batchSAD right left i) :=
    funext (batchSAD_comm left right)
  have e2 : (fun i => scalarAbsDiff left right i) = (fun i => scalarAbsDiff right left i) :=
    funext (scalarAbsDiff_comm left right)
  rw [totalSAD_eq, totalSAD_eq]
  unfold accumulatedSAD
  rw [e1, e2]

theorem batchSAD_congr {left right left' right' : Int → U8} {i : Int}
    (h : ∀ k ∈ lane0Offsets, left (i + k) = left' (i + k) ∧ right (i + k) = right' (i + k)) :
    batchSAD left right i = batchSAD left' right' i := by
  rw [batchSAD_eq, batchSAD_eq]
  congr 1
  apply List.map_congr_left
  intro k hk
  unfold scalarAbsDiff
  rw [(h k hk).1, (h k hk).2]

theorem totalSAD_64_congr {left right left' right' : Int → U8}
    (h : ∀ j, 0 ≤ j → j < 4096 → left j = left' j ∧ right j = right' j) :
    totalSAD left right 64 64 = totalSAD left' right' 64 64 := by
  rw [totalSAD_eq, totalSAD_eq]
  unfold accumulatedSAD
  rw [simdPixels_64, totalPixels_64, forRange_of_le (le_refl _) 1]
  have e : (forRange 0 4096 64).map (fun i => batchSAD left right i) =
      (forRange 0 4096 64).map (fun i => batchSAD left' right' i) := by
    apply List.map_congr_left
    intro i hi
    obtain ⟨h1, h2⟩ := @batch_index_bounds 4096 i (by decide) hi
    apply batchSAD_congr
    intro k hk
    obtain ⟨k1, k2⟩ := lane0Offsets_bounds hk
    exact h _ (by omega) (by omega)
  rw [e, List.map_nil, List.map_nil]

theorem sbsResult_congr {left right left' right' : Int → U8}
    (h : ∀ j, 0 ≤ j → j < 4096 → left j = left' j ∧ right j = right' j) :
    sbsResult left right = sbsResult left' right' := by
  unfold sbsResult sbsCorrelation calculateSAD_NEON
  rw [totalSAD_64_congr h]

theorem sbsResult_comm (left right : Int → U8) : sbsResult left right = sbsResult right left := by
  unfold sbsResult sbsCorrelation calculateSAD_NEON
  rw [totalSAD_comm]

theorem sbsGrays_cell (leftHalf rightHalf : Bitmap) (heapLeft heapRight : Int → U8) (j : Int)
    (h0 : 0 ≤ j) (h1 : j < 4096) :
    (sbsGrays leftHalf rightHalf heapLeft heapRight).1 j =
        cellValue leftHalf.info.width leftHalf.info.height leftHalf.info.width leftHalf.pixels
          64 64 (j % 64) (j / 64) ∧
      (sbsGrays leftHalf rightHalf heapLeft heapRight).2 j =
        cellValue leftHalf.info.width leftHalf.info.height rightHalf.info.width
          rightHalf.pixels 64 64 (j % 64) (j / 64) := by
  have hj : j = (j / 64) * 64 + j % 64 := by omega
  unfold sbsGrays
  constructor
  · nth_rewrite 1 [hj]
    exact downsample_left_apply _ _ _ _ _ _ 64 64 (by norm_num) (by omega) (by omega)
      (by omega) (by omega)
  · nth_rewrite 1 [hj]
    exact downsample_right_apply _ _ _ _ _ _ 64 64 (by norm_num) (by omega) (by omega)
      (by omega) (by omega)

theorem vgetq_lane_one (x y : Int) (l : List Int) : vgetq_lane_s64 (x :: y :: l) 1 = y := rfl

theorem upperHalfOffsets_eq : upperHalfOffsets =
    [8, 9, 10, 11, 12, 13, 14, 15, 24, 25, 26, 27, 28, 29, 30, 31,
     40, 41, 42, 43, 44, 45, 46, 47, 56, 57, 58, 59, 60, 61, 62, 63] := by
  decide

/-- Lane 1 of `final_sum64`, as a signed 64-bit value, is the sum of the
absolute differences of the cells at the offsets `k` with `k mod 16 ≥ 8`. -/
theorem batch_lane_one_eq (left right : Int → U8) (i : Int) :
    vgetq_lane_s64 (vreinterpretq_s64_u64 (batchFinalSum64 left right i)) 1 =
      (upperHalfOffsets.map (fun (k : Nat) => scalarAbsDiff left right (i + (k : Int)))).sum := by
  have b := absDiffNat_le left right
  rw [batchFinalSum64_eq, range_two_map, vreinterpretq_cons, vreinterpretq_cons, vgetq_lane_one]
  have hb := range_eight_map_sum_le (fun t =>
          absDiffNat left right (i + ((8 * 1 + t : Nat) : Int))
          + absDiffNat left right (i + 16 + ((8 * 1 + t : Nat) : Int))
          + absDiffNat left right (i + 32 + ((8 * 1 + t : Nat) : Int))
          + absDiffNat left right (i + 48 + ((8 * 1 + t : Nat) : Int))) 1020
    (fun t => by
      beta_reduce
      have := b (i + ((8 * 1 + t : Nat) : Int)); have := b (i + 16 + ((8 * 1 + t : Nat) : Int))
      have := b (i + 32 + ((8 * 1 + t : Nat) : Int)); have := b (i + 48 + ((8 * 1 + t : Nat) : Int))
      omega)
  rw [wrapS64_eq_self (by positivity) (by omega)]
  rw [range_eight_map_sum, upperHalfOffsets_eq]
  simp only [scalarAbsDiff_eq, List.map, List.sum_cons, List.sum_nil]
  norm_num
  ring_nf

theorem forRange_succ_batch (n : Nat) :
    forRange 0 (64 * ((n : Int) + 1)) 64 = forRange 0 (64 * (n : Int)) 64 ++ [64 * (n : Int)] := by
  unfold forRange
  have e1 : ((64 * ((n : Int) + 1) - 0).toNat + (64 - 1)) / 64 = n + 1 := by omega
  have e2 : ((64 * (n : Int) - 0).toNat + (64 - 1)) / 64 = n := by omega
  rw [e1, e2, List.range_succ, List.map_append, List.map_singleton]
  congr 2
  push_cast
  ring

/-- One more iteration of the vector loop adds `batchSAD` of the new batch to
the accumulator. -/
theorem vectorLoop_succ (left right : Int → U8) (n : Nat) (acc : Int) :
    vectorLoop left right (64 * ((n : Int) + 1)) acc =
      wrapS32 (vectorLoop left right (64 * (n : Int)) acc + batchSAD left right (64 * (n : Int))) := by
  unfold vectorLoop
  rw [forRange_succ_batch, List.foldl_append]
  rfl

theorem vaddq_u16_exact (f g : Nat → Nat) (n : Nat) (h : ∀ j, f j + g j < 65536) :
    vaddq_u16 ((List.range n).map f) ((List.range n).map g) =
      List.zipWith (fun x y => x + y) ((List.range n).map f) ((List.range n).map g) := by
  rw [vaddq_u16_map f g n h]
  simp [List.zipWith_map]

theorem pair_le_510 (left right : Int → U8) (off : Int) (j : Nat) :
    absDiffNat left right (off + ((2 * j : Nat) : Int)) +
      absDiffNat left right (off + ((2 * j + 1 : Nat) : Int)) ≤ 510 := by
  have := absDiffNat_le left right (off + ((2 * j : Nat) : Int))
  have := absDiffNat_le left right (off + ((2 * j + 1 : Nat) : Int))
  omega

theorem batchTotalSum_eq (left right : Int → U8) (i : Int) :
    batchTotalSum left right i =
      (List.range 8).map (fun (j : Nat) =>
        absDiffNat left right (i + ((2 * j : Nat) : Int))
          + absDiffNat left right (i + ((2 * j + 1 : Nat) : Int))
          + (absDiffNat left right (i + 16 + ((2 * j : Nat) : Int))
            + absDiffNat left right (i + 16 + ((2 * j + 1 : Nat) : Int)))
          + (absDiffNat left right (i + 32 + ((2 * j : Nat) : Int))
            + absDiffNat left right (i + 32 + ((2 * j + 1 : Nat) : Int))
            + (absDiffNat left right (i + 48 + ((2 * j : Nat) : Int))
              + absDiffNat left right (i + 48 + ((2 * j + 1 : Nat) : Int))))) := by
  unfold batchTotalSum
  rw [batchPairSum_eq, batchPairSum_eq, batchPairSum_eq, batchPairSum_eq]
  rw [vaddq_u16_map _ _ _ (fun j => by
      have := pair_le_510 left right i j; have := pair_le_510 left right (i + 16) j; omega),
    vaddq_u16_map _ _ _ (fun j => by
      have := pair_le_510 left right (i + 32) j; have := pair_le_510 left right (i + 48) j
      omega)]
  rw [vaddq_u16_map _ _ _ (fun j => by
      have := pair_le_510 left right i j; have := pair_le_510 left right (i + 16) j
      have := pair_le_510 left right (i + 32) j; have := pair_le_510 left right (i + 48) j
      omega)]

theorem batchTotalSum_lane_le (left right : Int → U8) (i : Int) (j : Nat) :
    absDiffNat left right (i + ((2 * j : Nat) : Int))
      + absDiffNat left right (i + ((2 * j + 1 : Nat) : Int))
      + (absDiffNat left right (i + 16 + ((2 * j : Nat) : Int))
        + absDiffNat left right (i + 16 + ((2 * j + 1 : Nat) : Int)))
      + (absDiffNat left right (i + 32 + ((2 * j : Nat) : Int))
        + absDiffNat left right (i + 32 + ((2 * j + 1 : Nat) : Int))
        + (absDiffNat left right (i + 48 + ((2 * j : Nat) : Int))
          + absDiffNat left right (i + 48 + ((2 * j + 1 : Nat) : Int)))) ≤ 2040 := by
  have := pair_le_510 left right i j; have := pair_le_510 left right (i + 16) j
  have := pair_le_510 left right (i + 32) j; have := pair_le_510 left right (i + 48) j
  omega

/-! ## The indices the loops touch -/

theorem range_flatMap_eq (w h : Nat) :
    (List.range h).flatMap (fun y => (List.range w).map (fun x => y * w + x)) =
      List.range (h * w) := by
  induction h with
  | zero => simp
  | succ n ih =>
    rw [List.range_succ, List.flatMap_append, ih, Nat.succ_mul, List.range_add]
    simp

theorem forRange_zero_one (n : Nat) :
    forRange 0 (n : Int) 1 = (List.range n).map (fun (k : Nat) => (k : Int)) := by
  unfold forRange
  have e : (((n : Int) - 0).toNat + (1 - 1)) / 1 = n := by omega
  rw [e]
  apply List.map_congr_left
  intro k _
  push_cast
  ring

theorem forRange_from_one (a : Int) (n : Nat) :
    forRange a (a + (n : Int)) 1 = (List.range n).map (fun (k : Nat) => a + (k : Int)) := by
  unfold forRange
  have e : ((a + (n : Int) - a).toNat + (1 - 1)) / 1 = n := by omega
  rw [e]
  apply List.map_congr_left
  intro k _
  push_cast
  ring

theorem forRange_zero_64 (n : Nat) :
    forRange 0 (64 * (n : Int)) 64 = (List.range n).map (fun (k : Nat) => ((k * 64 : Nat) : Int)) := by
  unfold forRange
  have e : ((64 * (n : Int) - 0).toNat + (64 - 1)) / 64 = n := by omega
  rw [e]
  apply List.map_congr_left
  intro k _
  push_cast
  ring

theorem batchIndices_eq (i : Int) :
    batchIndices i = (List.range 64).map (fun (k : Nat) => i + (k : Int)) := by
  have e : (64 : Nat) = 16 + (16 + (16 + 16)) := rfl
  unfold batchIndices vld1qIndices
  rw [e, List.range_add, List.range_add, List.range_add]
  simp only [List.map_append, List.map_map, List.append_assoc]
  congr 1
  · congr 1
    · apply List.map_congr_left; intro k _; simp only [Function.comp]; push_cast; ring
    · congr 1
      · apply List.map_congr_left; intro k _; simp only [Function.comp]; push_cast; ring
      · apply List.map_congr_left; intro k _; simp only [Function.comp]; push_cast; ring

theorem vectorLoopIndices_eq (n : Nat) :
    vectorLoopIndices (64 * (n : Int)) =
      (List.range (n * 64)).map (fun (k : Nat) => (k : Int)) := by
  unfold vectorLoopIndices
  rw [forRange_zero_64, ← range_flatMap_eq, List.flatMap_map, List.map_flatMap]
  congr 1

theorem andS32_mask_eq {tp : Int} (h0 : 0 ≤ tp) (h1 : tp < 2147483648) :
    andS32 tp (~~~ (63 : Int)) = tp - tp % 64 := by
  have htp : totalPixels tp 1 = tp := by
    unfold totalPixels
    rw [mul_one]
    exact wrapS32_eq_self (by omega) h1
  have h := @simdPixels_eq tp 1 (by rw [htp]; exact h0)
  unfold simdPixels at h
  rw [htp] at h
  exact h

theorem writtenIndices_eq_map {tw th : Int} (hsize : th * tw ≤ 2147483648) :
    writtenIndices tw th = (targetCells tw th).map (fun p => p.1 * tw + p.2) := by
  unfold writtenIndices
  apply List.map_congr_left
  rintro ⟨y, x⟩ hp
  obtain ⟨⟨hy0, hy⟩, ⟨hx0, hx⟩⟩ := mem_targetCells.mp hp
  have b : 0 ≤ y * tw + x ∧ y * tw + x < th * tw := cell_bounds hx0 hx hy0 hy
  show cellIndex tw x y = y * tw + x
  exact cellIndex_eq b.1 (by omega)

theorem targetCells_index_eq (w h : Nat) :
    (targetCells (w : Int) (h : Int)).map (fun p => p.1 * (w : Int) + p.2) =
      (List.range (h * w)).map (fun (k : Nat) => (k : Int)) := by
  unfold targetCells
  rw [forRange_zero_one, forRange_zero_one, ← range_flatMap_eq, List.map_flatMap,
    List.map_flatMap, List.flatMap_map]
  simp only [List.map_map]
  congr 1

theorem writtenIndices_eq {tw th : Int} (htw : 0 < tw) (hth : 0 < th)
    (hsize : th * tw ≤ 2147483648) :
    writtenIndices tw th = (List.range (th * tw).toNat).map (fun (k : Nat) => (k : Int)) := by
  rw [writtenIndices_eq_map hsize]
  obtain ⟨w, rfl⟩ := Int.eq_ofNat_of_zero_le (le_of_lt htw)
  obtain ⟨h, rfl⟩ := Int.eq_ofNat_of_zero_le (le_of_lt hth)
  rw [targetCells_index_eq]
  have e : ((h : Int) * (w : Int)).toNat = h * w := by
    rw [← Int.natCast_mul]
    exact Int.toNat_natCast _
  rw [e]

theorem downsample_outside (li ri : AndroidBitmapInfo) (lp rp lg rg : Int → U8) (tw th : Int)
    (hsize : th * tw ≤ 2147483648) (j : Int) (hj : j < 0 ∨ th * tw ≤ j) :
    (downsampleToGrayScale li ri lp rp lg rg tw th).1 j = lg j ∧
      (downsampleToGrayScale li ri lp rp lg rg tw th).2 j = rg j := by
  have hne : ∀ p ∈ targetCells tw th, cellIndex tw p.2 p.1 ≠ j := by
    rintro ⟨y, x⟩ hp
    obtain ⟨⟨hy0, hy⟩, ⟨hx0, hx⟩⟩ := mem_targetCells.mp hp
    have b : 0 ≤ y * tw + x ∧ y * tw + x < th * tw := cell_bounds hx0 hx hy0 hy
    show cellIndex tw x y ≠ j
    rw [cellIndex_eq b.1 (by omega)]
    omega
  rw [downsample_fst, downsample_snd]
  exact ⟨foldl_update_of_forall_ne _ _ _ _ _ hne, foldl_update_of_forall_ne _ _ _ _ _ hne⟩

theorem pixelOffset_mod_four (width : Nat) (srcX srcY : Int) :
    pixelOffset width srcX srcY % 4 = 0 := by
  unfold pixelOffset wrapS32
  simp only
  split_ifs <;> omega

/-- The value stored for a cell does not depend on alpha bytes: two pixel
buffers that agree on every byte that is not byte 3 of its pixel, inside the
buffer, give the same cell value. -/
theorem cellValue_congr_rgb (width height bufWidth : Nat) (lp lp' : Int → U8) (tw th x y : Int)
    (hbw : bufWidth = width)
    (hw : 0 < width) (hh : 0 < height)
    (hsize : (width : Int) * (height : Int) * 4 ≤ 2147483648)
    (htw : 0 < tw) (htw2 : tw ≤ 2 ^ 22) (hth : 0 < th) (hth2 : th ≤ 2 ^ 22)
    (hx0 : 0 ≤ x) (hx : x < tw) (hy0 : 0 ≤ y) (hy : y < th)
    (hpix : ∀ j, 0 ≤ j → j < (width : Int) * (height : Int) * 4 → j % 4 ≠ 3 → lp j = lp' j) :
    cellValue width height bufWidth lp tw th x y =
      cellValue width height bufWidth lp' tw th x y := by
  subst hbw
  obtain ⟨a1, a2⟩ := srcCoord_bounds bufWidth tw x hw htw htw2 hx0 hx
  obtain ⟨b1, b2⟩ := srcCoord_bounds height th y hh hth hth2 hy0 hy
  obtain ⟨_, c1, c2⟩ := pixelOffset_bounds bufWidth height _ _ hsize a1 a2 b1 b2
  have m := pixelOffset_mod_four bufWidth (srcCoord bufWidth tw x) (srcCoord height th y)
  unfold cellValue lumaAt
  rw [hpix _ c1 (by omega) (by omega), hpix _ (by omega) (by omega) (by omega),
    hpix _ (by omega) (by omega) (by omega)]

/-- No byte at an offset that is 3 modulo 4 is ever read: pixel buffers that
agree at every other offset give the same gray buffers, for all bitmap and
target sizes. -/
theorem downsample_ignores_alpha_offsets (li ri : AndroidBitmapInfo)
    (lp rp lp' rp' lg rg : Int → U8) (tw th : Int)
    (hl : ∀ j, j % 4 ≠ 3 → lp j = lp' j) (hr : ∀ j, j % 4 ≠ 3 → rp j = rp' j) :
    downsampleToGrayScale li ri lp rp lg rg tw th =
      downsampleToGrayScale li ri lp' rp' lg rg tw th := by
  have hc : ∀ (sw sh w : Nat) (p p' : Int → U8), (∀ j, j % 4 ≠ 3 → p j = p' j) →
      ∀ x y, cellValue sw sh w p tw th x y = cellValue sw sh w p' tw th x y := by
    intro sw sh w p p' hp x y
    have m := pixelOffset_mod_four w (srcCoord sw tw x) (srcCoord sh th y)
    unfold cellValue lumaAt
    rw [hp _ (by omega), hp (_ + 1) (by omega), hp (_ + 2) (by omega)]
  unfold downsampleToGrayScale downsampleCell
  simp only [hc _ _ _ lp lp' hl, hc _ _ _ rp rp' hr]

/-! ## Identical surfaces -/

/-- For two bitmaps of the same width, with positive width and height and at
most `2 ^ 31` bytes, whose first `width * height * 4` bytes agree, the two 64x64
gray buffers produced by `downsampleToGrayScale`, whatever the fresh buffers
contained before, give `totalSAD = 0`, the correlation is exactly 1 and `isSBS`
returns `false`. -/
theorem surfaces_with_equal_bytes_are_not_sbs (leftHalf rightHalf : Bitmap)
    (heapLeft heapRight : Int → U8)
    (hw : leftHalf.info.width = rightHalf.info.width)
    (hwpos : 0 < leftHalf.info.width) (hhpos : 0 < leftHalf.info.height)
    (hsize : (leftHalf.info.width : Int) * (leftHalf.info.height : Int) * 4 ≤ 2147483648)
    (hpix : ∀ j, 0 ≤ j → j < (leftHalf.info.width : Int) * (leftHalf.info.height : Int) * 4 →
      leftHalf.pixels j = rightHalf.pixels j) :
    totalSAD (sbsGrays leftHalf rightHalf heapLeft heapRight).1
        (sbsGrays leftHalf rightHalf heapLeft heapRight).2 64 64 = 0 ∧
      sbsCorrelation (sbsGrays leftHalf rightHalf heapLeft heapRight).1
        (sbsGrays leftHalf rightHalf heapLeft heapRight).2 = 1 ∧
      Java_com_limelight_LeiaHelper_isSBS leftHalf rightHalf heapLeft heapRight = false := by
  have hg : ∀ j, 0 ≤ j → j < 4096 →
      (sbsGrays leftHalf rightHalf heapLeft heapRight).1 j =
        (sbsGrays leftHalf rightHalf heapLeft heapRight).2 j := by
    intro j h0 h1
    have hj : j = (j / 64) * 64 + j % 64 := by omega
    unfold sbsGrays
    rw [hj, downsample_left_apply _ _ _ _ _ _ 64 64 (by norm_num) (by omega) (by omega)
      (by omega) (by omega),
      downsample_right_apply _ _ _ _ _ _ 64 64 (by norm_num) (by omega) (by omega)
      (by omega) (by omega), ← hw]
    exact cellValue_congr _ _ _ _ 64 64 _ _ hwpos hhpos hsize (by norm_num) (by norm_num)
      (by norm_num) (by norm_num) (by omega) (by omega) (by omega) (by omega) hpix
  have ht := totalSAD_64_eq_zero _ _ hg
  obtain ⟨hc, hr⟩ := sbs_of_totalSAD_zero _ _ ht
  refine ⟨ht, hc, ?_⟩
  unfold Java_com_limelight_LeiaHelper_isSBS isSBSOutcome
  split_ifs
  · rfl
  · rfl
  · exact hr

/-- The scenario of the specification: for two 128x128 bitmaps filled with
`(200, 200, 200, 255)`, the two fresh gray buffers holding different bytes,
`totalSAD = 0`, the correlation is 1 and `isSBS` returns `false`. -/
theorem gray200_surfaces_are_not_sbs :
    ((grayBitmap 128 128 200).info.width = (grayBitmap 128 128 200).info.width ∧
      0 < (grayBitmap 128 128 200).info.width ∧ 0 < (grayBitmap 128 128 200).info.height ∧
      ((grayBitmap 128 128 200).info.width : Int) * ((grayBitmap 128 128 200).info.height : Int)
        * 4 ≤ 2147483648 ∧
      (∀ j, 0 ≤ j → j < ((grayBitmap 128 128 200).info.width : Int) *
          ((grayBitmap 128 128 200).info.height : Int) * 4 →
        (grayBitmap 128 128 200).pixels j = (grayBitmap 128 128 200).pixels j)) ∧
      (totalSAD (sbsGrays (grayBitmap 128 128 200) (grayBitmap 128 128 200)
          (fun _ => 0) (fun _ => 255)).1
        (sbsGrays (grayBitmap 128 128 200) (grayBitmap 128 128 200)
          (fun _ => 0) (fun _ => 255)).2 64 64 = 0 ∧
      sbsCorrelation (sbsGrays (grayBitmap 128 128 200) (grayBitmap 128 128 200)
          (fun _ => 0) (fun _ => 255)).1
        (sbsGrays (grayBitmap 128 128 200) (grayBitmap 128 128 200)
          (fun _ => 0) (fun _ => 255)).2 = 1 ∧
      Java_com_limelight_LeiaHelper_isSBS (grayBitmap 128 128 200) (grayBitmap 128 128 200)
        (fun _ => 0) (fun _ => 255) = false) :=
  ⟨⟨rfl, by decide, by decide, by decide, fun _ _ _ => rfl⟩,
    surfaces_with_equal_bytes_are_not_sbs (grayBitmap 128 128 200) (grayBitmap 128 128 200)
      (fun _ => 0) (fun _ => 255) rfl (by decide) (by decide) (by decide)
      (fun _ _ _ => rfl)⟩

/-- On surfaces without row padding (`stride = width * 4`) of the same positive
width and height and at most `2 ^ 31` bytes, identical pixels give
`totalSAD = 0`, correlation 1 and the classification `false`: the pixel at
column `x` of row `y` occupies the bytes `y * stride + x * 4 + c`, `c < 4`. -/
theorem identical_unpadded_surfaces_are_not_sbs (leftHalf rightHalf : Bitmap)
    (heapLeft heapRight : Int → U8)
    (hsl : leftHalf.info.stride = leftHalf.info.width * 4)
    (hsr : rightHalf.info.stride = rightHalf.info.width * 4)
    (hw : leftHalf.info.width = rightHalf.info.width)
    (hwpos : 0 < leftHalf.info.width) (hhpos : 0 < leftHalf.info.height)
    (hsize : (leftHalf.info.width : Int) * (leftHalf.info.height : Int) * 4 ≤ 2147483648)
    (hpix : ∀ x y c : Int, 0 ≤ x → x < leftHalf.info.width → 0 ≤ y →
      y < leftHalf.info.height → 0 ≤ c → c < 4 →
      leftHalf.pixels (y * (leftHalf.info.stride : Int) + x * 4 + c) =
        rightHalf.pixels (y * (rightHalf.info.stride : Int) + x * 4 + c)) :
    totalSAD (sbsGrays leftHalf rightHalf heapLeft heapRight).1
        (sbsGrays leftHalf rightHalf heapLeft heapRight).2 64 64 = 0 ∧
      sbsCorrelation (sbsGrays leftHalf rightHalf heapLeft heapRight).1
        (sbsGrays leftHalf rightHalf heapLeft heapRight).2 = 1 ∧
      Java_com_limelight_LeiaHelper_isSBS leftHalf rightHalf heapLeft heapRight = false := by
  apply surfaces_with_equal_bytes_are_not_sbs leftHalf rightHalf heapLeft heapRight hw hwpos hhpos
    hsize
  intro j hj0 hj1
  have hWpos : (0 : Int) < (leftHalf.info.width : Int) * 4 := by
    have : (0 : Int) < (leftHalf.info.width : Int) := by exact_mod_cast hwpos
    omega
  have hy0 : 0 ≤ j / ((leftHalf.info.width : Int) * 4) := Int.ediv_nonneg hj0 (le_of_lt hWpos)
  have hy1 : j / ((leftHalf.info.width : Int) * 4) < (leftHalf.info.height : Int) := by
    apply Int.ediv_lt_of_lt_mul hWpos
    have : (leftHalf.info.height : Int) * ((leftHalf.info.width : Int) * 4) =
        (leftHalf.info.width : Int) * (leftHalf.info.height : Int) * 4 := by ring
    omega
  have hr0 := Int.emod_nonneg j (ne_of_gt hWpos)
  have hr1 := Int.emod_lt_of_pos j hWpos
  have key := hpix (j % ((leftHalf.info.width : Int) * 4) / 4)
    (j / ((leftHalf.info.width : Int) * 4)) (j % ((leftHalf.info.width : Int) * 4) % 4)
    (by omega) (by omega) hy0 hy1 (by omega) (by omega)
  have es : (rightHalf.info.stride : Int) = (leftHalf.info.width : Int) * 4 := by
    rw [hsr, ← hw]; push_cast; ring
  have el : (leftHalf.info.stride : Int) = (leftHalf.info.width : Int) * 4 := by
    rw [hsl]; push_cast; ring
  have ej : j / ((leftHalf.info.width : Int) * 4) * ((leftHalf.info.width : Int) * 4) +
      j % ((leftHalf.info.width : Int) * 4) / 4 * 4 +
      j % ((leftHalf.info.width : Int) * 4) % 4 = j := by
    have := Int.ediv_add_emod j ((leftHalf.info.width : Int) * 4)
    rw [mul_comm] at this
    omega
  rw [es, el, ej] at key
  exact key

/-! ## Surfaces with row padding -/

theorem srcCoord_64_64 (x : Int) (h0 : 0 ≤ x) (h1 : x < 64) : srcCoord 64 64 x = x := by
  have h := srcCoord_two_pow 64 6 x h0 (by norm_num) (by omega) (by norm_num; omega)
  norm_num at h
  exact h

/-- The gray buffers `isSBS` computes from a 64x64 bitmap with 512 bytes per
row: the code takes `64 * 4` bytes as the row pitch, so the cells of the even
grid rows come from pixels and those of the odd grid rows from padding. -/
theorem sbsGrays_paddedBitmap (v pad v' pad' : U8) (heapLeft heapRight : Int → U8) (j : Int)
    (h0 : 0 ≤ j) (h1 : j < 4096) :
    (sbsGrays (paddedBitmap v pad) (paddedBitmap v' pad') heapLeft heapRight).1 j =
        (if j / 64 % 2 = 1 then luma pad pad pad else luma v v v) ∧
      (sbsGrays (paddedBitmap v pad) (paddedBitmap v' pad') heapLeft heapRight).2 j =
        (if j / 64 % 2 = 1 then luma pad' pad' pad' else luma v' v' v') := by
  have hpix : ∀ (u p : U8) (x y : Int), 0 ≤ x → x < 64 → 0 ≤ y → y < 64 →
      lumaAt (paddedBitmap u p).pixels (pixelOffset 64 x y) =
        (if y % 2 = 1 then luma p p p else luma u u u) := by
    intro u p x y hx0 hx hy0 hy
    have e : pixelOffset 64 x y = (y * 64 + x) * 4 := by
      unfold pixelOffset
      exact wrapS32_eq_self (by push_cast; omega) (by push_cast; omega)
    have hb : ∀ c : Int, 0 ≤ c → c < 3 →
        (paddedBitmap u p).pixels ((y * 64 + x) * 4 + c) = if y % 2 = 1 then p else u := by
      intro c hc0 hc
      unfold paddedBitmap
      simp only
      by_cases hodd : y % 2 = 1
      · rw [if_pos hodd, if_neg (by omega)]
      · rw [if_neg hodd, if_pos (by omega), if_neg (by omega)]
    have b0 := hb 0 (by norm_num) (by norm_num)
    rw [add_zero] at b0
    rw [e]
    unfold lumaAt
    rw [b0, hb 1 (by norm_num) (by norm_num), hb 2 (by norm_num) (by norm_num)]
    split_ifs <;> rfl
  obtain ⟨c1, c2⟩ := sbsGrays_cell (paddedBitmap v pad) (paddedBitmap v' pad') heapLeft
    heapRight j h0 h1
  rw [c1, c2]
  unfold cellValue
  have e1 : (paddedBitmap v pad).info.width = 64 := rfl
  have e2 : (paddedBitmap v pad).info.height = 64 := rfl
  have e3 : (paddedBitmap v' pad').info.width = 64 := rfl
  rw [e1, e2, e3, srcCoord_64_64 _ (by omega) (by omega), srcCoord_64_64 _ (by omega) (by omega)]
  exact ⟨hpix v pad _ _ (by omega) (by omega) (by omega) (by omega),
    hpix v' pad' _ _ (by omega) (by omega) (by omega) (by omega)⟩

set_option maxRecDepth 1000000 in
theorem totalSAD_odd_rows :
    totalSAD (fun j => if j / 64 % 2 = 1 then 0 else 200)
      (fun j => if j / 64 % 2 = 1 then 255 else 200) 64 64 = 261120 := by
  decide

/-! # The claims

## C1: the vector path against the scalar sum -/

set_option maxRecDepth 1000000 in
/-- C1, evaluated on the code: for the grids "every cell 1" against "every cell 0"
the total accumulated by `calculateSAD_NEON` is 2048 for the 64x64 grid (64 full
batches), where the cell-by-cell sum is 4096, and 68 for the 10x10 grid (one
batch and 36 remainder cells), where the cell-by-cell sum is 100: each 64-cell
batch contributes only 32 of its cells. -/
theorem C1_vector_total_differs_from_scalar_sum :
    totalSAD (fun _ => 1) (fun _ => 0) 64 64 = 2048 ∧
      scalarSAD (fun _ => 1) (fun _ => 0) (64 * 64) = 4096 ∧
      totalSAD (fun _ => 1) (fun _ => 0) 10 10 = 68 ∧
      scalarSAD (fun _ => 1) (fun _ => 0) (10 * 10) = 100 := by
  refine ⟨by decide, ?_, by decide, by decide⟩
  rw [scalarSAD_periodic (fun _ => 1) (fun _ => 0) 64 (fun _ => rfl) (fun _ => rfl) 64]
  have : scalarSAD (fun _ => 1) (fun _ => 0) 64 = 64 := by decide
  rw [this]
  norm_num

/-! ## C2: maximal difference everywhere -/

/-- For 64x64 grids whose cells all differ by 255, every batch adds 8160 and the
code accumulates 522240. -/
theorem totalSAD_of_max_delta (left right : Int → U8)
    (h : ∀ i, 0 ≤ i → i < 4096 → scalarAbsDiff left right i = 255) :
    totalSAD left right 64 64 = 522240 := by
  have hb : ∀ i ∈ forRange 0 4096 64, batchSAD left right i = 8160 := by
    intro i hi
    obtain ⟨h1, h2⟩ := batch_index_bounds (by decide) hi
    rw [batchSAD_eq, list_sum_map_const lane0Offsets _ 255 (fun k hk => by
      obtain ⟨k1, k2⟩ := lane0Offsets_bounds hk
      exact h _ (by omega) (by omega))]
    decide
  have hacc : accumulatedSAD left right 64 64 = 522240 := by
    unfold accumulatedSAD
    rw [simdPixels_64, totalPixels_64, forRange_of_le (le_refl _) 1,
      list_sum_map_const _ _ 8160 hb, length_forRange, List.map_nil, List.sum_nil]
    decide
  rw [totalSAD_eq, hacc]
  decide

/-- C2, on the code: for every pair of 64x64 grids in which every cell of
`right` differs from the cell of `left` by 255, the code accumulates
`totalSAD = 522240`, half of `64 * 64 * 255 = 1044480`, returns the normalized
value 1/2 and the correlation 1/2, not 1 and 0; the classification is `true`. -/
theorem C2_max_delta_gives_half (left right : Int → U8)
    (h : ∀ i, 0 ≤ i → i < 4096 → scalarAbsDiff left right i = 255) :
    totalSAD left right 64 64 = 522240 ∧
      calculateSAD_NEON left right 64 64 = 1 / 2 ∧
      sbsCorrelation left right = 1 / 2 ∧
      sbsResult left right = true := by
  have ht := totalSAD_of_max_delta left right h
  have hs : calculateSAD_NEON left right 64 64 = 1 / 2 := by
    rw [calculateSAD_NEON_64 _ _ (by rw [ht]; norm_num), ht]
    have := f32round_div_two_pow 1 1 (by norm_num)
    norm_num at this ⊢
    exact this
  have hc : sbsCorrelation left right = 1 / 2 := by
    unfold sbsCorrelation f32sub
    rw [hs, f32lit_one]
    have := f32round_div_two_pow 1 1 (by norm_num)
    norm_num at this ⊢
    exact this
  refine ⟨ht, hs, hc, ?_⟩
  unfold sbsResult
  rw [hc, f32lit_95]
  norm_num

/-- C2 at the scenario of the specification: the gray buffers `isSBS` computes
from a white and a black 128x128 bitmap. -/
theorem C2_max_delta_gives_half_witness :
    (∀ i : Int, 0 ≤ i → i < 4096 →
        scalarAbsDiff whiteBlackGrays.1 whiteBlackGrays.2 i = 255) ∧
      (totalSAD whiteBlackGrays.1 whiteBlackGrays.2 64 64 = 522240 ∧
        calculateSAD_NEON whiteBlackGrays.1 whiteBlackGrays.2 64 64 = 1 / 2 ∧
        sbsCorrelation whiteBlackGrays.1 whiteBlackGrays.2 = 1 / 2 ∧
        sbsResult whiteBlackGrays.1 whiteBlackGrays.2 = true) :=
  ⟨whiteBlackGrays_max_delta,
    C2_max_delta_gives_half whiteBlackGrays.1 whiteBlackGrays.2 whiteBlackGrays_max_delta⟩

/-! ## C3: the classification against the full sum -/

set_option maxRecDepth 1000000 in
theorem totalSAD_upperHalves : totalSAD upperHalves (fun _ => 0) 64 64 = 0 := by
  decide

set_option maxRecDepth 100000 in
theorem scalarSAD_upperHalves : scalarSAD upperHalves (fun _ => 0) (64 * 64) = 522240 := by
  rw [scalarSAD_periodic upperHalves (fun _ => 0) 64 upperHalves_periodic (fun _ => rfl) 64]
  have : scalarSAD upperHalves (fun _ => 0) 64 = 8160 := by decide
  rw [this]
  norm_num

/-- C3, evaluated on the code: for the grid `upperHalves` against the all-zero
grid the full sum of absolute differences is 522240, far above 52224, yet the
code accumulates 0, computes the correlation 1 and classifies `false`. -/
theorem C3_classification_ignores_upper_halves :
    52224 < scalarSAD upperHalves (fun _ => 0) (64 * 64) ∧
      totalSAD upperHalves (fun _ => 0) 64 64 = 0 ∧
      sbsCorrelation upperHalves (fun _ => 0) = 1 ∧
      sbsResult upperHalves (fun _ => 0) = false := by
  have hs : calculateSAD_NEON upperHalves (fun _ => 0) 64 64 = 0 := by
    rw [calculateSAD_NEON_64 _ _ (by rw [totalSAD_upperHalves]; norm_num), totalSAD_upperHalves]
    simp [f32round_zero]
  have hc : sbsCorrelation upperHalves (fun _ => 0) = 1 := by
    unfold sbsCorrelation f32sub
    rw [hs, f32lit_one, sub_zero]
    exact f32lit_one
  refine ⟨by rw [scalarSAD_upperHalves]; norm_num, totalSAD_upperHalves, hc, ?_⟩
  unfold sbsResult
  rw [hc, f32lit_95]
  norm_num

/-! ## C4: identical surfaces -/

/-- C4, evaluated on the code: take two 64x64 surfaces with 512 bytes per row
whose pixels are all `(200, 200, 200, 255)`, the padding bytes being 0 in the
left and 255 in the right surface.  The two surfaces are identical pixel for
pixel, yet the code, which takes `width * 4` as the row pitch, reads the
padding for every odd grid row: it accumulates `totalSAD = 261120`, not 0,
the correlation is 3/4, not 1, and `isSBS` returns `true`, not `false`,
whatever the fresh gray buffers contain. -/
theorem C4_identical_padded_surfaces_are_classified_sbs (heapLeft heapRight : Int → U8) :
    (paddedBitmap 200 0).info = (paddedBitmap 200 255).info ∧
    (paddedBitmap 200 0).info.width * 4 ≤ (paddedBitmap 200 0).info.stride ∧
    (∀ x y c : Int, 0 ≤ x → x < 64 → 0 ≤ y → y < 64 → 0 ≤ c → c < 4 →
      (paddedBitmap 200 0).pixels (y * 512 + x * 4 + c) =
        (paddedBitmap 200 255).pixels (y * 512 + x * 4 + c)) ∧
    totalSAD (sbsGrays (paddedBitmap 200 0) (paddedBitmap 200 255) heapLeft heapRight).1
        (sbsGrays (paddedBitmap 200 0) (paddedBitmap 200 255) heapLeft heapRight).2 64 64 =
      261120 ∧
    sbsCorrelation (sbsGrays (paddedBitmap 200 0) (paddedBitmap 200 255) heapLeft heapRight).1
        (sbsGrays (paddedBitmap 200 0) (paddedBitmap 200 255) heapLeft heapRight).2 = 3 / 4 ∧
    Java_com_limelight_LeiaHelper_isSBS (paddedBitmap 200 0) (paddedBitmap 200 255)
      heapLeft heapRight = true := by
  have ht : totalSAD (sbsGrays (paddedBitmap 200 0) (paddedBitmap 200 255) heapLeft heapRight).1
      (sbsGrays (paddedBitmap 200 0) (paddedBitmap 200 255) heapLeft heapRight).2 64 64 =
      261120 := by
    rw [← totalSAD_odd_rows]
    apply totalSAD_64_congr
    intro j h0 h1
    obtain ⟨c1, c2⟩ := sbsGrays_paddedBitmap 200 0 200 255 heapLeft heapRight j h0 h1
    rw [c1, c2, luma_gray200, luma_black, luma_white]
    exact ⟨rfl, rfl⟩
  have hs : calculateSAD_NEON
      (sbsGrays (paddedBitmap 200 0) (paddedBitmap 200 255) heapLeft heapRight).1
      (sbsGrays (paddedBitmap 200 0) (paddedBitmap 200 255) heapLeft heapRight).2 64 64 =
      1 / 4 := by
    rw [calculateSAD_NEON_64 _ _ (by rw [ht]; norm_num), ht]
    have := f32round_div_two_pow 1 2 (by norm_num)
    norm_num at this ⊢
    exact this
  have hc : sbsCorrelation
      (sbsGrays (paddedBitmap 200 0) (paddedBitmap 200 255) heapLeft heapRight).1
      (sbsGrays (paddedBitmap 200 0) (paddedBitmap 200 255) heapLeft heapRight).2 = 3 / 4 := by
    unfold sbsCorrelation f32sub
    rw [hs, f32lit_one]
    have := f32round_div_two_pow 3 2 (by norm_num)
    norm_num at this ⊢
    exact this
  have hr : sbsResult
      (sbsGrays (paddedBitmap 200 0) (paddedBitmap 200 255) heapLeft heapRight).1
      (sbsGrays (paddedBitmap 200 0) (paddedBitmap 200 255) heapLeft heapRight).2 = true := by
    unfold sbsResult
    rw [hc, f32lit_95]
    norm_num
  refine ⟨rfl, by decide, ?_, ht, hc, ?_⟩
  · intro x y c hx0 hx hy0 hy hc0 hc1
    have h : (y * 512 + x * 4 + c) % 512 < 256 := by omega
    simp only [paddedBitmap, h, if_true]
  · unfold Java_com_limelight_LeiaHelper_isSBS isSBSOutcome
    rw [if_neg (by decide), if_neg (by decide)]
    exact hr

/-! ## C5: the sampled source coordinates -/

theorem scale_62_14 : scale 62 14 = 9287387 / 2097152 := by
  unfold scale f32div
  rw [f32ofInt_eq _ (by norm_num), f32ofInt_eq _ (by norm_num)]
  rw [f32round_pos_eq_of_near _ 2 9287387 (by norm_num) (by norm_num) (by norm_num)
    (by norm_num)]
  norm_num

/-- C5 fails for a target size that is not a power of two: for width 62,
target width 14 and target column 7 the code samples source column 30, while
`floor(7 * 62 / 14) = 31`. -/
theorem C5_counterexample_srcCoord_not_floor :
    srcCoord 62 14 7 = 30 ∧ (7 * 62 : Int) / 14 = 31 := by
  refine ⟨?_, by decide⟩
  unfold srcCoord f32mul
  rw [scale_62_14, f32ofInt_eq _ (by norm_num)]
  rw [f32round_pos_eq_of_near _ 4 16252927 (by norm_num) (by norm_num) (by norm_num)
    (by norm_num)]
  apply f32toInt_eq_of_bounds <;> norm_num

/-- C5 as amended: for two surfaces without row padding (`stride = width * 4`)
of the same positive width and height and at most `2 ^ 31` bytes, and target
sizes that are powers of two, `2 ^ a` by `2 ^ b` with at most `2 ^ 31` cells (in
particular the 64x64 grid of `isSBS`), such that `2 ^ a * width < 2 ^ 24` and
`2 ^ b * height < 2 ^ 24`: for target cell `(x, y)` the source column is
`floor(x * width / 2 ^ a)`, the source row is `floor(y * height / 2 ^ b)`, both
lie inside the surface, and index `y * 2 ^ a + x` of either gray buffer
receives the luminance of the pixel of its surface at that column and row,
that is of the three bytes starting at `srcY * stride + srcX * 4`. -/
theorem C5_power_of_two_target_samples_floor (li ri : AndroidBitmapInfo)
    (lp rp lg rg : Int → U8) (a b : Nat) (x y : Int)
    (hsl : li.stride = li.width * 4) (hsr : ri.stride = ri.width * 4)
    (hwr : ri.width = li.width) (hhr : ri.height = li.height)
    (hwpos : 0 < li.width) (hhpos : 0 < li.height)
    (hsize : (li.width : Int) * (li.height : Int) * 4 ≤ 2147483648)
    (hcells : (2 : Int) ^ b * 2 ^ a ≤ 2147483648)
    (hw : (2 : Int) ^ a * (li.width : Int) < 2 ^ 24)
    (hh : (2 : Int) ^ b * (li.height : Int) < 2 ^ 24)
    (hx0 : 0 ≤ x) (hx : x < 2 ^ a) (hy0 : 0 ≤ y) (hy : y < 2 ^ b) :
    srcCoord li.width (2 ^ a) x = x * (li.width : Int) / 2 ^ a ∧
      srcCoord li.height (2 ^ b) y = y * (li.height : Int) / 2 ^ b ∧
      (0 ≤ x * (li.width : Int) / 2 ^ a ∧ x * (li.width : Int) / 2 ^ a < (li.width : Int)) ∧
      (0 ≤ y * (li.height : Int) / 2 ^ b ∧ y * (li.height : Int) / 2 ^ b < (li.height : Int)) ∧
      (downsampleToGrayScale li ri lp rp lg rg (2 ^ a) (2 ^ b)).1 (y * 2 ^ a + x) =
        lumaAt lp (y * (li.height : Int) / 2 ^ b * (li.stride : Int) +
          x * (li.width : Int) / 2 ^ a * 4) ∧
      (downsampleToGrayScale li ri lp rp lg rg (2 ^ a) (2 ^ b)).2 (y * 2 ^ a + x) =
        lumaAt rp (y * (ri.height : Int) / 2 ^ b * (ri.stride : Int) +
          x * (ri.width : Int) / 2 ^ a * 4) := by
  have pa : (1 : Int) ≤ 2 ^ a := one_le_pow₀ (by norm_num)
  have pb : (1 : Int) ≤ 2 ^ b := one_le_pow₀ (by norm_num)
  have wpos : (1 : Int) ≤ (li.width : Int) := by exact_mod_cast hwpos
  have hpos : (1 : Int) ≤ (li.height : Int) := by exact_mod_cast hhpos
  have hX : srcCoord li.width (2 ^ a) x = x * (li.width : Int) / 2 ^ a := by
    apply srcCoord_two_pow _ _ _ hx0 <;> nlinarith
  have hY : srcCoord li.height (2 ^ b) y = y * (li.height : Int) / 2 ^ b := by
    apply srcCoord_two_pow _ _ _ hy0 <;> nlinarith
  have bx0 : 0 ≤ x * (li.width : Int) / 2 ^ a :=
    Int.ediv_nonneg (mul_nonneg hx0 (by omega)) (by omega)
  have bx1 : x * (li.width : Int) / 2 ^ a < (li.width : Int) := by
    apply Int.ediv_lt_of_lt_mul (by omega)
    rw [mul_comm (li.width : Int)]
    exact mul_lt_mul_of_pos_right hx (by omega)
  have cy0 : 0 ≤ y * (li.height : Int) / 2 ^ b :=
    Int.ediv_nonneg (mul_nonneg hy0 (by omega)) (by omega)
  have cy1 : y * (li.height : Int) / 2 ^ b < (li.height : Int) := by
    apply Int.ediv_lt_of_lt_mul (by omega)
    rw [mul_comm (li.height : Int)]
    exact mul_lt_mul_of_pos_right hy (by omega)
  obtain ⟨c, _, _⟩ := pixelOffset_bounds li.width li.height _ _ hsize bx0 bx1 cy0 cy1
  have e : pixelOffset li.width (x * (li.width : Int) / 2 ^ a)
      (y * (li.height : Int) / 2 ^ b) =
      y * (li.height : Int) / 2 ^ b * (li.stride : Int) + x * (li.width : Int) / 2 ^ a * 4 := by
    rw [c, hsl]
    push_cast
    ring
  refine ⟨hX, hY, ⟨bx0, bx1⟩, ⟨cy0, cy1⟩, ?_, ?_⟩
  · rw [downsample_left_apply _ _ _ _ _ _ _ _ hcells hx0 hx hy0 hy]
    unfold cellValue
    rw [hX, hY, e]
  · rw [downsample_right_apply _ _ _ _ _ _ _ _ hcells hx0 hx hy0 hy]
    unfold cellValue
    rw [hX, hY, hsr, hhr, hwr, ← hsl, e]

/-- C5 as amended, at the 64x64 target grid of `isSBS` for two 128x128 bitmaps
with 512 bytes per row and target cell `(63, 63)`. -/
theorem C5_power_of_two_target_samples_floor_witness :
    ((AndroidBitmapInfo.mk 128 128 512).stride = (AndroidBitmapInfo.mk 128 128 512).width * 4 ∧
      0 < (AndroidBitmapInfo.mk 128 128 512).width ∧
      0 < (AndroidBitmapInfo.mk 128 128 512).height ∧
      ((AndroidBitmapInfo.mk 128 128 512).width : Int) *
        ((AndroidBitmapInfo.mk 128 128 512).height : Int) * 4 ≤ 2147483648 ∧
      (2 : Int) ^ 6 * 2 ^ 6 ≤ 2147483648 ∧
      (2 : Int) ^ 6 * ((AndroidBitmapInfo.mk 128 128 512).width : Int) < 2 ^ 24 ∧
      (2 : Int) ^ 6 * ((AndroidBitmapInfo.mk 128 128 512).height : Int) < 2 ^ 24 ∧
      (0 : Int) ≤ 63 ∧ (63 : Int) < 2 ^ 6) ∧
    (srcCoord 128 (2 ^ 6) 63 = 63 * ((128 : Nat) : Int) / 2 ^ 6 ∧
      (downsampleToGrayScale ⟨128, 128, 512⟩ ⟨128, 128, 512⟩ (fun _ => 200) (fun _ => 100)
          (fun _ => 0) (fun _ => 0) (2 ^ 6) (2 ^ 6)).1 (63 * 2 ^ 6 + 63) =
        lumaAt (fun _ => 200) (63 * ((128 : Nat) : Int) / 2 ^ 6 * ((512 : Nat) : Int) +
          63 * ((128 : Nat) : Int) / 2 ^ 6 * 4) ∧
      (downsampleToGrayScale ⟨128, 128, 512⟩ ⟨128, 128, 512⟩ (fun _ => 200) (fun _ => 100)
          (fun _ => 0) (fun _ => 0) (2 ^ 6) (2 ^ 6)).2 (63 * 2 ^ 6 + 63) =
        lumaAt (fun _ => 100) (63 * ((128 : Nat) : Int) / 2 ^ 6 * ((512 : Nat) : Int) +
          63 * ((128 : Nat) : Int) / 2 ^ 6 * 4)) :=
  ⟨⟨rfl, by decide, by decide, by decide, by decide, by decide, by decide, by decide,
      by decide⟩,
    (C5_power_of_two_target_samples_floor ⟨128, 128, 512⟩ ⟨128, 128, 512⟩ (fun _ => 200)
      (fun _ => 100) (fun _ => 0) (fun _ => 0) 6 6 63 63 rfl rfl rfl rfl (by decide) (by decide)
      (by decide) (by decide) (by decide) (by decide) (by decide) (by decide) (by decide)
      (by decide)).1,
    (C5_power_of_two_target_samples_floor ⟨128, 128, 512⟩ ⟨128, 128, 512⟩ (fun _ => 200)
      (fun _ => 100) (fun _ => 0) (fun _ => 0) 6 6 63 63 rfl rfl rfl rfl (by decide) (by decide)
      (by decide) (by decide) (by decide) (by decide) (by decide) (by decide) (by decide)
      (by decide)).2.2.2.2.1,
    (C5_power_of_two_target_samples_floor ⟨128, 128, 512⟩ ⟨128, 128, 512⟩ (fun _ => 200)
      (fun _ => 100) (fun _ => 0) (fun _ => 0) 6 6 63 63 rfl rfl rfl rfl (by decide) (by decide)
      (by decide) (by decide) (by decide) (by decide) (by decide) (by decide) (by decide)
      (by decide)).2.2.2.2.2⟩

/-! ## C6: the bytes read lie inside the bitmap -/

theorem srcCoord_huge_target : srcCoord 1 67108864 67108863 = 1 := by
  have e1 : f32ofInt ((1 : Nat) : Int) = 1 := by
    have := f32ofInt_eq 1 (by norm_num)
    simpa using this
  have e2 : f32ofInt 67108864 = 67108864 := by
    have := f32ofInt_two_pow 26
    norm_num at this
    exact this
  have e3 : f32ofInt 67108863 = 67108864 := by
    unfold f32ofInt
    rw [f32round_pos_eq_of_near _ 25 16777216 (by norm_num) (by norm_num) (by norm_num)
      (by norm_num)]
    norm_num
  have e4 : scale 1 67108864 = 1 / 67108864 := by
    unfold scale f32div
    rw [e1, e2]
    have := f32round_div_two_pow 1 26 (by norm_num)
    norm_num at this ⊢
    exact this
  unfold srcCoord f32mul
  rw [e3, e4]
  have e5 : (67108864 : ℚ) * (1 / 67108864) = ((1 : Int) : ℚ) := by norm_num
  rw [e5, f32round_intCast 1 (by norm_num)]
  apply f32toInt_eq_of_bounds <;> norm_num

theorem srcCoord_zero (dim : Nat) (target : Int) : srcCoord dim target 0 = 0 := by
  unfold srcCoord f32mul f32ofInt
  simp [f32round_zero, f32toInt]

/-- C6 fails for a very large target size: for a 1x1 bitmap, target width
`2 ^ 26` and target column `2 ^ 26 - 1` (target row 0 of a target height 1) the
code computes source column 1, beyond `width - 1 = 0`, and reads the pixel at
byte offset 4, beyond the `1 * 1 * 4` bytes of the bitmap. -/
theorem C6_counterexample_huge_target :
    (67108863 : Int) < 67108864 ∧ srcCoord 1 67108864 67108863 = 1 ∧
      ¬ (srcCoord 1 67108864 67108863 ≤ ((1 : Nat) : Int) - 1) ∧
      ¬ (pixelOffset 1 (srcCoord 1 67108864 67108863) (srcCoord 1 1 0) <
          ((1 : Nat) : Int) * ((1 : Nat) : Int) * 4) := by
  rw [srcCoord_huge_target, srcCoord_zero]
  decide

/-- C6 as amended: for positive bitmap dimensions whose pixel buffer of
`width * height * 4` bytes is addressable by an `int` (at most `2 ^ 31` bytes)
and positive target sizes of at most `2 ^ 22` (including target sizes above
the bitmap's), every target cell `(x, y)` has `0 ≤ srcX ≤ width - 1` and
`0 ≤ srcY ≤ height - 1`, the offset is `(srcY * width + srcX) * 4` without
wrap-around, and the three bytes read at `offset`, `offset + 1`, `offset + 2`
lie inside the buffer. -/
theorem C6_reads_stay_in_bounds (width height : Nat) (targetWidth targetHeight x y : Int)
    (hw : 0 < width) (hh : 0 < height)
    (hsize : (width : Int) * (height : Int) * 4 ≤ 2147483648)
    (htw : 0 < targetWidth) (htw2 : targetWidth ≤ 2 ^ 22)
    (hth : 0 < targetHeight) (hth2 : targetHeight ≤ 2 ^ 22)
    (hx0 : 0 ≤ x) (hx : x < targetWidth) (hy0 : 0 ≤ y) (hy : y < targetHeight) :
    (0 ≤ srcCoord width targetWidth x ∧ srcCoord width targetWidth x ≤ (width : Int) - 1) ∧
      (0 ≤ srcCoord height targetHeight y ∧
        srcCoord height targetHeight y ≤ (height : Int) - 1) ∧
      pixelOffset width (srcCoord width targetWidth x) (srcCoord height targetHeight y) =
        (srcCoord height targetHeight y * (width : Int) + srcCoord width targetWidth x) * 4 ∧
      0 ≤ pixelOffset width (srcCoord width targetWidth x) (srcCoord height targetHeight y) ∧
      pixelOffset width (srcCoord width targetWidth x) (srcCoord height targetHeight y) + 2 <
        (width : Int) * (height : Int) * 4 := by
  obtain ⟨a1, a2⟩ := srcCoord_bounds width targetWidth x hw htw htw2 hx0 hx
  obtain ⟨b1, b2⟩ := srcCoord_bounds height targetHeight y hh hth hth2 hy0 hy
  exact ⟨⟨a1, by omega⟩, ⟨b1, by omega⟩, pixelOffset_bounds width height _ _ hsize a1 a2 b1 b2⟩

/-- C6 as amended, at a 2x2 bitmap sampled to the 64x64 grid of `isSBS` (target
size above the bitmap's), target cell `(63, 63)`. -/
theorem C6_reads_stay_in_bounds_witness :
    (0 < 2 ∧ ((2 : Nat) : Int) * ((2 : Nat) : Int) * 4 ≤ 2147483648 ∧
      (0 : Int) < 64 ∧ (64 : Int) ≤ 2 ^ 22 ∧ (0 : Int) ≤ 63 ∧ (63 : Int) < 64) ∧
    ((0 ≤ srcCoord 2 64 63 ∧ srcCoord 2 64 63 ≤ ((2 : Nat) : Int) - 1) ∧
      (0 ≤ srcCoord 2 64 63 ∧ srcCoord 2 64 63 ≤ ((2 : Nat) : Int) - 1) ∧
      pixelOffset 2 (srcCoord 2 64 63) (srcCoord 2 64 63) =
        (srcCoord 2 64 63 * ((2 : Nat) : Int) + srcCoord 2 64 63) * 4 ∧
      0 ≤ pixelOffset 2 (srcCoord 2 64 63) (srcCoord 2 64 63) ∧
      pixelOffset 2 (srcCoord 2 64 63) (srcCoord 2 64 63) + 2 <
        ((2 : Nat) : Int) * ((2 : Nat) : Int) * 4) :=
  ⟨⟨by decide, by decide, by decide, by decide, by decide, by decide⟩,
    C6_reads_stay_in_bounds 2 2 64 64 63 63 (by decide) (by decide) (by decide) (by decide)
      (by decide) (by decide) (by decide) (by decide) (by decide) (by decide) (by decide)⟩


/-! ## C7: row stride -/

/-- C7, evaluated on the code: for a 64x64 white bitmap with 260 bytes per row
(4 zero padding bytes after each row), target cell `(0, 1)` of the 64x64 grid
has source column 0 and source row 1; the pixel at column 0 of row 1 starts at
byte `1 * 260 + 0 * 4` and has luminance 255, but the code reads the bytes at
offset `(1 * 64 + 0) * 4 = 256` (the padding of row 0) and stores 0. -/
theorem C7_row_padding_is_ignored (lg rg : Int → U8) :
    srcCoord 64 64 0 = 0 ∧ srcCoord 64 64 1 = 1 ∧
      lumaAt paddedWhite (1 * 260 + 0 * 4) = 255 ∧
      pixelOffset 64 0 1 = 256 ∧
      (downsampleToGrayScale ⟨64, 64, 260⟩ ⟨64, 64, 260⟩ paddedWhite paddedWhite lg rg
        64 64).1 (1 * 64 + 0) = 0 := by
  refine ⟨srcCoord_zero _ _, srcCoord_64_64_one, ?_, by decide, ?_⟩
  · have e : lumaAt paddedWhite (1 * 260 + 0 * 4) = luma 255 255 255 := by
      unfold lumaAt
      congr 1
    rw [e, luma_white]
  · rw [downsample_left_apply _ _ _ _ _ _ 64 64 (by norm_num) (by norm_num) (by norm_num)
      (by norm_num) (by norm_num)]
    unfold cellValue
    rw [srcCoord_zero, srcCoord_64_64_one]
    have e : lumaAt paddedWhite (pixelOffset 64 0 1) = luma 0 0 0 := by
      have : pixelOffset 64 0 1 = 256 := by decide
      rw [this]
      unfold lumaAt
      congr 1
    rw [e, luma_black]

/-! ## C8: the luminance value -/

/-- C8 fails for the exact weighted sum: for the pixel `(173, 39, 170)` the
exact sum `0.299 * 173 + 0.587 * 39 + 0.114 * 170` is 94, but the code's `float`
evaluation stays just below 94 and the stored luminance is 93. -/
theorem C8_counterexample_float_sum_below_exact :
    luma 173 39 170 = 93 ∧ ⌊exactLuma 173 39 170⌋ = 94 := by
  refine ⟨luma_173_39_170, ?_⟩
  rw [Int.floor_eq_iff]
  unfold exactLuma
  rw [show ((173 : U8).val : ℚ) = 173 from rfl, show ((39 : U8).val : ℚ) = 39 from rfl,
    show ((170 : U8).val : ℚ) = 170 from rfl]
  norm_num

/-- C8 as amended: for all bytes R, G, B the stored luminance is the `float`
evaluation of `0.299f * R + 0.587f * G + 0.114f * B` truncated toward zero;
that integer lies in `0 .. 255`, so the 8-bit conversion never wraps; it is the
truncated exact weighted sum or one less; and the gray pixels of the scenarios
map to themselves: `(200, 200, 200)` to 200, `(255, 255, 255)` to 255 and
`(0, 0, 0)` to 0. -/
theorem C8_luma_is_truncated_float_sum (r g b : U8) :
    (0 ≤ f32toInt (lumaFloat r g b) ∧ f32toInt (lumaFloat r g b) ≤ 255) ∧
      ((luma r g b).val : Int) = f32toInt (lumaFloat r g b) ∧
      (⌊exactLuma r g b⌋ - 1 ≤ ((luma r g b).val : Int) ∧
        ((luma r g b).val : Int) ≤ ⌊exactLuma r g b⌋) ∧
      luma 200 200 200 = 200 ∧ luma 255 255 255 = 255 ∧ luma 0 0 0 = 0 := by
  obtain ⟨h0, h1⟩ := lumaFloat_range r g b
  obtain ⟨n0, n1⟩ := lumaFloat_near_exact r g b
  obtain ⟨f0, f1⟩ := exactLuma_floor_bounds r g b
  have e : f32toInt (lumaFloat r g b) = ⌊lumaFloat r g b⌋ := by
    unfold f32toInt
    rw [if_pos h0]
  have a0 : 0 ≤ f32toInt (lumaFloat r g b) := f32toInt_nonneg h0
  have a1 : f32toInt (lumaFloat r g b) ≤ 255 := by
    have : f32toInt (lumaFloat r g b) < 256 := f32toInt_lt h0 (by push_cast; linarith)
    omega
  have hv : ((luma r g b).val : Int) = f32toInt (lumaFloat r g b) := by
    unfold luma
    exact toU8_val a0 a1
  refine ⟨⟨a0, a1⟩, hv, ⟨?_, ?_⟩, luma_gray200, luma_white, luma_black⟩
  · rw [hv, e]
    apply Int.le_floor.mpr
    push_cast
    linarith
  · rw [hv, e]
    have : ⌊lumaFloat r g b⌋ < ⌊exactLuma r g b⌋ + 1 := by
      apply Int.floor_lt.mpr
      push_cast
      linarith
    omega


/-! ## C9: dimension checks -/

/-- C9 fails on the code: a bitmap pair of width 0 and height 0 (both NDK
calls succeeding) is not rejected, `isSBS` goes on to a classification; and
`downsampleToGrayScale` called with target width 0 returns normally, leaving
both gray buffers as they were. -/
theorem C9_counterexample_no_dimension_failure :
    (∃ r, isSBSOutcome (grayBitmap 0 0 200) (grayBitmap 0 0 200) (fun _ => 0) (fun _ => 0) =
        SbsOutcome.classified r) ∧
      downsampleToGrayScale ⟨128, 128, 512⟩ ⟨128, 128, 512⟩ (fun _ => 200) (fun _ => 200)
        (fun _ => 7) (fun _ => 9) 0 64 = ((fun _ => 7), (fun _ => 9)) :=
  ⟨(isSBSOutcome_classified_iff _ _ _ _).mpr ⟨rfl, rfl, rfl, rfl⟩,
    downsample_of_nonpos_target _ _ _ _ _ _ 0 64 (Or.inl (le_refl 0))⟩

/-- C9 as amended: the code has no `InvalidDimension` failure. `isSBS` ends in
one of its two failures exactly when `AndroidBitmap_getInfo` or
`AndroidBitmap_lockPixels` reports a failure for one of the bitmaps, whatever
the dimensions; otherwise it reaches a classification, in particular whenever
all dimensions are positive. `downsampleToGrayScale` itself never fails: with a
non-positive target width or height it returns both gray buffers unchanged. -/
theorem C9_failures_do_not_depend_on_dimensions (leftHalf rightHalf : Bitmap)
    (heapLeft heapRight : Int → U8) (li ri : AndroidBitmapInfo) (lp rp lg rg : Int → U8)
    (targetWidth targetHeight : Int) :
    ((∃ r, isSBSOutcome leftHalf rightHalf heapLeft heapRight = SbsOutcome.classified r) ↔
      (leftHalf.infoResult = 0 ∧ rightHalf.infoResult = 0 ∧
        leftHalf.lockResult = 0 ∧ rightHalf.lockResult = 0)) ∧
      ((targetWidth ≤ 0 ∨ targetHeight ≤ 0) →
        downsampleToGrayScale li ri lp rp lg rg targetWidth targetHeight = (lg, rg)) :=
  ⟨isSBSOutcome_classified_iff _ _ _ _, downsample_of_nonpos_target _ _ _ _ _ _ _ _⟩


/-! ## C10: the range of the correlation -/

/-- C10 fails once the 32-bit accumulator overflows: for the 8192x4096 grids
"every cell 255" and "every cell 0" (`2 ^ 25` cells) the 524288 batches add
8160 each, `totalSAD` wraps around to -16777216, and the correlation is
131329/131072, above 1. -/
theorem C10_counterexample_accumulator_wraps :
    (0 : Int) < 8192 * 4096 ∧
      totalSAD (fun _ => 255) (fun _ => 0) 8192 4096 = -16777216 ∧
      f32sub (f32lit 1) (calculateSAD_NEON (fun _ => 255) (fun _ => 0) 8192 4096) =
        131329 / 131072 ∧
      ¬ (f32sub (f32lit 1) (calculateSAD_NEON (fun _ => 255) (fun _ => 0) 8192 4096) ≤ 1) := by
  have htp : totalPixels 8192 4096 = 33554432 := by decide
  have e1 : f32ofInt (-16777216) = -16777216 := by
    have h := f32round_exact (-1) 24 (by norm_num)
    unfold f32ofInt
    norm_num at h ⊢
    exact h
  have e2 : f32ofInt 33554432 = 33554432 := by
    have := f32ofInt_two_pow 25
    norm_num at this
    exact this
  have e3 : f32mul (f32lit 255) 33554432 = 8556380160 := by
    unfold f32mul
    rw [f32lit_255]
    have h := f32round_exact 255 25 (by norm_num)
    norm_num at h ⊢
    exact h
  have e4 : f32div (-16777216) 8556380160 = -8421505 / 4294967296 := by
    unfold f32div
    rw [f32round_eq_of_near _ (-9) (-8421505) (by norm_num [abs_of_neg])
      (by norm_num [abs_of_neg]) (by norm_num [abs_lt])]
    norm_num
  have hs : calculateSAD_NEON (fun _ => 255) (fun _ => 0) 8192 4096 =
      -8421505 / 4294967296 := by
    unfold calculateSAD_NEON
    rw [totalSAD_wraps, htp, e1, e2, e3, e4]
  have hc : f32sub (f32lit 1) (calculateSAD_NEON (fun _ => 255) (fun _ => 0) 8192 4096) =
      131329 / 131072 := by
    unfold f32sub
    rw [hs, f32lit_one]
    rw [f32round_pos_eq_of_near _ 0 8405056 (by norm_num) (by norm_num) (by norm_num)
      (by norm_num)]
    norm_num
  refine ⟨by decide, totalSAD_wraps, hc, ?_⟩
  rw [hc]
  norm_num

/-- C10 as amended: for every pair of grids with `0 < width * height ≤ 2 ^ 23`
cells (the 64x64 grid of `isSBS` included) the total accumulated by
`calculateSAD_NEON` satisfies `0 ≤ totalSAD ≤ 255 * cellCount` and the
correlation `1.0f - sadValue` lies in `[0, 1]`. -/
theorem C10_correlation_in_unit_interval (left right : Int → U8) (width height : Int)
    (hpos : 0 < width * height) (hle : width * height ≤ 2 ^ 23) :
    (0 ≤ totalSAD left right width height ∧
        totalSAD left right width height ≤ 255 * (width * height)) ∧
      (0 ≤ f32sub (f32lit 1) (calculateSAD_NEON left right width height) ∧
        f32sub (f32lit 1) (calculateSAD_NEON left right width height) ≤ 1) := by
  have htp : totalPixels width height = width * height :=
    totalPixels_eq (by omega) (by omega)
  obtain ⟨a0, a1⟩ := accumulatedSAD_bounds left right width height (by rw [htp]; omega)
  rw [htp] at a1
  have ht : totalSAD left right width height = accumulatedSAD left right width height := by
    rw [totalSAD_eq]
    exact wrapS32_eq_self (by omega) (by omega)
  rw [ht]
  refine ⟨⟨a0, a1⟩, ?_⟩
  unfold calculateSAD_NEON
  rw [ht, htp]
  exact correlation_bounds _ _ a0 a1 hpos hle

/-- C10 as amended, at the 64x64 grids "every cell 255" and "every cell 0". -/
theorem C10_correlation_in_unit_interval_witness :
    ((0 : Int) < 64 * 64 ∧ (64 : Int) * 64 ≤ 2 ^ 23) ∧
      ((0 ≤ totalSAD (fun _ => 255) (fun _ => 0) 64 64 ∧
          totalSAD (fun _ => 255) (fun _ => 0) 64 64 ≤ 255 * (64 * 64)) ∧
        (0 ≤ f32sub (f32lit 1) (calculateSAD_NEON (fun _ => 255) (fun _ => 0) 64 64) ∧
          f32sub (f32lit 1) (calculateSAD_NEON (fun _ => 255) (fun _ => 0) 64 64) ≤ 1)) :=
  ⟨⟨by decide, by decide⟩,
    C10_correlation_in_unit_interval (fun _ => 255) (fun _ => 0) 64 64 (by decide) (by decide)⟩

/-! ## C11: the accumulator on the 64x64 grid -/

/-- Claim C11. For every pair of 64x64 grids: each term of the scalar loop is
the absolute difference of the two cells and lies in 0..255, each lane of a
vector absolute difference is the absolute difference of the two loaded cells
and is at most 255, the accumulator `totalSAD` is, after any number of
iterations of the vector loop and of the scalar loop, the unreduced sum of the
amounts added so far and lies in 0..1044480, and the final `totalSAD` is the
one an accumulator without reduction modulo `2 ^ 32` ends with. -/
theorem C11_accumulator_never_overflows_64 (left right : Int → U8) :
    (∀ i, scalarAbsDiff left right i = |((left i).val : Int) - ((right i).val : Int)| ∧
      0 ≤ scalarAbsDiff left right i ∧ scalarAbsDiff left right i ≤ 255) ∧
    (∀ i (k : Nat), k < 16 →
      (((vabdq_u8 (vld1q_u8 left i) (vld1q_u8 right i)).getD k 0 : Nat) : Int) =
        |((left (i + (k : Int))).val : Int) - ((right (i + (k : Int))).val : Int)| ∧
      (vabdq_u8 (vld1q_u8 left i) (vld1q_u8 right i)).getD k 0 ≤ 255) ∧
    (∀ n, vectorRunningTotal left right 64 64 n =
        (((forRange 0 (simdPixels 64 64) 64).take n).map
          (fun i => batchSAD left right i)).sum ∧
      0 ≤ vectorRunningTotal left right 64 64 n ∧
      vectorRunningTotal left right 64 64 n ≤ 1044480) ∧
    (∀ m, scalarRunningTotal left right 64 64 m =
        ((forRange 0 (simdPixels 64 64) 64).map (fun i => batchSAD left right i)).sum +
          (((forRange (simdPixels 64 64) (totalPixels 64 64) 1).take m).map
            (fun i => scalarAbsDiff left right i)).sum ∧
      0 ≤ scalarRunningTotal left right 64 64 m ∧
      scalarRunningTotal left right 64 64 m ≤ 1044480) ∧
    totalSAD left right 64 64 = totalSADUnreduced left right 64 64 := by
  refine ⟨fun i => ⟨rfl, scalarAbsDiff_bounds left right i⟩, ?_, ?_, ?_, ?_⟩
  · intro i k hk
    rw [vabdq_lane left right i k hk]
    exact ⟨by rw [← scalarAbsDiff_eq]; rfl, absDiffNat_le left right _⟩
  · intro n
    obtain ⟨a0, a1⟩ := vectorRunningTotal_64_bounds left right n
    rw [vectorRunningTotal_eq, wrapS32_eq_self (by omega) (by omega)]
    exact ⟨rfl, a0, by omega⟩
  · intro m
    obtain ⟨a0, a1⟩ := vectorRunningTotal_64_bounds left right 64
    have ht : (forRange 0 (simdPixels 64 64) 64).take 64 = forRange 0 (simdPixels 64 64) 64 := by
      apply List.take_of_length_le
      rw [simdPixels_64]; decide
    rw [ht] at a0 a1
    rw [scalarRunningTotal_eq, scalar_range_64]
    simp only [List.take_nil, List.map_nil, List.sum_nil, add_zero]
    rw [wrapS32_eq_self (by omega) (by omega)]
    exact ⟨rfl, a0, by omega⟩
  · obtain ⟨a0, a1⟩ := accumulatedSAD_bounds left right 64 64 (by rw [totalPixels_64]; decide)
    rw [totalPixels_64] at a1
    rw [totalSADUnreduced_eq, totalSAD_eq, wrapS32_eq_self (by omega) (by omega)]

/-! ## C12: the alpha channel -/

/-- Claim C12. Take two bitmaps of the same positive width and height, with a
pixel buffer of at most `2 ^ 31` bytes, and replace the pixel bytes of each by
bytes that agree with them, inside the buffer, everywhere except at byte 3 of
a pixel (the alpha byte).  Then for every target size up to `2 ^ 22` in each
direction and at most `2 ^ 31` cells `downsampleToGrayScale` stores the same
value in every cell of both gray buffers, and `isSBS` returns the same value,
whatever the fresh gray buffers contain. -/
theorem C12_alpha_channel_is_ignored (leftHalf rightHalf : Bitmap)
    (leftPixels' rightPixels' : Int → U8)
    (hw : rightHalf.info.width = leftHalf.info.width)
    (hh : rightHalf.info.height = leftHalf.info.height)
    (hwpos : 0 < leftHalf.info.width) (hhpos : 0 < leftHalf.info.height)
    (hsize : (leftHalf.info.width : Int) * (leftHalf.info.height : Int) * 4 ≤ 2147483648)
    (hleft : ∀ j, 0 ≤ j →
      j < (leftHalf.info.width : Int) * (leftHalf.info.height : Int) * 4 → j % 4 ≠ 3 →
      leftHalf.pixels j = leftPixels' j)
    (hright : ∀ j, 0 ≤ j →
      j < (rightHalf.info.width : Int) * (rightHalf.info.height : Int) * 4 → j % 4 ≠ 3 →
      rightHalf.pixels j = rightPixels' j) :
    (∀ (tw th : Int) (lg rg lg' rg' : Int → U8) (x y : Int),
      0 < tw → tw ≤ 2 ^ 22 → 0 < th → th ≤ 2 ^ 22 → th * tw ≤ 2147483648 →
      0 ≤ x → x < tw → 0 ≤ y → y < th →
      (downsampleToGrayScale leftHalf.info rightHalf.info leftHalf.pixels rightHalf.pixels
          lg rg tw th).1 (y * tw + x) =
        (downsampleToGrayScale leftHalf.info rightHalf.info leftPixels' rightPixels'
          lg' rg' tw th).1 (y * tw + x) ∧
      (downsampleToGrayScale leftHalf.info rightHalf.info leftHalf.pixels rightHalf.pixels
          lg rg tw th).2 (y * tw + x) =
        (downsampleToGrayScale leftHalf.info rightHalf.info leftPixels' rightPixels'
          lg' rg' tw th).2 (y * tw + x)) ∧
    (∀ (lg rg : Int → U8) (tw th : Int),
      0 < tw → tw ≤ 2 ^ 22 → 0 < th → th ≤ 2 ^ 22 → th * tw ≤ 2147483648 →
      downsampleToGrayScale leftHalf.info rightHalf.info leftHalf.pixels rightHalf.pixels
          lg rg tw th =
        downsampleToGrayScale leftHalf.info rightHalf.info leftPixels' rightPixels'
          lg rg tw th) ∧
    (∀ heapLeft heapRight heapLeft' heapRight' : Int → U8,
      Java_com_limelight_LeiaHelper_isSBS leftHalf rightHalf heapLeft heapRight =
        Java_com_limelight_LeiaHelper_isSBS
          { leftHalf with pixels := leftPixels' } { rightHalf with pixels := rightPixels' }
          heapLeft' heapRight') := by
  rw [hw, hh] at hright
  have hcell : ∀ (tw th : Int) (lg rg lg' rg' : Int → U8) (x y : Int),
      0 < tw → tw ≤ 2 ^ 22 → 0 < th → th ≤ 2 ^ 22 → th * tw ≤ 2147483648 →
      0 ≤ x → x < tw → 0 ≤ y → y < th →
      (downsampleToGrayScale leftHalf.info rightHalf.info leftHalf.pixels rightHalf.pixels
          lg rg tw th).1 (y * tw + x) =
        (downsampleToGrayScale leftHalf.info rightHalf.info leftPixels' rightPixels'
          lg' rg' tw th).1 (y * tw + x) ∧
      (downsampleToGrayScale leftHalf.info rightHalf.info leftHalf.pixels rightHalf.pixels
          lg rg tw th).2 (y * tw + x) =
        (downsampleToGrayScale leftHalf.info rightHalf.info leftPixels' rightPixels'
          lg' rg' tw th).2 (y * tw + x) := by
    intro tw th lg rg lg' rg' x y htw htw2 hth hth2 hcells hx0 hx hy0 hy
    rw [downsample_left_apply _ _ _ _ _ _ tw th hcells hx0 hx hy0 hy,
      downsample_left_apply _ _ _ _ _ _ tw th hcells hx0 hx hy0 hy,
      downsample_right_apply _ _ _ _ _ _ tw th hcells hx0 hx hy0 hy,
      downsample_right_apply _ _ _ _ _ _ tw th hcells hx0 hx hy0 hy]
    exact ⟨cellValue_congr_rgb _ _ _ _ _ tw th x y rfl hwpos hhpos hsize htw htw2 hth hth2
        hx0 hx hy0 hy hleft,
      cellValue_congr_rgb _ _ _ _ _ tw th x y hw hwpos hhpos hsize htw htw2 hth hth2
        hx0 hx hy0 hy hright⟩
  refine ⟨hcell, ?_, ?_⟩
  · intro lg rg tw th htw htw2 hth hth2 hcells
    have hfun : ∀ j,
        (downsampleToGrayScale leftHalf.info rightHalf.info leftHalf.pixels rightHalf.pixels
            lg rg tw th).1 j =
          (downsampleToGrayScale leftHalf.info rightHalf.info leftPixels' rightPixels'
            lg rg tw th).1 j ∧
        (downsampleToGrayScale leftHalf.info rightHalf.info leftHalf.pixels rightHalf.pixels
            lg rg tw th).2 j =
          (downsampleToGrayScale leftHalf.info rightHalf.info leftPixels' rightPixels'
            lg rg tw th).2 j := by
      intro j
      by_cases hj : j < 0 ∨ th * tw ≤ j
      · obtain ⟨a1, a2⟩ := downsample_outside leftHalf.info rightHalf.info leftHalf.pixels
          rightHalf.pixels lg rg tw th hcells j hj
        obtain ⟨b1, b2⟩ := downsample_outside leftHalf.info rightHalf.info leftPixels'
          rightPixels' lg rg tw th hcells j hj
        rw [a1, a2, b1, b2]
        exact ⟨rfl, rfl⟩
      · have hj0 : 0 ≤ j := by omega
        have hj1 : j < th * tw := by omega
        have hq0 : 0 ≤ j / tw := Int.ediv_nonneg hj0 (le_of_lt htw)
        have hq1 : j / tw < th := Int.ediv_lt_of_lt_mul htw hj1
        have hr0 : 0 ≤ j % tw := Int.emod_nonneg _ (ne_of_gt htw)
        have hr1 : j % tw < tw := Int.emod_lt_of_pos _ htw
        have e : j = j / tw * tw + j % tw := by
          have := Int.ediv_add_emod j tw
          rw [mul_comm] at this
          exact this.symm
        rw [e]
        exact hcell tw th lg rg lg rg _ _ htw htw2 hth hth2 hcells hr0 hr1 hq0 hq1
    exact Prod.ext (funext fun j => (hfun j).1) (funext fun j => (hfun j).2)
  · intro heapLeft heapRight heapLeft' heapRight'
    have hr : sbsResult (sbsGrays leftHalf rightHalf heapLeft heapRight).1
        (sbsGrays leftHalf rightHalf heapLeft heapRight).2 =
        sbsResult
          (sbsGrays { leftHalf with pixels := leftPixels' }
            { rightHalf with pixels := rightPixels' } heapLeft' heapRight').1
          (sbsGrays { leftHalf with pixels := leftPixels' }
            { rightHalf with pixels := rightPixels' } heapLeft' heapRight').2 := by
      apply sbsResult_congr
      intro j h0 h1
      have hj : j = (j / 64) * 64 + j % 64 := by omega
      rw [hj]
      exact hcell 64 64 heapLeft heapRight heapLeft' heapRight' (j % 64) (j / 64)
        (by norm_num) (by norm_num) (by norm_num) (by norm_num) (by norm_num)
        (by omega) (by omega) (by omega) (by omega)
    unfold Java_com_limelight_LeiaHelper_isSBS isSBSOutcome
    simp only [hr]

/-- Claim C12 at two 128x128 bitmaps of gray 200 and gray 90 with alpha 255,
against the same bitmaps with alpha 0. -/
theorem C12_alpha_channel_is_ignored_witness :
    ((grayBitmap 128 128 90).info.width = (grayBitmap 128 128 200).info.width ∧
      (grayBitmap 128 128 90).info.height = (grayBitmap 128 128 200).info.height ∧
      0 < (grayBitmap 128 128 200).info.width ∧ 0 < (grayBitmap 128 128 200).info.height ∧
      ((grayBitmap 128 128 200).info.width : Int) * ((grayBitmap 128 128 200).info.height : Int)
        * 4 ≤ 2147483648 ∧
      (∀ j : Int, 0 ≤ j → j < ((grayBitmap 128 128 200).info.width : Int) *
          ((grayBitmap 128 128 200).info.height : Int) * 4 → j % 4 ≠ 3 →
        (grayBitmap 128 128 200).pixels j = (fun i : Int => if i % 4 = 3 then (0 : U8) else 200) j) ∧
      (∀ j : Int, 0 ≤ j → j < ((grayBitmap 128 128 90).info.width : Int) *
          ((grayBitmap 128 128 90).info.height : Int) * 4 → j % 4 ≠ 3 →
        (grayBitmap 128 128 90).pixels j = (fun i : Int => if i % 4 = 3 then (0 : U8) else 90) j)) ∧
    Java_com_limelight_LeiaHelper_isSBS (grayBitmap 128 128 200) (grayBitmap 128 128 90)
        (fun _ => 0) (fun _ => 255) =
      Java_com_limelight_LeiaHelper_isSBS
        { grayBitmap 128 128 200 with pixels := fun i => if i % 4 = 3 then 0 else 200 }
        { grayBitmap 128 128 90 with pixels := fun i => if i % 4 = 3 then 0 else 90 }
        (fun _ => 7) (fun _ => 9) :=
  ⟨⟨rfl, rfl, by decide, by decide, by decide,
      fun j _ _ h => by simp [grayBitmap, h], fun j _ _ h => by simp [grayBitmap, h]⟩,
    (C12_alpha_channel_is_ignored (grayBitmap 128 128 200) (grayBitmap 128 128 90)
      (fun i => if i % 4 = 3 then 0 else 200) (fun i => if i % 4 = 3 then 0 else 90)
      rfl rfl (by decide) (by decide) (by decide)
      (fun j _ _ h => by simp [grayBitmap, h])
      (fun j _ _ h => by simp [grayBitmap, h])).2.2 _ _ _ _⟩

/-! ## C13: the latch of `set3D` -/

/-- Claim C13. With the backend library available (the load inside the call
succeeds), for all globals, every enabled value and all sub-modes `m1`, `m2`:
a `set3D(enabled, m1)` call leaves `current3DState` equal to `enabled`; a
directly following `set3D(enabled, m2)` call makes no backend call and leaves
the globals as they are, whatever the loader would answer; and a call whose
enabled value already equals `current3DState` makes no backend call and
changes nothing beyond what `loadLeiaLibrary` does. -/
theorem C13_set3D_is_idempotent_latch (dl1 dl2 : DlResults) (g : LeiaGlobals)
    (enabled : Bool) (m1 m2 : Int) (havail : (loadLeiaLibrary dl1 g).1 = true) :
    (Java_com_limelight_LeiaHelper_set3D dl1 (jboolean enabled) m1 g).1.current3DState
        = enabled ∧
    Java_com_limelight_LeiaHelper_set3D dl2 (jboolean enabled) m2
        (Java_com_limelight_LeiaHelper_set3D dl1 (jboolean enabled) m1 g).1 =
      ((Java_com_limelight_LeiaHelper_set3D dl1 (jboolean enabled) m1 g).1, []) ∧
    (g.current3DState = enabled →
      Java_com_limelight_LeiaHelper_set3D dl1 (jboolean enabled) m1 g =
        ((loadLeiaLibrary dl1 g).2, []) ∧
      (Java_com_limelight_LeiaHelper_set3D dl1 (jboolean enabled) m1 g).1.current3DState =
        g.current3DState) := by
  have hh := loadLeiaLibrary_true havail
  have hc := loadLeiaLibrary_current3DState dl1 g
  have key : ∀ (d : DlResults) (m : Int) (s : LeiaGlobals), s.leiaLibHandle ≠ 0 →
      s.current3DState = enabled →
      Java_com_limelight_LeiaHelper_set3D d (jboolean enabled) m s = (s, []) := by
    intro d m s hs he
    have hl : (loadLeiaLibrary d s).1 = true := by rw [loadLeiaLibrary_of_handle hs]
    rw [set3D_of_load_true _ m hl, loadLeiaLibrary_of_handle hs]
    simp only [jboolean_val, he, ne_eq, not_true_eq_false, and_false, if_false]
  rw [set3D_of_load_true _ m1 havail]
  generalize (loadLeiaLibrary dl1 g).2 = g1 at hh hc
  simp only [jboolean_val, hc]
  refine ⟨?_, ?_, ?_⟩
  · cases enabled <;> cases hg : g.current3DState <;> simp [jboolean, boolToInt, hc, hg]
  · cases enabled <;> cases hg : g.current3DState <;>
      simp only [jboolean, boolToInt, Bool.false_eq_true, if_false, if_true, Fin.val_zero,
        Fin.val_one, ne_eq, not_true_eq_false, not_false_eq_true, and_true, and_false,
        and_self, one_ne_zero, zero_ne_one] <;>
      first
        | exact key _ _ _ hh (hc.trans hg)
        | exact key _ _ _ hh rfl
  · intro he
    subst he
    simp [hc]

theorem C13_set3D_is_idempotent_latch_witness :
    (loadLeiaLibrary (DlResults.mk 1 2 3) initialGlobals).1 = true ∧
    (Java_com_limelight_LeiaHelper_set3D (DlResults.mk 1 2 3) (jboolean true) 0
        initialGlobals).1.current3DState = true ∧
    Java_com_limelight_LeiaHelper_set3D (DlResults.mk 0 0 0) (jboolean true) 1
        (Java_com_limelight_LeiaHelper_set3D (DlResults.mk 1 2 3) (jboolean true) 0
          initialGlobals).1 =
      ((Java_com_limelight_LeiaHelper_set3D (DlResults.mk 1 2 3) (jboolean true) 0
          initialGlobals).1, []) :=
  ⟨by decide,
    (C13_set3D_is_idempotent_latch (DlResults.mk 1 2 3) (DlResults.mk 0 0 0) initialGlobals
      true 0 1 (by decide)).1,
    (C13_set3D_is_idempotent_latch (DlResults.mk 1 2 3) (DlResults.mk 0 0 0) initialGlobals
      true 0 1 (by decide)).2.1⟩

/-! ## C14: the cells each loop visits -/

/-- Claim C14. For every `totalPixels` in `0 .. 2^31 - 1`: `totalPixels & ~63`
is `totalPixels - totalPixels mod 64`, a multiple of 64, at most `totalPixels`
and at least every other such multiple (and this is the `simdPixels` of every
`width`, `height` with that product); the vector loop loads the indices
`0, 1, .., simdPixels - 1`, each once, batch `i` loading `i .. i + 63`; the
scalar loop reads the `totalPixels mod 64` indices
`simdPixels, .., totalPixels - 1`; together they read `0 .. totalPixels - 1`,
each once, and nothing else. -/
theorem C14_loops_partition_the_cells (tp : Int) (h0 : 0 ≤ tp) (h1 : tp < 2147483648) :
    andS32 tp (~~~ (63 : Int)) = tp - tp % 64 ∧
    (∀ width height : Int, totalPixels width height = tp →
      simdPixels width height = tp - tp % 64) ∧
    andS32 tp (~~~ (63 : Int)) % 64 = 0 ∧
    andS32 tp (~~~ (63 : Int)) ≤ tp ∧
    (∀ m : Int, m % 64 = 0 → m ≤ tp → m ≤ andS32 tp (~~~ (63 : Int))) ∧
    vectorLoopIndices (andS32 tp (~~~ (63 : Int))) =
      (List.range (andS32 tp (~~~ (63 : Int))).toNat).map (fun (k : Nat) => (k : Int)) ∧
    (∀ i ∈ forRange 0 (andS32 tp (~~~ (63 : Int))) 64,
      i % 64 = 0 ∧ 0 ≤ i ∧ i + 64 ≤ andS32 tp (~~~ (63 : Int)) ∧
      batchIndices i = (List.range 64).map (fun (k : Nat) => i + (k : Int))) ∧
    scalarLoopIndices (andS32 tp (~~~ (63 : Int))) tp =
      (List.range (tp % 64).toNat).map
        (fun (k : Nat) => andS32 tp (~~~ (63 : Int)) + (k : Int)) ∧
    vectorLoopIndices (andS32 tp (~~~ (63 : Int))) ++
        scalarLoopIndices (andS32 tp (~~~ (63 : Int))) tp =
      (List.range tp.toNat).map (fun (k : Nat) => (k : Int)) ∧
    (∀ j ∈ vectorLoopIndices (andS32 tp (~~~ (63 : Int))) ++
        scalarLoopIndices (andS32 tp (~~~ (63 : Int))) tp, 0 ≤ j ∧ j < tp) := by
  have hs := andS32_mask_eq h0 h1
  generalize andS32 tp (~~~ (63 : Int)) = simd at hs ⊢
  have hn : simd = 64 * (((tp / 64).toNat : Nat) : Int) := by omega
  have hv : vectorLoopIndices simd =
      (List.range ((tp / 64).toNat * 64)).map (fun (k : Nat) => (k : Int)) := by
    rw [hn]
    exact vectorLoopIndices_eq _
  have hsc : scalarLoopIndices simd tp =
      (List.range (tp % 64).toNat).map (fun (k : Nat) => simd + (k : Int)) := by
    unfold scalarLoopIndices
    have e : tp = simd + (((tp % 64).toNat : Nat) : Int) := by omega
    nth_rewrite 1 [e]
    exact forRange_from_one _ _
  have hall : vectorLoopIndices simd ++ scalarLoopIndices simd tp =
      (List.range tp.toNat).map (fun (k : Nat) => (k : Int)) := by
    have e : tp.toNat = (tp / 64).toNat * 64 + (tp % 64).toNat := by omega
    have e2 : (List.range (tp % 64).toNat).map (fun (k : Nat) => simd + (k : Int)) =
        (List.range (tp % 64).toNat).map
          ((fun (k : Nat) => (k : Int)) ∘ (fun k => (tp / 64).toNat * 64 + k)) := by
      apply List.map_congr_left
      intro k _
      simp only [Function.comp]
      push_cast
      omega
    rw [hv, hsc, e, List.range_add, List.map_append, List.map_map, e2]
  have he : simd.toNat = (tp / 64).toNat * 64 := by omega
  refine ⟨hs, ?_, by omega, by omega, fun m hm hle => by omega, ?_, ?_, hsc, hall, ?_⟩
  · intro width height he
    have h := @simdPixels_eq width height (by rw [he]; exact h0)
    rw [he] at h
    exact h
  · rw [hv, he]
  · intro i hi
    obtain ⟨b1, b2⟩ := batch_index_bounds (by omega) hi
    obtain ⟨k, _, rfl⟩ := mem_forRange.mp hi
    exact ⟨by omega, b1, b2, batchIndices_eq _⟩
  · intro j hj
    rw [hall] at hj
    obtain ⟨k, hk, rfl⟩ := List.mem_map.mp hj
    have := List.mem_range.mp hk
    omega

theorem C14_loops_partition_the_cells_witness :
    (0 : Int) ≤ 100 ∧ (100 : Int) < 2147483648 ∧
    andS32 100 (~~~ (63 : Int)) = 100 - 100 % 64 ∧
    vectorLoopIndices (andS32 100 (~~~ (63 : Int))) ++
        scalarLoopIndices (andS32 100 (~~~ (63 : Int))) 100 =
      (List.range (100 : Int).toNat).map (fun (k : Nat) => (k : Int)) :=
  ⟨by decide, by decide,
    (C14_loops_partition_the_cells 100 (by decide) (by decide)).1,
    (C14_loops_partition_the_cells 100 (by decide) (by decide)).2.2.2.2.2.2.2.2.1⟩

/-! ## C15: the backend library is missing -/

/-- Claim C15. When no library handle is held and the loader fails (`dlopen`
gives null, or one of the two `dlsym` calls gives null), `loadLeiaLibrary`
returns `false` and leaves `leiaLibHandle` null, and `set3D(on, mode)`, for
every `on`, `mode` and value of `current3DState`, makes no backend call and
leaves `current3DState` as it was. -/
theorem C15_load_failure_is_silent (dl : DlResults) (g : LeiaGlobals) (on_ : U8)
    (mode : Int) (hnull : g.leiaLibHandle = 0)
    (hfail : dl.dlopen = 0 ∨ dl.dlsymOn = 0 ∨ dl.dlsymOff = 0) :
    (loadLeiaLibrary dl g).1 = false ∧
    (loadLeiaLibrary dl g).2.leiaLibHandle = 0 ∧
    (Java_com_limelight_LeiaHelper_set3D dl on_ mode g).2 = [] ∧
    (Java_com_limelight_LeiaHelper_set3D dl on_ mode g).1.current3DState =
      g.current3DState ∧
    (Java_com_limelight_LeiaHelper_set3D dl on_ mode g).1.leiaLibHandle = 0 := by
  have hl : (loadLeiaLibrary dl g).1 = false ∧ (loadLeiaLibrary dl g).2.leiaLibHandle = 0 := by
    unfold loadLeiaLibrary
    rw [if_neg (by rw [hnull]; exact fun h => h rfl)]
    simp only
    split_ifs with h2 h3
    · exact ⟨rfl, h2⟩
    · exact ⟨rfl, rfl⟩
    · exfalso
      rcases hfail with h | h | h
      · exact h2 h
      · exact h3 (Or.inl h)
      · exact h3 (Or.inr h)
  rw [set3D_of_load_false on_ mode hl.1]
  exact ⟨hl.1, hl.2, rfl, loadLeiaLibrary_current3DState dl g, hl.2⟩

theorem C15_load_failure_is_silent_witness :
    initialGlobals.leiaLibHandle = 0 ∧
    ((DlResults.mk 7 0 9).dlopen = 0 ∨ (DlResults.mk 7 0 9).dlsymOn = 0 ∨
      (DlResults.mk 7 0 9).dlsymOff = 0) ∧
    (loadLeiaLibrary (DlResults.mk 7 0 9) initialGlobals).1 = false ∧
    (Java_com_limelight_LeiaHelper_set3D (DlResults.mk 7 0 9) 1 2 initialGlobals).2 = [] :=
  ⟨rfl, Or.inr (Or.inl rfl),
    (C15_load_failure_is_silent (DlResults.mk 7 0 9) initialGlobals 1 2 rfl
      (Or.inr (Or.inl rfl))).1,
    (C15_load_failure_is_silent (DlResults.mk 7 0 9) initialGlobals 1 2 rfl
      (Or.inr (Or.inl rfl))).2.2.1⟩

/-! ## C16: the cells `downsampleToGrayScale` writes -/

/-- Claim C16 fails when the cell count does not fit an `int`: for the target
size 2147483647 by 2, cell `(x, y) = (1, 1)` is a target cell and its index
`y * targetWidth + x = 2147483648` wraps to `-2147483648`, an index outside
`[0, targetWidth * targetHeight)` that the loops store to. -/
theorem C16_counterexample_index_wraps :
    ((1 : Int), (1 : Int)) ∈ targetCells 2147483647 2 ∧
      cellIndex 2147483647 1 1 = -2147483648 ∧
      (-2147483648 : Int) ∈ writtenIndices 2147483647 2 ∧
      ¬ ((0 : Int) ≤ -2147483648 ∧ (-2147483648 : Int) < 2147483647 * 2) := by
  have hm : ((1 : Int), (1 : Int)) ∈ targetCells 2147483647 2 :=
    mem_targetCells.mpr ⟨⟨by decide, by decide⟩, ⟨by decide, by decide⟩⟩
  refine ⟨hm, by decide, ?_, by decide⟩
  unfold writtenIndices
  exact List.mem_map.mpr ⟨(1, 1), hm, by decide⟩

/-- Claim C16 as amended: for all positive target sizes with at most `2 ^ 31`
cells, the stores of `downsampleToGrayScale` into each gray buffer go to the
indices `0, 1, .., targetWidth * targetHeight - 1`, each exactly once, in this
order; the map `(x, y) -> y * targetWidth + x` is one-to-one on the target
cells and onto that range; after the call every cell in the range holds the
value computed for its target cell, whatever the buffer held before, and every
index outside the range holds what it held before. -/
theorem C16_every_cell_written_once (tw th : Int) (htw : 0 < tw) (hth : 0 < th)
    (hsize : th * tw ≤ 2147483648) :
    writtenIndices tw th = (List.range (th * tw).toNat).map (fun (k : Nat) => (k : Int)) ∧
    (∀ x y x' y' : Int, 0 ≤ x → x < tw → 0 ≤ x' → x' < tw →
      y * tw + x = y' * tw + x' → x = x' ∧ y = y') ∧
    (∀ j : Int, 0 ≤ j → j < th * tw →
      ∃ x y : Int, (0 ≤ x ∧ x < tw) ∧ (0 ≤ y ∧ y < th) ∧ y * tw + x = j) ∧
    (∀ (li ri : AndroidBitmapInfo) (lp rp lg rg : Int → U8) (x y : Int),
      0 ≤ x → x < tw → 0 ≤ y → y < th →
      (downsampleToGrayScale li ri lp rp lg rg tw th).1 (y * tw + x) =
          cellValue li.width li.height li.width lp tw th x y ∧
        (downsampleToGrayScale li ri lp rp lg rg tw th).2 (y * tw + x) =
          cellValue li.width li.height ri.width rp tw th x y) ∧
    (∀ (li ri : AndroidBitmapInfo) (lp rp lg rg : Int → U8) (j : Int),
      j < 0 ∨ th * tw ≤ j →
      (downsampleToGrayScale li ri lp rp lg rg tw th).1 j = lg j ∧
        (downsampleToGrayScale li ri lp rp lg rg tw th).2 j = rg j) := by
  refine ⟨writtenIndices_eq htw hth hsize, ?_, ?_, ?_, ?_⟩
  · intro x y x' y' hx0 hx hx0' hx' h
    exact cell_unique hx0 hx hx0' hx' h
  · intro j hj0 hj1
    refine ⟨j % tw, j / tw, ⟨Int.emod_nonneg _ (ne_of_gt htw), Int.emod_lt_of_pos _ htw⟩,
      ⟨Int.ediv_nonneg hj0 (le_of_lt htw), Int.ediv_lt_of_lt_mul htw hj1⟩, ?_⟩
    have := Int.ediv_add_emod j tw
    rw [mul_comm] at this
    exact this
  · intro li ri lp rp lg rg x y hx0 hx hy0 hy
    exact ⟨downsample_left_apply li ri lp rp lg rg tw th hsize hx0 hx hy0 hy,
      downsample_right_apply li ri lp rp lg rg tw th hsize hx0 hx hy0 hy⟩
  · intro li ri lp rp lg rg j hj
    exact downsample_outside li ri lp rp lg rg tw th hsize j hj

/-- Claim C16 at the 64x64 target of `isSBS`: the stores go to `0 .. 4095`,
each once. -/
theorem C16_every_cell_written_once_witness :
    (0 : Int) < 64 ∧ (64 : Int) * 64 ≤ 2147483648 ∧
      writtenIndices 64 64 =
        (List.range ((64 : Int) * 64).toNat).map (fun (k : Nat) => (k : Int)) :=
  ⟨by decide, by decide,
    (C16_every_cell_written_once 64 64 (by decide) (by decide) (by decide)).1⟩

/-! ## C17: what one batch adds -/

/-- Claim C17. For every batch start `i`: the iteration of the vector loop for
the batch at `64 * n` adds `batchSAD`, which is lane 0 of `final_sum64` read as
a signed 64-bit value; that amount is the sum of `|left[i+k] - right[i+k]|`
over the 32 offsets `k` in `0..63` with `k mod 16 < 8`; lane 1 holds the sum
over the 32 offsets with `k mod 16 ≥ 8`, and the amount added does not depend
on the cells at those offsets. -/
theorem C17_batch_adds_lane_zero_only (left right : Int → U8) (i : Int) :
    (∀ (n : Nat) (acc : Int), vectorLoop left right (64 * ((n : Int) + 1)) acc =
      wrapS32 (vectorLoop left right (64 * (n : Int)) acc +
        vgetq_lane_s64 (vreinterpretq_s64_u64 (batchFinalSum64 left right (64 * (n : Int)))) 0)) ∧
    vgetq_lane_s64 (vreinterpretq_s64_u64 (batchFinalSum64 left right i)) 0 =
      (lowerHalfOffsets.map (fun (k : Nat) =>
        |((left (i + (k : Int))).val : Int) - ((right (i + (k : Int))).val : Int)|)).sum ∧
    vgetq_lane_s64 (vreinterpretq_s64_u64 (batchFinalSum64 left right i)) 1 =
      (upperHalfOffsets.map (fun (k : Nat) =>
        |((left (i + (k : Int))).val : Int) - ((right (i + (k : Int))).val : Int)|)).sum ∧
    lowerHalfOffsets.length = 32 ∧ upperHalfOffsets.length = 32 ∧
    (∀ k, k ∈ lowerHalfOffsets ↔ k < 64 ∧ k % 16 < 8) ∧
    (∀ k, k ∈ upperHalfOffsets ↔ k < 64 ∧ 8 ≤ k % 16) ∧
    (∀ left' right' : Int → U8,
      (∀ k ∈ lowerHalfOffsets, left' (i + (k : Int)) = left (i + (k : Int)) ∧
        right' (i + (k : Int)) = right (i + (k : Int))) →
      vgetq_lane_s64 (vreinterpretq_s64_u64 (batchFinalSum64 left' right' i)) 0 =
        vgetq_lane_s64 (vreinterpretq_s64_u64 (batchFinalSum64 left right i)) 0) := by
  have e0 : vgetq_lane_s64 (vreinterpretq_s64_u64 (batchFinalSum64 left right i)) 0 =
      (lowerHalfOffsets.map (fun (k : Nat) =>
        |((left (i + (k : Int))).val : Int) - ((right (i + (k : Int))).val : Int)|)).sum := by
    have h := batchSAD_eq left right i
    rw [lane0Offsets_eq, List.map_map] at h
    exact h
  refine ⟨fun n acc => vectorLoop_succ left right n acc, e0, batch_lane_one_eq left right i,
    by decide, by decide, ?_, ?_, ?_⟩
  · intro k
    simp [lowerHalfOffsets]
  · intro k
    simp [upperHalfOffsets]
  · intro left' right' h
    apply batchSAD_congr
    intro k hk
    rw [lane0Offsets_eq] at hk
    obtain ⟨m, hm, rfl⟩ := List.mem_map.mp hk
    exact h m hm

/-! ## C18: the lanes inside one batch -/

/-- Claim C18. Inside one batch no lane wraps, for every input: each lane of
an absolute-difference vector is at most 255, each lane after `vpaddlq_u8` is
at most 510, each of the three `vaddq_u16` additions gives the lane-wise sum
without reduction modulo `2 ^ 16` and each lane of `total_sum` is at most 2040,
and each lane after `vpaddlq_u16` is the unreduced sum of two lanes of
`total_sum` and is at most 4080; `final_sum64` is `vpaddlq_u32` of that
vector. -/
theorem C18_no_lane_wraps_in_a_batch (left right : Int → U8) (i : Int) :
    (∀ off, (batchDiff left right off).length = 16 ∧
      ∀ x ∈ batchDiff left right off, x ≤ 255) ∧
    (∀ off, (vpaddlq_u8 (batchDiff left right off)).length = 8 ∧
      (∀ x ∈ vpaddlq_u8 (batchDiff left right off), x ≤ 510) ∧
      ∀ j, j < 8 → (vpaddlq_u8 (batchDiff left right off)).getD j 0 =
        (batchDiff left right off).getD (2 * j) 0 +
          (batchDiff left right off).getD (2 * j + 1) 0) ∧
    vaddq_u16 (vpaddlq_u8 (batchDiff left right i))
        (vpaddlq_u8 (batchDiff left right (i + 16))) =
      List.zipWith (fun x y => x + y) (vpaddlq_u8 (batchDiff left right i))
        (vpaddlq_u8 (batchDiff left right (i + 16))) ∧
    vaddq_u16 (vpaddlq_u8 (batchDiff left right (i + 32)))
        (vpaddlq_u8 (batchDiff left right (i + 48))) =
      List.zipWith (fun x y => x + y) (vpaddlq_u8 (batchDiff left right (i + 32)))
        (vpaddlq_u8 (batchDiff left right (i + 48))) ∧
    batchTotalSum left right i =
      List.zipWith (fun x y => x + y)
        (List.zipWith (fun x y => x + y) (vpaddlq_u8 (batchDiff left right i))
          (vpaddlq_u8 (batchDiff left right (i + 16))))
        (List.zipWith (fun x y => x + y) (vpaddlq_u8 (batchDiff left right (i + 32)))
          (vpaddlq_u8 (batchDiff left right (i + 48)))) ∧
    (batchTotalSum left right i).length = 8 ∧
    (∀ x ∈ batchTotalSum left right i, x ≤ 2040) ∧
    (batchFinalSum left right i).length = 4 ∧
    (∀ x ∈ batchFinalSum left right i, x ≤ 4080) ∧
    (∀ j, j < 4 → (batchFinalSum left right i).getD j 0 =
      (batchTotalSum left right i).getD (2 * j) 0 +
        (batchTotalSum left right i).getD (2 * j + 1) 0) ∧
    batchFinalSum64 left right i = vpaddlq_u32 (batchFinalSum left right i) := by
  have p := pair_le_510 left right
  have t := batchTotalSum_lane_le left right i
  refine ⟨?_, ?_, ?_, ?_, ?_, ?_, ?_, ?_, ?_, ?_, rfl⟩
  · intro off
    rw [batchDiff_eq]
    exact ⟨by simp, fun x hx => mem_range_map_le (fun k => absDiffNat_le left right _) hx⟩
  · intro off
    rw [batchPairSum_eq, batchDiff_eq]
    refine ⟨by simp, fun x hx => mem_range_map_le (fun j => p off j) hx, ?_⟩
    intro j hj
    have h1 : 2 * j < 16 := by omega
    have h2 : 2 * j + 1 < 16 := by omega
    simp only [List.getD_eq_getElem?_getD, List.getElem?_map, List.getElem?_range hj,
      List.getElem?_range h1, List.getElem?_range h2, Option.map_some', Option.getD_some]
  · rw [batchPairSum_eq, batchPairSum_eq]
    exact vaddq_u16_exact _ _ _ (fun j => by
      have := p i j; have := p (i + 16) j; omega)
  · rw [batchPairSum_eq, batchPairSum_eq]
    exact vaddq_u16_exact _ _ _ (fun j => by
      have := p (i + 32) j; have := p (i + 48) j; omega)
  · rw [batchTotalSum_eq, batchPairSum_eq, batchPairSum_eq, batchPairSum_eq, batchPairSum_eq]
    simp [List.zipWith_map]
  · rw [batchTotalSum_eq]
    simp
  · rw [batchTotalSum_eq]
    exact fun x hx => mem_range_map_le t hx
  · unfold batchFinalSum
    rw [batchTotalSum_eq, vpaddlq_u16_map _ t]
    simp
  · unfold batchFinalSum
    rw [batchTotalSum_eq, vpaddlq_u16_map _ t]
    exact fun x hx => mem_range_map_le
      (fun j => by have := t (2 * j); have := t (2 * j + 1); omega) hx
  · intro j hj
    unfold batchFinalSum
    rw [batchTotalSum_eq, vpaddlq_u16_map _ t]
    have h1 : 2 * j < 8 := by omega
    have h2 : 2 * j + 1 < 8 := by omega
    simp only [List.getD_eq_getElem?_getD, List.getElem?_map, List.getElem?_range hj,
      List.getElem?_range h1, List.getElem?_range h2, Option.map_some', Option.getD_some]

/-! ## C19: symmetry of the scorer -/

/-- Claim C19. For all grids `a`, `b` and all `width`, `height`,
`calculateSAD_NEON(a, b, width, height) = calculateSAD_NEON(b, a, width, height)`;
the classification computed from two gray buffers is the same in either order;
and for two bitmaps of the same width and height `isSBS` returns the same value
for `(leftHalf, rightHalf)` and for `(rightHalf, leftHalf)`, whatever the fresh
gray buffers contain. -/
theorem C19_scorer_is_symmetric (a b : Int → U8) :
    (∀ width height : Int,
      calculateSAD_NEON a b width height = calculateSAD_NEON b a width height) ∧
    sbsResult a b = sbsResult b a ∧
    (∀ (leftHalf rightHalf : Bitmap) (heapLeft heapRight heapLeft' heapRight' : Int → U8),
      leftHalf.info.width = rightHalf.info.width →
      leftHalf.info.height = rightHalf.info.height →
      Java_com_limelight_LeiaHelper_isSBS rightHalf leftHalf heapLeft' heapRight' =
        Java_com_limelight_LeiaHelper_isSBS leftHalf rightHalf heapLeft heapRight) := by
  refine ⟨?_, sbsResult_comm a b, ?_⟩
  · intro width height
    unfold calculateSAD_NEON
    rw [totalSAD_comm]
  · intro leftHalf rightHalf heapLeft heapRight heapLeft' heapRight' hw hh
    have hr : sbsResult (sbsGrays rightHalf leftHalf heapLeft' heapRight').1
        (sbsGrays rightHalf leftHalf heapLeft' heapRight').2 =
        sbsResult (sbsGrays leftHalf rightHalf heapLeft heapRight).1
          (sbsGrays leftHalf rightHalf heapLeft heapRight).2 := by
      rw [sbsResult_comm (sbsGrays leftHalf rightHalf heapLeft heapRight).1]
      apply sbsResult_congr
      intro j h0 h1
      obtain ⟨c1, c2⟩ := sbsGrays_cell rightHalf leftHalf heapLeft' heapRight' j h0 h1
      obtain ⟨d1, d2⟩ := sbsGrays_cell leftHalf rightHalf heapLeft heapRight j h0 h1
      rw [c1, c2, d1, d2, hw, hh]
      exact ⟨rfl, rfl⟩
    unfold Java_com_limelight_LeiaHelper_isSBS isSBSOutcome
    by_cases h1 : leftHalf.infoResult ≠ 0 ∨ rightHalf.infoResult ≠ 0
    · rw [if_pos h1, if_pos (Or.symm h1)]
    · rw [if_neg h1, if_neg (fun h => h1 (Or.symm h))]
      by_cases h2 : leftHalf.lockResult ≠ 0 ∨ rightHalf.lockResult ≠ 0
      · rw [if_pos h2, if_pos (Or.symm h2)]
      · rw [if_neg h2, if_neg (fun h => h2 (Or.symm h))]
        exact hr

/-! ## C20: the pointers in reachable states -/

/-- Claim C20. After any sequence of `set3D` calls from the initial globals,
with arbitrary answers of the loader in each call: a non-null `leiaLibHandle`
comes with non-null `leiaSet3DOn` and `leiaSet3DOff`, `current3DState = true`
comes with a non-null `leiaLibHandle`, and every call a further `set3D` makes
goes through a non-null function pointer. -/
theorem C20_pointers_consistent_in_reachable_states (calls : List Set3DCall) :
    ((globalsAfter calls).leiaLibHandle ≠ 0 →
      (globalsAfter calls).leiaSet3DOn ≠ 0 ∧ (globalsAfter calls).leiaSet3DOff ≠ 0) ∧
    ((globalsAfter calls).current3DState = true → (globalsAfter calls).leiaLibHandle ≠ 0) ∧
    ∀ (c : Set3DCall),
      ∀ b ∈ (Java_com_limelight_LeiaHelper_set3D c.dl c.on_ c.mode (globalsAfter calls)).2,
        b.fn ≠ 0 := by
  obtain ⟨h1, h2⟩ := foldl_set3D_invariant calls initialGlobals
    (fun h => absurd rfl h) (fun h => absurd h (by decide))
  exact ⟨h1, h2, fun c => set3D_calls_nonnull c.dl c.on_ c.mode _ h1 h2⟩

end Leia
